import Mathlib

/-!
# The I2C bus layer of the firmware (`main/src/i2c_bus.c`)

A shallow embedding of the bus transaction engine: the command-link helpers
(`i2c_bus_write_then_read`, `i2c_bus_read_byte`, `i2c_bus_write_byte`), the
executor (`i2c_bus_cmd_begin_unlocked`, `i2c_bus_cmd_begin`), the recovery
procedure (`i2c_unstick_bus`) and the address scanner (`i2c_bus_scan`).

The vendor hardware abstraction (I2C driver, GPIO, delay, mutex) is not part of
the firmware sources.  It is modelled as an arbitrary deterministic environment
`Hal`: every call receives the status the environment chooses, given the whole
history of calls so far, and every call is appended to a trace.  The functions
of `i2c_bus.c` are translated statement by statement over that environment.
-/

namespace I2CBus

/-! ## Status codes and small types -/

/-- The C type `esp_err_t`, a signed integer status. -/
abbrev esp_err_t := Int

/-- Status `ESP_OK`. -/
def ESP_OK : esp_err_t := 0
/-- Status `ESP_FAIL`, which the driver reports for a missing acknowledge. -/
def ESP_FAIL : esp_err_t := -1
/-- Status `ESP_ERR_NO_MEM`. -/
def ESP_ERR_NO_MEM : esp_err_t := 0x101
/-- Status `ESP_ERR_TIMEOUT`. -/
def ESP_ERR_TIMEOUT : esp_err_t := 0x107

/-- The constant `I2C_UNSTICK_BITS` of `i2c_bus.c`. -/
def I2C_UNSTICK_BITS : Nat := 32

/-- A timeout argument, kept the way the sources write it. -/
inductive TickType_t where
  | pdMS_TO_TICKS (ms : Nat)
  | portMAX_DELAY
  deriving DecidableEq, Repr

/-- Acknowledge policy of a read operation. -/
inductive i2c_ack_type_t where
  | I2C_MASTER_ACK
  | I2C_MASTER_NACK
  | I2C_MASTER_LAST_NACK
  deriving DecidableEq, Repr

/-- Direction of a GPIO pin. -/
inductive gpio_mode_t where
  | GPIO_MODE_INPUT
  | GPIO_MODE_OUTPUT
  deriving DecidableEq, Repr

/-- One operation of a command link. -/
inductive Op where
  | START
  | WRITE_BYTE (data : Nat) (ack_en : Bool)
  | WRITE (data : List Nat) (ack_en : Bool)
  | READ (len : Nat) (ack : i2c_ack_type_t)
  | STOP
  deriving DecidableEq, Repr

/-- A command link: the operations appended so far, in order. -/
abbrev i2c_cmd_handle_t := List Op

/-- The calls `i2c_bus.c` makes into the vendor layer and the C library. -/
inductive Call where
  | xSemaphoreTake
  | xSemaphoreGive
  | malloc (size : Nat)
  | free (ptr : Int)
  | i2c_cmd_link_create_static (buffer : Int) (size : Nat)
  | i2c_cmd_link_delete_static
  | i2c_master_start
  | i2c_master_write_byte (data : Nat) (ack_en : Bool)
  | i2c_master_write (data : List Nat) (ack_en : Bool)
  | i2c_master_read (len : Nat) (ack : i2c_ack_type_t)
  | i2c_master_stop
  | i2c_master_cmd_begin (port : Nat) (link : i2c_cmd_handle_t) (timeout : TickType_t)
  | i2c_driver_delete (port : Nat)
  | i2c_param_config (port : Nat) (sda_io_num : Nat) (scl_io_num : Nat) (clk_speed : Nat)
  | i2c_driver_install (port : Nat)
  | gpio_reset_pin (pin : Nat)
  | gpio_set_direction (pin : Nat) (mode : gpio_mode_t)
  | gpio_set_level (pin : Nat) (level : Nat)
  | ets_delay_us (us : Nat)
  deriving DecidableEq, Repr

/-- A call together with the value it returned (0 for calls whose value is
not used: `void` functions and the semaphore operations). -/
structure Event where
  call : Call
  ret : Int
  deriving DecidableEq, Repr

/-- The vendor layer as an environment: the value each call returns, and the
bytes a submission stores through the link's read operation, both as a function
of the history of events. -/
structure Hal where
  answer : List Event → Call → Int
  rx : List Event → Call → List Nat
  I2C_LINK_RECOMMENDED_SIZE : Nat → Nat

/-- The fields of `i2c_bus_t` that `i2c_bus.c` uses; `lock` is true while the
mutex is held, `cmd_buf` is the address of the static command buffer and
`cmd_buf_size` is `sizeof(bus->cmd_buf)`. -/
structure i2c_bus_t where
  i2c_port : Nat
  gpio_sda : Nat
  gpio_scl : Nat
  speed_hz : Nat
  lock : Bool
  cmd_buf : Int
  cmd_buf_size : Nat
  deriving DecidableEq, Repr

/-- The memory the code works on: the bus structure, the caller's read buffer
and the trace of calls made so far. -/
structure State where
  bus : i2c_bus_t
  data_read : List Nat
  trace : List Event
  deriving DecidableEq, Repr

/-- How a call of one of the functions ends: it returns a value, or
`ESP_ERROR_CHECK` aborts the program. -/
inductive Outcome (α : Type) where
  | ret (a : α) (s : State)
  | abort (s : State)

/-- The state in which a call ended. -/
def Outcome.state {α : Type} : Outcome α → State
  | .ret _ s => s
  | .abort s => s

/-- Whether the call returned to its caller. -/
def Outcome.returned {α : Type} : Outcome α → Bool
  | .ret _ _ => true
  | .abort _ => false

/-- The returned value, when the call returned. -/
def Outcome.value {α : Type} : Outcome α → Option α
  | .ret a _ => some a
  | .abort _ => none

/-- A computation over the state that may abort. -/
def HW (α : Type) : Type := State → Outcome α

/-- Sequencing: an abort ends the computation. -/
def HW.bind {α β : Type} (m : HW α) (f : α → HW β) : HW β := fun s =>
  match m s with
  | .ret a s1 => f a s1
  | .abort s1 => .abort s1

instance : Monad HW where
  pure a := fun s => .ret a s
  bind := HW.bind

/-! ## The vendor layer -/

/-- Append an event to the trace. -/
def State.log (s : State) (c : Call) (r : Int) : State :=
  { s with trace := s.trace ++ [⟨c, r⟩] }

/-- A call whose returned value the environment chooses. -/
def hal_call (hal : Hal) (c : Call) : HW Int := fun s =>
  .ret (hal.answer s.trace c) (s.log c (hal.answer s.trace c))

/-- A call whose value is not used. -/
def hal_void (c : Call) : HW Unit := fun s => .ret () (s.log c 0)

/-- Read the bus structure. -/
def getBus : HW i2c_bus_t := fun s => .ret s.bus s

/-- The macro `ESP_ERROR_CHECK`: abort unless the status is `ESP_OK`. -/
def ESP_ERROR_CHECK (x : HW esp_err_t) : HW Unit := fun s =>
  match x s with
  | .ret err s1 => if err ≠ ESP_OK then .abort s1 else .ret () s1
  | .abort s1 => .abort s1

/-- Taking the mutex with `portMAX_DELAY`: returns once the caller owns it. -/
def xSemaphoreTake : HW Unit := fun s =>
  .ret () ({ s with bus := { s.bus with lock := true } }.log .xSemaphoreTake 0)

/-- Giving the mutex back. -/
def xSemaphoreGive : HW Unit := fun s =>
  .ret () ({ s with bus := { s.bus with lock := false } }.log .xSemaphoreGive 0)

/-- A link-building call: on `ESP_OK` the operation is appended to the link. -/
def link_step (hal : Hal) (c : Call) (op : Op) (cmd : i2c_cmd_handle_t) :
    HW (esp_err_t × i2c_cmd_handle_t) := fun s =>
  .ret (hal.answer s.trace c, if hal.answer s.trace c = ESP_OK then cmd ++ [op] else cmd)
    (s.log c (hal.answer s.trace c))

/-- Vendor call `i2c_master_start`. -/
def i2c_master_start (hal : Hal) (cmd : i2c_cmd_handle_t) :=
  link_step hal .i2c_master_start .START cmd

/-- Vendor call `i2c_master_write_byte`. -/
def i2c_master_write_byte (hal : Hal) (cmd : i2c_cmd_handle_t) (data : Nat) (ack_en : Bool) :=
  link_step hal (.i2c_master_write_byte data ack_en) (.WRITE_BYTE data ack_en) cmd

/-- Vendor call `i2c_master_write`. -/
def i2c_master_write (hal : Hal) (cmd : i2c_cmd_handle_t) (data : List Nat) (ack_en : Bool) :=
  link_step hal (.i2c_master_write data ack_en) (.WRITE data ack_en) cmd

/-- Vendor call `i2c_master_read`. -/
def i2c_master_read (hal : Hal) (cmd : i2c_cmd_handle_t) (len : Nat) (ack : i2c_ack_type_t) :=
  link_step hal (.i2c_master_read len ack) (.READ len ack) cmd

/-- Vendor call `i2c_master_stop`. -/
def i2c_master_stop (hal : Hal) (cmd : i2c_cmd_handle_t) :=
  link_step hal .i2c_master_stop .STOP cmd

/-- Number of bytes the read operations of a link ask for. -/
def readLen : i2c_cmd_handle_t → Nat
  | [] => 0
  | .READ len _ :: ops => len + readLen ops
  | _ :: ops => readLen ops

/-- Bytes `rx` stored from the start of a buffer; the buffer keeps its size. -/
def storeBytes (rx : List Nat) (buf : List Nat) : List Nat :=
  (rx ++ buf.drop rx.length).take buf.length

/-- Vendor call `i2c_master_cmd_begin`: the environment chooses the status and
the bytes read; at most as many bytes as the link's read operations ask for
are stored in the read buffer. -/
def i2c_master_cmd_begin (hal : Hal) (port : Nat) (handle : i2c_cmd_handle_t)
    (timeout : TickType_t) : HW esp_err_t := fun s =>
  let c := Call.i2c_master_cmd_begin port handle timeout
  .ret (hal.answer s.trace c)
    ({ s with data_read := storeBytes ((hal.rx s.trace c).take (readLen handle)) s.data_read }.log
      c (hal.answer s.trace c))

/-- The macro `DIV_ROUND_UP` of `util.h`.  That header is not among the source
files; the macro is taken with the meaning its name states, the usual
`((n) + (d) - 1) / (d)`, computed in 32-bit `unsigned long`.  The value is that
of the C expression for `0 < d` only: for `d = 0` the C expression divides by
zero, while this function returns 0.  Statements about a recovery pass that
runs its delays therefore assume a bus with `0 < speed_hz`. -/
def DIV_ROUND_UP (n d : Nat) : Nat := ((n + d - 1) % 2 ^ 32) / d

/-! ## `i2c_bus.c` -/

/-- Source function `i2c_bus_init_`. -/
def i2c_bus_init_ (hal : Hal) : HW esp_err_t := do
  let bus ← getBus
  let err ← hal_call hal (.i2c_param_config bus.i2c_port bus.gpio_sda bus.gpio_scl bus.speed_hz)
  if err ≠ 0 then
    return err
  else
    hal_call hal (.i2c_driver_install bus.i2c_port)

/-- Source function `i2c_bus_deinit_`. -/
def i2c_bus_deinit_ (hal : Hal) : HW esp_err_t := do
  let bus ← getBus
  hal_call hal (.i2c_driver_delete bus.i2c_port)

/-- The loop of `i2c_unstick_bus`, with `n` iterations left. -/
def unstick_loop (hal : Hal) : Nat → HW Unit
  | 0 => pure ()
  | n + 1 => do
    let bus ← getBus
    ESP_ERROR_CHECK (hal_call hal (.gpio_set_level bus.gpio_scl 0))
    hal_void (.ets_delay_us (DIV_ROUND_UP 1000000 bus.speed_hz))
    ESP_ERROR_CHECK (hal_call hal (.gpio_set_level bus.gpio_scl 1))
    hal_void (.ets_delay_us (DIV_ROUND_UP 1000000 bus.speed_hz))
    unstick_loop hal n

/-- Source function `i2c_unstick_bus`. -/
def i2c_unstick_bus (hal : Hal) : HW Unit := do
  let bus ← getBus
  ESP_ERROR_CHECK (i2c_bus_deinit_ hal)
  ESP_ERROR_CHECK (hal_call hal (.gpio_reset_pin bus.gpio_sda))
  ESP_ERROR_CHECK (hal_call hal (.gpio_set_direction bus.gpio_sda .GPIO_MODE_INPUT))
  ESP_ERROR_CHECK (hal_call hal (.gpio_reset_pin bus.gpio_scl))
  ESP_ERROR_CHECK (hal_call hal (.gpio_set_direction bus.gpio_scl .GPIO_MODE_OUTPUT))
  unstick_loop hal I2C_UNSTICK_BITS
  ESP_ERROR_CHECK (i2c_bus_init_ hal)

/-- Source function `i2c_bus_cmd_begin_unlocked`. -/
def i2c_bus_cmd_begin_unlocked (hal : Hal) (handle : i2c_cmd_handle_t)
    (timeout : TickType_t) : HW esp_err_t := do
  let bus ← getBus
  let err ← i2c_master_cmd_begin hal bus.i2c_port handle timeout
  if err = ESP_ERR_TIMEOUT then
    i2c_unstick_bus hal
    return err
  else
    return err

/-- Source function `i2c_bus_cmd_begin`. -/
def i2c_bus_cmd_begin (hal : Hal) (handle : i2c_cmd_handle_t)
    (timeout : TickType_t) : HW esp_err_t := do
  xSemaphoreTake
  let err ← i2c_bus_cmd_begin_unlocked hal handle timeout
  xSemaphoreGive
  return err

/-- The exit path `fail_link` of `i2c_bus_write_then_read`. -/
def write_then_read_fail_link (err : esp_err_t) : HW esp_err_t := do
  hal_void .i2c_cmd_link_delete_static
  xSemaphoreGive
  return err

/-- The end of `i2c_bus_write_then_read`, from the `i2c_master_stop` step on. -/
def write_then_read_stop (hal : Hal) (cmd : i2c_cmd_handle_t) : HW esp_err_t := do
  let r ← i2c_master_stop hal cmd
  if r.1 ≠ 0 then write_then_read_fail_link r.1 else
  let err ← i2c_bus_cmd_begin_unlocked hal r.2 (.pdMS_TO_TICKS 100)
  write_then_read_fail_link err

/-- Source function `i2c_bus_write_then_read`.  The read buffer `data_read` is
`State.data_read`. -/
def i2c_bus_write_then_read (hal : Hal) (address : Nat) (data_write : List Nat)
    (read_len : Nat) : HW esp_err_t := do
  xSemaphoreTake
  let bus ← getBus
  let cmd ← hal_call hal (.i2c_cmd_link_create_static bus.cmd_buf bus.cmd_buf_size)
  if cmd = 0 then
    xSemaphoreGive
    return ESP_ERR_NO_MEM
  else
    let r ← i2c_master_start hal []
    if r.1 ≠ 0 then write_then_read_fail_link r.1 else
    let r ← i2c_master_write_byte hal r.2 ((address <<< 1) % 256) true
    if r.1 ≠ 0 then write_then_read_fail_link r.1 else
    let r ← i2c_master_write hal r.2 data_write true
    if r.1 ≠ 0 then write_then_read_fail_link r.1 else
    if read_len ≠ 0 then
      let r ← i2c_master_start hal r.2
      if r.1 ≠ 0 then write_then_read_fail_link r.1 else
      let r ← i2c_master_write_byte hal r.2 (((address <<< 1) ||| 1) % 256) true
      if r.1 ≠ 0 then write_then_read_fail_link r.1 else
      let r ← i2c_master_read hal r.2 read_len .I2C_MASTER_LAST_NACK
      if r.1 ≠ 0 then write_then_read_fail_link r.1 else
      write_then_read_stop hal r.2
    else
      write_then_read_stop hal r.2

/-- Source function `i2c_bus_read_byte`; the result `*res` is the one-byte
read buffer `State.data_read`. -/
def i2c_bus_read_byte (hal : Hal) (address : Nat) (reg : Nat) : HW esp_err_t :=
  i2c_bus_write_then_read hal address [reg] 1

/-- Source function `i2c_bus_write_byte`. -/
def i2c_bus_write_byte (hal : Hal) (address : Nat) (reg : Nat) (val : Nat) : HW esp_err_t :=
  i2c_bus_write_then_read hal address [reg, val] 0

/-- Modelled from the spec: the type `i2c_address_set_t` of `i2c_bus.h`, which
is not among the source files: a membership record over the addresses. -/
abbrev i2c_address_set_t := Nat → Bool

/-- Modelled from the spec: the macro `I2C_ADDRESS_SET_CLEAR` of `i2c_bus.h`,
which marks one address absent. -/
def I2C_ADDRESS_SET_CLEAR (addr : i2c_address_set_t) (i : Nat) : i2c_address_set_t :=
  fun j => if j = i then false else addr j

/-- Modelled from the spec: the macro `I2C_ADDRESS_SET_SET` of `i2c_bus.h`,
which marks one address present. -/
def I2C_ADDRESS_SET_SET (addr : i2c_address_set_t) (i : Nat) : i2c_address_set_t :=
  fun j => if j = i then true else addr j

/-- Modelled from the spec: the macro `I2C_ADDRESS_SET_CONTAINS` of
`i2c_bus.h`, the membership test. -/
def I2C_ADDRESS_SET_CONTAINS (addr : i2c_address_set_t) (i : Nat) : Bool := addr i

/-- The exit path `fail_link` of `i2c_bus_scan`: delete the link and leave the
loop. -/
def scan_fail_link (err : esp_err_t) (addr : i2c_address_set_t) :
    HW (esp_err_t × i2c_address_set_t) := do
  hal_void .i2c_cmd_link_delete_static
  return (err, addr)

/-- The loop of `i2c_bus_scan` with `n` iterations left, at address `i`
(`for (uint8_t i = 0; i < 128; i++)` is `scan_loop 128 0`). -/
def scan_loop (hal : Hal) (link_buf : Int) (link_buf_size : Nat) :
    Nat → Nat → esp_err_t → i2c_address_set_t → HW (esp_err_t × i2c_address_set_t)
  | 0, _, err, addr => pure (err, addr)
  | n + 1, i, _, addr => do
    let addr := I2C_ADDRESS_SET_CLEAR addr i
    let cmd ← hal_call hal (.i2c_cmd_link_create_static link_buf link_buf_size)
    if cmd = 0 then
      scan_loop hal link_buf link_buf_size n (i + 1) ESP_ERR_NO_MEM addr
    else
      let r ← i2c_master_start hal []
      if r.1 ≠ 0 then scan_fail_link r.1 addr else
      let r ← i2c_master_write_byte hal r.2 ((i <<< 1) % 256) true
      if r.1 ≠ 0 then scan_fail_link r.1 addr else
      let r ← i2c_master_stop hal r.2
      if r.1 ≠ 0 then scan_fail_link r.1 addr else
      let nacked ← i2c_bus_cmd_begin hal r.2 (.pdMS_TO_TICKS 100)
      let addr := if nacked = 0 then I2C_ADDRESS_SET_SET addr i else addr
      hal_void .i2c_cmd_link_delete_static
      scan_loop hal link_buf link_buf_size n (i + 1) r.1 addr

/-- Source function `i2c_bus_scan`; the address set is passed in and returned
with the status. -/
def i2c_bus_scan (hal : Hal) (addr : i2c_address_set_t) :
    HW (esp_err_t × i2c_address_set_t) := do
  let link_buf ← hal_call hal (.malloc (hal.I2C_LINK_RECOMMENDED_SIZE 1))
  let r ← scan_loop hal link_buf (hal.I2C_LINK_RECOMMENDED_SIZE 1) 128 0 ESP_OK addr
  hal_void (.free link_buf)
  return r

/-! ## Reading traces -/

/-- The state with further events appended to the trace. -/
def State.ext (s : State) (l : List Event) : State :=
  { s with trace := s.trace ++ l }

/-- The events of `n` clock pulses: clock low, delay, clock high, delay, all
reporting success. -/
def toggleSequence (scl d : Nat) : Nat → List Event
  | 0 => []
  | n + 1 =>
    [⟨.gpio_set_level scl 0, 0⟩, ⟨.ets_delay_us d, 0⟩,
     ⟨.gpio_set_level scl 1, 0⟩, ⟨.ets_delay_us d, 0⟩] ++ toggleSequence scl d n

/-- The events of one complete recovery pass on a bus, all reporting success:
driver teardown, data line reset and input, clock line reset and output, 32
clock pulses, driver configuration and installation. -/
def recoverySequence (bus : i2c_bus_t) : List Event :=
  [⟨.i2c_driver_delete bus.i2c_port, 0⟩,
   ⟨.gpio_reset_pin bus.gpio_sda, 0⟩,
   ⟨.gpio_set_direction bus.gpio_sda .GPIO_MODE_INPUT, 0⟩,
   ⟨.gpio_reset_pin bus.gpio_scl, 0⟩,
   ⟨.gpio_set_direction bus.gpio_scl .GPIO_MODE_OUTPUT, 0⟩] ++
  (toggleSequence bus.gpio_scl (DIV_ROUND_UP 1000000 bus.speed_hz) 32 ++
  [⟨.i2c_param_config bus.i2c_port bus.gpio_sda bus.gpio_scl bus.speed_hz, 0⟩,
   ⟨.i2c_driver_install bus.i2c_port, 0⟩])

/-- A computation that issues the calls of `canon` in order and aborts at the
first one whose status is not `ESP_OK`: either all of `canon` is appended to
the trace and it returns, or the trace gets the calls before the failing one
and the failing call with its status, and the program aborts. -/
def Checked (hal : Hal) (m : HW Unit) (bus : i2c_bus_t) (canon : List Event) : Prop :=
  ∀ s : State, s.bus = bus →
    m s = .ret () (s.ext canon) ∨
    ∃ pre c rest, canon = pre ++ ⟨c, 0⟩ :: rest ∧ hal.answer (s.trace ++ pre) c ≠ 0 ∧
      m s = .abort (s.ext (pre ++ [⟨c, hal.answer (s.trace ++ pre) c⟩]))

/-- The state with the lock flag of the bus set. -/
def State.setLock (s : State) (b : Bool) : State :=
  { s with bus := { s.bus with lock := b } }

/-- The state with new contents of the read buffer. -/
def State.setData (s : State) (d : List Nat) : State :=
  { s with data_read := d }

/-- The events a call added to the trace of the state it started in. -/
def newEvents {α : Type} (s : State) (out : Outcome α) : List Event :=
  out.state.trace.drop s.trace.length

/-- Submissions of a command link to the hardware. -/
def Call.isSubmit : Call → Bool
  | .i2c_master_cmd_begin _ _ _ => true
  | _ => false

/-- Calls of the recovery procedure: driver teardown and set-up, GPIO
operations and delays. -/
def Call.isRecovery : Call → Bool
  | .i2c_driver_delete _ => true
  | .i2c_param_config _ _ _ _ => true
  | .i2c_driver_install _ => true
  | .gpio_reset_pin _ => true
  | .gpio_set_direction _ _ => true
  | .gpio_set_level _ _ => true
  | .ets_delay_us _ => true
  | _ => false

/-- Steps that add an operation to a command link. -/
def Call.isBuildStep : Call → Bool
  | .i2c_master_start => true
  | .i2c_master_write_byte _ _ => true
  | .i2c_master_write _ _ => true
  | .i2c_master_read _ _ => true
  | .i2c_master_stop => true
  | _ => false

/-- A link-construction event that failed: link creation returned no handle,
or a building step returned a status other than `ESP_OK`. -/
def Event.buildFailed (e : Event) : Bool :=
  match e.call with
  | .i2c_cmd_link_create_static _ _ => e.ret == 0
  | c => c.isBuildStep && e.ret != 0

/-- The submissions in a trace, in order. -/
def submissions (t : List Event) : List Call :=
  (t.map Event.call).filter Call.isSubmit

/-- The durations of the delays in a trace, in order. -/
def delays (t : List Event) : List Nat :=
  t.filterMap fun e =>
    match e.call with
    | .ets_delay_us us => some us
    | _ => none

/-- The events in a trace that satisfy a test on their call. -/
def eventsOf (p : Call → Bool) (t : List Event) : List Event :=
  t.filter fun e => p e.call

/-- An environment in which every call of the recovery procedure succeeds. -/
def Hal.RecoveryOk (hal : Hal) : Prop :=
  ∀ h c, c.isRecovery = true → hal.answer h c = 0

/-- An environment in which no submission reports a timeout. -/
def Hal.NoTimeout (hal : Hal) : Prop :=
  ∀ h c, c.isSubmit = true → hal.answer h c ≠ ESP_ERR_TIMEOUT

/-- An environment in which link construction never fails: link creation
returns a handle and every building step returns `ESP_OK`. -/
def Hal.BuildOk (hal : Hal) : Prop :=
  (∀ h buffer size, hal.answer h (.i2c_cmd_link_create_static buffer size) ≠ 0) ∧
  ∀ h c, c.isBuildStep = true → hal.answer h c = 0

/-- The state right after a submission of `handle`: the bytes read are stored
in the read buffer and the submission is appended to the trace with its
status. -/
def afterSubmit (hal : Hal) (handle : i2c_cmd_handle_t) (timeout : TickType_t)
    (s : State) : State :=
  (s.setData (storeBytes
      ((hal.rx s.trace (.i2c_master_cmd_begin s.bus.i2c_port handle timeout)).take
        (readLen handle)) s.data_read)).ext
    [⟨.i2c_master_cmd_begin s.bus.i2c_port handle timeout,
      hal.answer s.trace (.i2c_master_cmd_begin s.bus.i2c_port handle timeout)⟩]

/-- An environment that answers every call with success. -/
def okHal : Hal where
  answer := fun _ _ => 0
  rx := fun _ _ => []
  I2C_LINK_RECOMMENDED_SIZE := fun _ => 168

/-- A bus on port 0 with data line 0, clock line 2 and the given speed. -/
def busAt (speed_hz : Nat) : i2c_bus_t :=
  ⟨0, 0, 2, speed_hz, false, 1000, 64⟩

/-- A state of the bus `busAt speed_hz` with a one-byte read buffer and an
empty trace. -/
def stateAt (speed_hz : Nat) : State :=
  ⟨busAt speed_hz, [0], []⟩

/-- Events of calls that all returned 0. -/
def okEvents (cs : List Call) : List Event :=
  cs.map fun c => ⟨c, 0⟩

/-- A chain of link-building steps, each followed by the test
`if (err) goto fail_link`: the steps run in order, the first status other than
`ESP_OK` goes to `fail`, and a complete link goes on to `k`. -/
def runSteps {β : Type} (hal : Hal) (fail : esp_err_t → HW β) :
    List (Call × Op) → i2c_cmd_handle_t → (i2c_cmd_handle_t → HW β) → HW β
  | [], cmd, k => k cmd
  | (c, op) :: rest, cmd, k =>
    link_step hal c op cmd >>= fun r =>
      if r.1 ≠ 0 then fail r.1 else runSteps hal fail rest r.2 k

/-- The link-building steps of `i2c_bus_write_then_read`, in the order of the
source. -/
def write_then_read_steps (address : Nat) (data_write : List Nat) (read_len : Nat) :
    List (Call × Op) :=
  [(.i2c_master_start, .START),
   (.i2c_master_write_byte ((address <<< 1) % 256) true,
     .WRITE_BYTE ((address <<< 1) % 256) true),
   (.i2c_master_write data_write true, .WRITE data_write true)] ++
  ((if read_len ≠ 0 then
    [(.i2c_master_start, .START),
     (.i2c_master_write_byte (((address <<< 1) ||| 1) % 256) true,
       .WRITE_BYTE (((address <<< 1) ||| 1) % 256) true),
     (.i2c_master_read read_len .I2C_MASTER_LAST_NACK,
       .READ read_len .I2C_MASTER_LAST_NACK)]
   else []) ++
  [(.i2c_master_stop, .STOP)])

/-- The first events of a call of `i2c_bus_write_then_read` that got a link:
the lock is taken and the link is created with handle `p`. -/
def linkOpened (s : State) (p : Int) : List Event :=
  [⟨.xSemaphoreTake, 0⟩, ⟨.i2c_cmd_link_create_static s.bus.cmd_buf s.bus.cmd_buf_size, p⟩]

/-- The last events of such a call: the link is deleted and the lock given. -/
def linkClosed : List Event :=
  [⟨.i2c_cmd_link_delete_static, 0⟩, ⟨.xSemaphoreGive, 0⟩]

/-- The handle that link creation returns in `i2c_bus_write_then_read`. -/
def createdHandle (hal : Hal) (s : State) : Int :=
  hal.answer (s.trace ++ [⟨.xSemaphoreTake, 0⟩])
    (.i2c_cmd_link_create_static s.bus.cmd_buf s.bus.cmd_buf_size)

/-- The state in which `i2c_bus_write_then_read` submits its link, when all
building steps succeeded. -/
def builtState (hal : Hal) (address : Nat) (data_write : List Nat) (read_len : Nat)
    (s : State) : State :=
  (s.setLock true).ext (linkOpened s (createdHandle hal s) ++
    okEvents ((write_then_read_steps address data_write read_len).map Prod.fst))

/-- The link `i2c_bus_write_then_read` has built when all steps succeeded. -/
def builtLink (address : Nat) (data_write : List Nat) (read_len : Nat) : i2c_cmd_handle_t :=
  (write_then_read_steps address data_write read_len).map Prod.snd

/-- The submission `i2c_bus_write_then_read` makes. -/
def submitCall (s : State) (address : Nat) (data_write : List Nat) (read_len : Nat) : Call :=
  .i2c_master_cmd_begin s.bus.i2c_port (builtLink address data_write read_len)
    (.pdMS_TO_TICKS 100)

/-- The status the environment gives to that submission. -/
def submitStatus (hal : Hal) (address : Nat) (data_write : List Nat) (read_len : Nat)
    (s : State) : Int :=
  hal.answer (builtState hal address data_write read_len s).trace
    (submitCall s address data_write read_len)

/-- The events of a call of `i2c_bus_write_then_read` up to and including the
submission. -/
def submitted (hal : Hal) (address : Nat) (data_write : List Nat) (read_len : Nat)
    (s : State) : List Event :=
  linkOpened s (createdHandle hal s) ++
    (okEvents ((write_then_read_steps address data_write read_len).map Prod.fst) ++
      [⟨submitCall s address data_write read_len,
        submitStatus hal address data_write read_len s⟩])

/-- The command link as the specification words it: START, the address with
write intent, the payload, then for a non-empty read a repeated START, the
address with read intent and the read with a NACK after the last byte, and
STOP. -/
def specLink (a : Nat) (w : List Nat) (n : Nat) : i2c_cmd_handle_t :=
  [.START, .WRITE_BYTE (2 * a) true, .WRITE w true] ++
  ((if n ≠ 0 then
      [.START, .WRITE_BYTE (2 * a + 1) true, .READ n .I2C_MASTER_LAST_NACK]
    else []) ++
  [.STOP])

/-- The address a link is directed to: half of its first address byte. -/
def linkAddress : i2c_cmd_handle_t → Nat
  | [] => 0
  | .WRITE_BYTE b _ :: _ => b / 2
  | _ :: ops => linkAddress ops

/-- A simulated bus: link creation returns a handle, every building step and
every recovery call succeeds, and a submission gets the status `status i` of
the address `i` the link is directed to. -/
def simBus (status : Nat → Int) : Hal where
  answer := fun _ c =>
    match c with
    | .i2c_cmd_link_create_static _ _ => 1
    | .malloc _ => 4096
    | .i2c_master_cmd_begin _ link _ => status (linkAddress link)
    | _ => 0
  rx := fun _ _ => []
  I2C_LINK_RECOMMENDED_SIZE := fun _ => 168

/-- Link creation. -/
def Call.isCreate : Call → Bool
  | .i2c_cmd_link_create_static _ _ => true
  | _ => false

/-- Link deletion. -/
def Call.isDelete : Call → Bool
  | .i2c_cmd_link_delete_static => true
  | _ => false

/-- Taking or giving the lock. -/
def Call.isLock : Call → Bool
  | .xSemaphoreTake => true
  | .xSemaphoreGive => true
  | _ => false

/-- A simulated vendor layer whose `i2c_master_write` step fails with
`ESP_ERR_NO_MEM`; every other call succeeds. -/
def writeFailBus : Hal where
  answer := fun _ c =>
    match c with
    | .i2c_cmd_link_create_static _ _ => 1
    | .malloc _ => 4096
    | .i2c_master_write _ _ => ESP_ERR_NO_MEM
    | _ => 0
  rx := fun _ _ => []
  I2C_LINK_RECOMMENDED_SIZE := fun _ => 168

/-- The call took the lock as its first action and gave it as its last action,
did neither in between, and left the lock free. -/
def LockedOnce {α : Type} (s : State) (out : Outcome α) : Prop :=
  ∃ mid, newEvents s out = ⟨.xSemaphoreTake, 0⟩ :: (mid ++ [⟨.xSemaphoreGive, 0⟩]) ∧
    (∀ e ∈ mid, e.call.isLock = false) ∧
    out.state.bus.lock = false

/-- The register and value a submission writes, when it is a two-byte write to
the slave at address `a`. -/
def regWrite (a : Nat) (e : Event) : Option (Nat × Nat) :=
  match e.call with
  | .i2c_master_cmd_begin _ [.START, .WRITE_BYTE b _, .WRITE [r, v] _, .STOP] _ =>
    if b = 2 * a then some (r, v) else none
  | _ => none

/-- The register file of the simulated slave after a history of events: every
register holds the value last written to it, 0 before the first write. -/
def regFile (a : Nat) (h : List Event) : Nat → Nat :=
  h.foldl (fun regs e =>
    match regWrite a e with
    | some (r, v) => Function.update regs r v
    | none => regs) (fun _ => 0)

/-- A simulated register-file slave at address `a`: links directed to `a` are
acknowledged, a two-byte write stores its second byte in the register named by
the first, and a one-byte write followed by a repeated-START read returns the
content of the register named by the written byte. -/
def regSlave (a : Nat) : Hal where
  answer := fun _ c =>
    match c with
    | .i2c_cmd_link_create_static _ _ => 1
    | .malloc _ => 4096
    | .i2c_master_cmd_begin _ link _ => if linkAddress link = a then 0 else ESP_FAIL
    | _ => 0
  rx := fun h c =>
    match c with
    | .i2c_master_cmd_begin _
        [.START, .WRITE_BYTE b _, .WRITE [r] _, .START, .WRITE_BYTE b2 _, .READ _ _, .STOP] _ =>
      if b = 2 * a ∧ b2 = 2 * a + 1 then [regFile a h r] else []
    | _ => []
  I2C_LINK_RECOMMENDED_SIZE := fun _ => 168

/-- An environment in which a timeout never ends in an abort: its recovery
calls all succeed, or its submissions never time out. -/
def Hal.Recovers (hal : Hal) : Prop :=
  hal.RecoveryOk ∨ hal.NoTimeout

/-- The link `i2c_bus_scan` builds for address `i`. -/
def probeLink (i : Nat) : i2c_cmd_handle_t :=
  [.START, .WRITE_BYTE ((i <<< 1) % 256) true, .STOP]

/-- The submission `i2c_bus_scan` makes for address `i`. -/
def probeCall (bus : i2c_bus_t) (i : Nat) : Call :=
  .i2c_master_cmd_begin bus.i2c_port (probeLink i) (.pdMS_TO_TICKS 100)

/-- The events of the successful construction of the link for address `i`,
with the handle `p`. -/
def probeBuilt (link_buf : Int) (link_buf_size : Nat) (i : Nat) (p : Int) : List Event :=
  [⟨.i2c_cmd_link_create_static link_buf link_buf_size, p⟩,
   ⟨.i2c_master_start, 0⟩,
   ⟨.i2c_master_write_byte ((i <<< 1) % 256) true, 0⟩,
   ⟨.i2c_master_stop, 0⟩]

/-- The events of one probe of address `i` whose link was built with handle
`p` and whose submission got status `r`: construction, then under the lock the
submission and, after a timeout, a recovery pass, then link deletion. -/
def probeEvents (bus : i2c_bus_t) (link_buf : Int) (link_buf_size : Nat) (i : Nat)
    (p r : Int) : List Event :=
  probeBuilt link_buf link_buf_size i p ++
    (⟨.xSemaphoreTake, 0⟩ :: ⟨probeCall bus i, r⟩ ::
      ((if r = ESP_ERR_TIMEOUT then recoverySequence bus else []) ++
        [⟨.xSemaphoreGive, 0⟩, ⟨.i2c_cmd_link_delete_static, 0⟩]))

/-- The events of `n` consecutive probes starting at address `i`, with handles
`p j` and statuses `r j`. -/
def scanEvents (bus : i2c_bus_t) (link_buf : Int) (link_buf_size : Nat) (p r : Nat → Int) :
    Nat → Nat → List Event
  | 0, _ => []
  | n + 1, i =>
    probeEvents bus link_buf link_buf_size i (p i) (r i) ++
      scanEvents bus link_buf link_buf_size p r n (i + 1)

/-- Taking the lock. -/
def Call.isTake : Call → Bool
  | .xSemaphoreTake => true
  | _ => false

/-- Giving the lock. -/
def Call.isGive : Call → Bool
  | .xSemaphoreGive => true
  | _ => false

/-- The submission of the link START, WRITE-BYTE(2i, ack required), STOP with
a timeout of 100 ms on the port of the bus: the probe of address `i` as the
specification words it. -/
def specProbe (bus : i2c_bus_t) (i : Nat) : Call :=
  .i2c_master_cmd_begin bus.i2c_port [.START, .WRITE_BYTE (2 * i) true, .STOP]
    (.pdMS_TO_TICKS 100)

/-- The simulated bus on which exactly the addresses 0x18 and 0x6B
acknowledge; every other probe is refused with `ESP_FAIL`. -/
def twoDeviceBus : Hal :=
  simBus fun i => if i = 0x18 ∨ i = 0x6B then 0 else ESP_FAIL

/-- The simulated bus on which the probe of address 0x18 times out and every
other probe is refused with `ESP_FAIL`; recovery succeeds. -/
def wedgedBus : Hal :=
  simBus fun i => if i = 0x18 then ESP_ERR_TIMEOUT else ESP_FAIL

/-- The events of a complete scan: allocation of the link buffer at `m`, the
128 probes, and the release of the buffer. -/
def scanTrace (hal : Hal) (bus : i2c_bus_t) (m : Int) (p r : Nat → Int) : List Event :=
  ⟨.malloc (hal.I2C_LINK_RECOMMENDED_SIZE 1), m⟩ ::
    (scanEvents bus m (hal.I2C_LINK_RECOMMENDED_SIZE 1) p r 128 0 ++ [⟨.free m, 0⟩])

/-- A link-building step that returned a status other than `ESP_OK`. -/
def Event.stepFailed (e : Event) : Bool :=
  e.call.isBuildStep && e.ret != 0

/-- The command link a submission carries. -/
def Call.link : Call → Option i2c_cmd_handle_t
  | .i2c_master_cmd_begin _ link _ => some link
  | _ => none

/-- The command links submitted in a trace, in order. -/
def linksSubmitted (t : List Event) : List i2c_cmd_handle_t :=
  (submissions t).filterMap Call.link

/-- Number of START operations of a link. -/
def startCount (link : i2c_cmd_handle_t) : Nat :=
  link.count .START

/-- Read operations. -/
def Op.isRead : Op → Bool
  | .READ _ _ => true
  | _ => false

/-- The read operations of a link, in order. -/
def readOps (link : i2c_cmd_handle_t) : List Op :=
  link.filter Op.isRead

/-- A simulated bus that is wedged and cannot be recovered: every submission
times out, and driving the clock line high fails with `ESP_FAIL`; every other
call succeeds. -/
def levelFailBus : Hal where
  answer := fun _ c =>
    match c with
    | .i2c_cmd_link_create_static _ _ => 1
    | .malloc _ => 4096
    | .i2c_master_cmd_begin _ _ _ => ESP_ERR_TIMEOUT
    | .gpio_set_level _ level => if level = 1 then ESP_FAIL else 0
    | _ => 0
  rx := fun _ _ => []
  I2C_LINK_RECOMMENDED_SIZE := fun _ => 168

/-- The events of a recovery pass on `levelFailBus`: it stops at the first
attempt to drive the clock line high. -/
def levelFailEvents (bus : i2c_bus_t) : List Event :=
  [⟨.i2c_driver_delete bus.i2c_port, 0⟩,
   ⟨.gpio_reset_pin bus.gpio_sda, 0⟩,
   ⟨.gpio_set_direction bus.gpio_sda .GPIO_MODE_INPUT, 0⟩,
   ⟨.gpio_reset_pin bus.gpio_scl, 0⟩,
   ⟨.gpio_set_direction bus.gpio_scl .GPIO_MODE_OUTPUT, 0⟩,
   ⟨.gpio_set_level bus.gpio_scl 0, 0⟩,
   ⟨.ets_delay_us (DIV_ROUND_UP 1000000 bus.speed_hz), 0⟩,
   ⟨.gpio_set_level bus.gpio_scl 1, ESP_FAIL⟩]

/-- The submission made for the link just created: the first submission among
the events before the next link creation, if there is one. -/
def firstSubmit : List Event → Option Event
  | [] => none
  | e :: t =>
    match e.call with
    | .i2c_cmd_link_create_static _ _ => none
    | .i2c_master_cmd_begin _ _ _ => some e
    | _ => firstSubmit t

/-- For each link creation among the events, in order, the submission made for
that link, if one was made. -/
def probeSubmits : List Event → List (Option Event)
  | [] => []
  | e :: t =>
    match e.call with
    | .i2c_cmd_link_create_static _ _ => firstSubmit t :: probeSubmits t
    | _ => probeSubmits t

/-- What a run of the scan loop over `n` addresses from address `i` on looks
like, in any environment: `l` are the events it added, and the `k`-th link
creation among them belongs to address `i + k`.  At most `n` links were
created.  A submission made for the link of an address is the probe of that
address.  A link whose creation returned a handle was submitted, unless a
building step of that same link failed.  If the loop returned, the entries
below `i` and those of the addresses it never reached are the caller's, an
address whose link creation returned no handle is absent, and an address it
reached is present exactly when a submission was made for its link and that
submission returned `ESP_OK`.  If a building step failed, the loop returned
right after deleting that link, with the status of the step, and the address of
that link is absent.  If no building step failed and the loop returned, it
created a link for all `n` addresses. -/
def ScanRun (n i : Nat) (addr : i2c_address_set_t) (s : State)
    (out : Outcome (esp_err_t × i2c_address_set_t)) : Prop :=
  ∃ l, out.state.trace = s.trace ++ l ∧
    (eventsOf Call.isCreate l).length ≤ n ∧
    firstSubmit l = none ∧
    (∀ k x, (probeSubmits l)[k]? = some (some x) → x.call = probeCall s.bus (i + k)) ∧
    (∀ k c, (eventsOf Call.isCreate l)[k]? = some c → c.ret ≠ 0 →
      (k + 1 < (eventsOf Call.isCreate l).length ∨ ∀ f ∈ l, f.stepFailed = false) →
      ∃ x, (probeSubmits l)[k]? = some (some x)) ∧
    (∀ e found, out.value = some (e, found) →
      (∀ j, j < i → found j = addr j) ∧
      (∀ j, i + (eventsOf Call.isCreate l).length ≤ j → found j = addr j) ∧
      (∀ k c, (eventsOf Call.isCreate l)[k]? = some c → c.ret = 0 → found (i + k) = false) ∧
      (∀ k, k < (eventsOf Call.isCreate l).length →
        (found (i + k) = true ↔ ∃ x, (probeSubmits l)[k]? = some (some x) ∧ x.ret = 0))) ∧
    ((∃ f ∈ l, f.stepFailed = true) →
      ∃ pre c e found,
        l = pre ++ [⟨c, e⟩, ⟨.i2c_cmd_link_delete_static, 0⟩] ∧
        c.isBuildStep = true ∧ e ≠ 0 ∧
        (∀ x ∈ pre, x.stepFailed = false) ∧
        out.value = some (e, found) ∧
        1 ≤ (eventsOf Call.isCreate l).length ∧
        found (i + (eventsOf Call.isCreate l).length - 1) = false) ∧
    ((∀ f ∈ l, f.stepFailed = false) → out.returned = true →
      (eventsOf Call.isCreate l).length = n)

@[simp] theorem State.ext_bus (s : State) (l : List Event) : (s.ext l).bus = s.bus := rfl

@[simp] theorem State.ext_data_read (s : State) (l : List Event) :
    (s.ext l).data_read = s.data_read := rfl

@[simp] theorem State.ext_trace (s : State) (l : List Event) :
    (s.ext l).trace = s.trace ++ l := rfl

@[simp] theorem State.ext_ext (s : State) (l1 l2 : List Event) :
    (s.ext l1).ext l2 = s.ext (l1 ++ l2) := by
  simp [State.ext]

@[simp] theorem State.ext_nil (s : State) : s.ext [] = s := by
  simp [State.ext]

theorem State.log_eq_ext (s : State) (c : Call) (r : Int) : s.log c r = s.ext [⟨c, r⟩] := rfl

@[simp] theorem pure_apply {α : Type} (a : α) (s : State) :
    (pure a : HW α) s = .ret a s := rfl

theorem bind_apply {α β : Type} (m : HW α) (f : α → HW β) (s : State) :
    (m >>= f) s = match m s with
      | .ret a s1 => f a s1
      | .abort s1 => .abort s1 := rfl

@[simp] theorem getBus_bind {β : Type} (f : i2c_bus_t → HW β) (s : State) :
    (getBus >>= f) s = f s.bus s := rfl

@[simp] theorem hal_call_bind {β : Type} (hal : Hal) (c : Call) (f : Int → HW β) (s : State) :
    (hal_call hal c >>= f) s = f (hal.answer s.trace c) (s.ext [⟨c, hal.answer s.trace c⟩]) := rfl

@[simp] theorem hal_call_apply (hal : Hal) (c : Call) (s : State) :
    hal_call hal c s = .ret (hal.answer s.trace c) (s.ext [⟨c, hal.answer s.trace c⟩]) := rfl

@[simp] theorem hal_void_bind {β : Type} (c : Call) (f : Unit → HW β) (s : State) :
    (hal_void c >>= f) s = f () (s.ext [⟨c, 0⟩]) := rfl

@[simp] theorem hal_void_apply (c : Call) (s : State) :
    hal_void c s = .ret () (s.ext [⟨c, 0⟩]) := rfl

@[simp] theorem link_step_bind {β : Type} (hal : Hal) (c : Call) (op : Op)
    (cmd : i2c_cmd_handle_t) (f : esp_err_t × i2c_cmd_handle_t → HW β) (s : State) :
    (link_step hal c op cmd >>= f) s =
      f (hal.answer s.trace c, if hal.answer s.trace c = ESP_OK then cmd ++ [op] else cmd)
        (s.ext [⟨c, hal.answer s.trace c⟩]) := rfl

theorem check_call_apply (hal : Hal) (c : Call) (s : State) :
    ESP_ERROR_CHECK (hal_call hal c) s =
      if hal.answer s.trace c ≠ ESP_OK then .abort (s.ext [⟨c, hal.answer s.trace c⟩])
      else .ret () (s.ext [⟨c, hal.answer s.trace c⟩]) := rfl

/-! ## The recovery procedure runs its canonical call sequence -/

theorem Checked.pure (hal : Hal) (bus : i2c_bus_t) : Checked hal (pure ()) bus [] := by
  intro s _
  left
  simp

theorem Checked.check (hal : Hal) (bus : i2c_bus_t) (c : Call) :
    Checked hal (ESP_ERROR_CHECK (hal_call hal c)) bus [⟨c, 0⟩] := by
  intro s _
  rw [check_call_apply]
  by_cases h : hal.answer s.trace c = ESP_OK
  · left
    simp only [h, ne_eq, not_true_eq_false, if_false]
    rfl
  · right
    refine ⟨[], c, [], rfl, ?_, ?_⟩
    · simpa [ESP_OK] using h
    · simp [h]

theorem Checked.void (hal : Hal) (bus : i2c_bus_t) (c : Call) :
    Checked hal (hal_void c) bus [⟨c, 0⟩] := by
  intro s _
  left
  rfl

theorem Checked.seq (hal : Hal) (bus : i2c_bus_t) (m1 : HW Unit) (m2 : Unit → HW Unit)
    (c1 c2 : List Event) (h1 : Checked hal m1 bus c1) (h2 : Checked hal (m2 ()) bus c2) :
    Checked hal (m1 >>= m2) bus (c1 ++ c2) := by
  intro s hs
  rw [bind_apply]
  rcases h1 s hs with h | ⟨pre, c, rest, hc, hne, h⟩
  · rw [h]
    rcases h2 (s.ext c1) (by simpa using hs) with h' | ⟨pre, c, rest, hc, hne, h'⟩
    · left
      simp [h']
    · right
      refine ⟨c1 ++ pre, c, rest, by simp [hc], by simpa using hne, ?_⟩
      simp only [h']
      simp
  · right
    refine ⟨pre, c, rest ++ c2, by simp [hc], hne, ?_⟩
    rw [h]

theorem Checked.getBus (hal : Hal) (bus : i2c_bus_t) (f : i2c_bus_t → HW Unit)
    (canon : List Event) (h : Checked hal (f bus) bus canon) :
    Checked hal (getBus >>= f) bus canon := by
  intro s hs
  rw [getBus_bind, hs]
  exact h s hs

theorem Checked.deinit (hal : Hal) (bus : i2c_bus_t) :
    Checked hal (ESP_ERROR_CHECK (i2c_bus_deinit_ hal)) bus [⟨.i2c_driver_delete bus.i2c_port, 0⟩] := by
  intro s hs
  have h := Checked.check hal bus (.i2c_driver_delete bus.i2c_port) s hs
  have e : ESP_ERROR_CHECK (i2c_bus_deinit_ hal) s =
      ESP_ERROR_CHECK (hal_call hal (.i2c_driver_delete bus.i2c_port)) s := by
    subst hs
    rfl
  rw [e]
  exact h

theorem init_apply (hal : Hal) (s : State) :
    ESP_ERROR_CHECK (i2c_bus_init_ hal) s =
      (ESP_ERROR_CHECK (hal_call hal
          (.i2c_param_config s.bus.i2c_port s.bus.gpio_sda s.bus.gpio_scl s.bus.speed_hz)) >>=
        fun _ => ESP_ERROR_CHECK (hal_call hal (.i2c_driver_install s.bus.i2c_port))) s := by
  by_cases h : hal.answer s.trace
      (.i2c_param_config s.bus.i2c_port s.bus.gpio_sda s.bus.gpio_scl s.bus.speed_hz) = 0
  · simp [ESP_ERROR_CHECK, i2c_bus_init_, bind_apply, getBus, h, ESP_OK]
  · simp [ESP_ERROR_CHECK, i2c_bus_init_, bind_apply, getBus, h, ESP_OK]

theorem Checked.init (hal : Hal) (bus : i2c_bus_t) :
    Checked hal (ESP_ERROR_CHECK (i2c_bus_init_ hal)) bus
      [⟨.i2c_param_config bus.i2c_port bus.gpio_sda bus.gpio_scl bus.speed_hz, 0⟩,
       ⟨.i2c_driver_install bus.i2c_port, 0⟩] := by
  intro s hs
  rw [init_apply, hs]
  exact Checked.seq hal bus _ _ [_] [_] (Checked.check hal bus _) (Checked.check hal bus _) s hs

theorem Checked.loop (hal : Hal) (bus : i2c_bus_t) (n : Nat) :
    Checked hal (unstick_loop hal n) bus
      (toggleSequence bus.gpio_scl (DIV_ROUND_UP 1000000 bus.speed_hz) n) := by
  induction n with
  | zero => exact Checked.pure hal bus
  | succ n ih =>
    unfold unstick_loop
    apply Checked.getBus
    exact Checked.seq hal bus _ _ [_] _ (Checked.check hal bus _)
      (Checked.seq hal bus _ _ [_] _ (Checked.void hal bus _)
        (Checked.seq hal bus _ _ [_] _ (Checked.check hal bus _)
          (Checked.seq hal bus _ _ [_] _ (Checked.void hal bus _) ih)))

theorem Checked.unstick (hal : Hal) (bus : i2c_bus_t) :
    Checked hal (i2c_unstick_bus hal) bus (recoverySequence bus) := by
  unfold i2c_unstick_bus
  apply Checked.getBus
  exact Checked.seq hal bus _ _ [_] _ (Checked.deinit hal bus)
    (Checked.seq hal bus _ _ [_] _ (Checked.check hal bus _)
      (Checked.seq hal bus _ _ [_] _ (Checked.check hal bus _)
        (Checked.seq hal bus _ _ [_] _ (Checked.check hal bus _)
          (Checked.seq hal bus _ _ [_] _ (Checked.check hal bus _)
            (Checked.seq hal bus _ _ _ _ (Checked.loop hal bus I2C_UNSTICK_BITS)
              (Checked.init hal bus))))))

/-! ## Shape of the recovery sequence -/

theorem toggleSequence_length (scl d n : Nat) : (toggleSequence scl d n).length = 4 * n := by
  induction n with
  | zero => rfl
  | succ n ih => simp [toggleSequence, ih]; omega

theorem toggleSequence_recovery (scl d n : Nat) :
    ∀ e ∈ toggleSequence scl d n, e.call.isRecovery = true ∧ e.ret = 0 := by
  induction n with
  | zero => simp [toggleSequence]
  | succ n ih =>
    intro e he
    simp only [toggleSequence, List.mem_append, List.mem_cons, List.mem_singleton,
      List.not_mem_nil, or_false] at he
    rcases he with (rfl | rfl | rfl | rfl) | he
    · exact ⟨rfl, rfl⟩
    · exact ⟨rfl, rfl⟩
    · exact ⟨rfl, rfl⟩
    · exact ⟨rfl, rfl⟩
    · exact ih e he

theorem recoverySequence_recovery (bus : i2c_bus_t) :
    ∀ e ∈ recoverySequence bus, e.call.isRecovery = true ∧ e.ret = 0 := by
  intro e he
  simp only [recoverySequence, List.mem_append, List.mem_cons, List.mem_singleton,
    List.not_mem_nil, or_false] at he
  rcases he with (rfl | rfl | rfl | rfl | rfl) | he | rfl | rfl
  · exact ⟨rfl, rfl⟩
  · exact ⟨rfl, rfl⟩
  · exact ⟨rfl, rfl⟩
  · exact ⟨rfl, rfl⟩
  · exact ⟨rfl, rfl⟩
  · exact toggleSequence_recovery _ _ _ e he
  · exact ⟨rfl, rfl⟩
  · exact ⟨rfl, rfl⟩

theorem delays_toggleSequence (scl d n : Nat) :
    delays (toggleSequence scl d n) = List.replicate (2 * n) d := by
  induction n with
  | zero => rfl
  | succ n ih =>
    have h : 2 * (n + 1) = (2 * n + 1) + 1 := by omega
    have ih2 : List.filterMap (fun e : Event =>
        match e.call with
        | .ets_delay_us us => some us
        | _ => none) (toggleSequence scl d n) = List.replicate (2 * n) d := ih
    simp [delays, toggleSequence, h, List.replicate_succ, ih2]

theorem delays_append (l1 l2 : List Event) : delays (l1 ++ l2) = delays l1 ++ delays l2 := by
  simp [delays]

theorem delays_recoverySequence (bus : i2c_bus_t) :
    delays (recoverySequence bus) =
      List.replicate 64 (DIV_ROUND_UP 1000000 bus.speed_hz) := by
  unfold recoverySequence
  rw [delays_append, delays_append, delays_toggleSequence]
  simp [delays]

/-- In an environment whose recovery calls all succeed the recovery procedure
returns after its complete call sequence. -/
theorem unstick_of_ok (hal : Hal) (hok : hal.RecoveryOk) (s : State) :
    i2c_unstick_bus hal s = .ret () (s.ext (recoverySequence s.bus)) := by
  rcases Checked.unstick hal s.bus s rfl with h | ⟨pre, c, rest, hc, hne, _⟩
  · exact h
  · exfalso
    apply hne
    apply hok
    have : (⟨c, 0⟩ : Event) ∈ recoverySequence s.bus := by
      rw [hc]
      simp
    exact (recoverySequence_recovery s.bus _ this).1

/-! ## The executor -/

@[simp] theorem State.setLock_bus_port (s : State) (b : Bool) :
    (s.setLock b).bus.i2c_port = s.bus.i2c_port := rfl

@[simp] theorem State.setLock_lock (s : State) (b : Bool) : (s.setLock b).bus.lock = b := rfl

@[simp] theorem State.setLock_trace (s : State) (b : Bool) : (s.setLock b).trace = s.trace := rfl

@[simp] theorem State.setLock_data_read (s : State) (b : Bool) :
    (s.setLock b).data_read = s.data_read := rfl

@[simp] theorem State.setLock_setLock (s : State) (a b : Bool) :
    (s.setLock a).setLock b = s.setLock b := rfl

@[simp] theorem State.ext_setLock (s : State) (l : List Event) (b : Bool) :
    (s.ext l).setLock b = (s.setLock b).ext l := rfl

@[simp] theorem State.setData_bus (s : State) (d : List Nat) : (s.setData d).bus = s.bus := rfl

@[simp] theorem State.setData_trace (s : State) (d : List Nat) :
    (s.setData d).trace = s.trace := rfl

@[simp] theorem State.setData_data_read (s : State) (d : List Nat) :
    (s.setData d).data_read = d := rfl

@[simp] theorem State.setData_setLock (s : State) (d : List Nat) (b : Bool) :
    (s.setData d).setLock b = (s.setLock b).setData d := rfl

@[simp] theorem afterSubmit_bus (hal : Hal) (handle : i2c_cmd_handle_t) (timeout : TickType_t)
    (s : State) : (afterSubmit hal handle timeout s).bus = s.bus := rfl

@[simp] theorem afterSubmit_trace (hal : Hal) (handle : i2c_cmd_handle_t) (timeout : TickType_t)
    (s : State) : (afterSubmit hal handle timeout s).trace = s.trace ++
      [⟨.i2c_master_cmd_begin s.bus.i2c_port handle timeout,
        hal.answer s.trace (.i2c_master_cmd_begin s.bus.i2c_port handle timeout)⟩] := rfl

@[simp] theorem xSemaphoreTake_bind {β : Type} (f : Unit → HW β) (s : State) :
    (xSemaphoreTake >>= f) s = f () ((s.setLock true).ext [⟨.xSemaphoreTake, 0⟩]) := rfl

@[simp] theorem xSemaphoreGive_bind {β : Type} (f : Unit → HW β) (s : State) :
    (xSemaphoreGive >>= f) s = f () ((s.setLock false).ext [⟨.xSemaphoreGive, 0⟩]) := rfl

theorem cmd_begin_unlocked_apply (hal : Hal) (handle : i2c_cmd_handle_t) (timeout : TickType_t)
    (s : State) :
    i2c_bus_cmd_begin_unlocked hal handle timeout s =
      if hal.answer s.trace (.i2c_master_cmd_begin s.bus.i2c_port handle timeout) =
          ESP_ERR_TIMEOUT then
        match i2c_unstick_bus hal (afterSubmit hal handle timeout s) with
        | .ret _ s1 => .ret ESP_ERR_TIMEOUT s1
        | .abort s1 => .abort s1
      else
        .ret (hal.answer s.trace (.i2c_master_cmd_begin s.bus.i2c_port handle timeout))
          (afterSubmit hal handle timeout s) := by
  have e : i2c_bus_cmd_begin_unlocked hal handle timeout s =
      (if hal.answer s.trace (.i2c_master_cmd_begin s.bus.i2c_port handle timeout) =
          ESP_ERR_TIMEOUT then
        (i2c_unstick_bus hal >>= fun _ =>
          pure (hal.answer s.trace (.i2c_master_cmd_begin s.bus.i2c_port handle timeout)))
      else pure (hal.answer s.trace (.i2c_master_cmd_begin s.bus.i2c_port handle timeout)))
        (afterSubmit hal handle timeout s) := rfl
  rw [e]
  by_cases h : hal.answer s.trace (.i2c_master_cmd_begin s.bus.i2c_port handle timeout) =
      ESP_ERR_TIMEOUT
  · rw [if_pos h, if_pos h, bind_apply]
    cases i2c_unstick_bus hal (afterSubmit hal handle timeout s) with
    | ret a s1 => simp [h]
    | abort s1 => rfl
  · rw [if_neg h, if_neg h]
    rfl

/-- The three ways a call of the executor ends. -/
theorem cmd_begin_unlocked_cases (hal : Hal) (handle : i2c_cmd_handle_t) (timeout : TickType_t)
    (s : State) :
    (hal.answer s.trace (.i2c_master_cmd_begin s.bus.i2c_port handle timeout) ≠ ESP_ERR_TIMEOUT ∧
      i2c_bus_cmd_begin_unlocked hal handle timeout s =
        .ret (hal.answer s.trace (.i2c_master_cmd_begin s.bus.i2c_port handle timeout))
          (afterSubmit hal handle timeout s)) ∨
    (hal.answer s.trace (.i2c_master_cmd_begin s.bus.i2c_port handle timeout) = ESP_ERR_TIMEOUT ∧
      i2c_bus_cmd_begin_unlocked hal handle timeout s =
        .ret ESP_ERR_TIMEOUT ((afterSubmit hal handle timeout s).ext (recoverySequence s.bus))) ∨
    (hal.answer s.trace (.i2c_master_cmd_begin s.bus.i2c_port handle timeout) = ESP_ERR_TIMEOUT ∧
      ∃ pre c rest, recoverySequence s.bus = pre ++ ⟨c, 0⟩ :: rest ∧
        hal.answer ((afterSubmit hal handle timeout s).trace ++ pre) c ≠ 0 ∧
        i2c_bus_cmd_begin_unlocked hal handle timeout s =
          .abort ((afterSubmit hal handle timeout s).ext
            (pre ++ [⟨c, hal.answer ((afterSubmit hal handle timeout s).trace ++ pre) c⟩]))) := by
  rw [cmd_begin_unlocked_apply]
  by_cases h : hal.answer s.trace (.i2c_master_cmd_begin s.bus.i2c_port handle timeout) =
      ESP_ERR_TIMEOUT
  · right
    rw [if_pos h]
    rcases Checked.unstick hal s.bus (afterSubmit hal handle timeout s) rfl with
      h1 | ⟨pre, c, rest, hc, hne, h1⟩
    · left
      exact ⟨h, by rw [h1]⟩
    · right
      exact ⟨h, pre, c, rest, hc, hne, by rw [h1]⟩
  · left
    rw [if_neg h]
    exact ⟨h, rfl⟩

theorem cmd_begin_apply (hal : Hal) (handle : i2c_cmd_handle_t) (timeout : TickType_t)
    (s : State) :
    i2c_bus_cmd_begin hal handle timeout s =
      match i2c_bus_cmd_begin_unlocked hal handle timeout
          ((s.setLock true).ext [⟨.xSemaphoreTake, 0⟩]) with
      | .ret err s1 => .ret err ((s1.setLock false).ext [⟨.xSemaphoreGive, 0⟩])
      | .abort s1 => .abort s1 := by
  have e : i2c_bus_cmd_begin hal handle timeout s =
      (i2c_bus_cmd_begin_unlocked hal handle timeout >>= fun err =>
        xSemaphoreGive >>= fun _ => pure err) ((s.setLock true).ext [⟨.xSemaphoreTake, 0⟩]) :=
    rfl
  rw [e, bind_apply]
  cases i2c_bus_cmd_begin_unlocked hal handle timeout
      ((s.setLock true).ext [⟨.xSemaphoreTake, 0⟩]) with
  | ret err s1 => rfl
  | abort s1 => rfl

/-! ## Duration of the recovery delays -/

theorem newEvents_of_trace {α : Type} (s : State) (out : Outcome α) (l : List Event)
    (h : out.state.trace = s.trace ++ l) : newEvents s out = l := by
  simp [newEvents, h]

@[simp] theorem newEvents_ret {α : Type} (s : State) (a : α) (l : List Event) :
    newEvents s (.ret a (s.ext l)) = l :=
  newEvents_of_trace s _ l rfl

@[simp] theorem newEvents_abort {α : Type} (s : State) (l : List Event) :
    newEvents s (.abort (s.ext l) : Outcome α) = l :=
  newEvents_of_trace s _ l rfl

@[simp] theorem newEvents_ret_setLock {α : Type} (s : State) (b : Bool) (a : α)
    (l : List Event) : newEvents s (.ret a ((s.setLock b).ext l)) = l :=
  newEvents_of_trace s _ l rfl

theorem mem_delays (t : List Event) (d : Nat) :
    d ∈ delays t ↔ ∃ e ∈ t, e.call = .ets_delay_us d := by
  simp only [delays, List.mem_filterMap]
  constructor
  · rintro ⟨e, he, h⟩
    refine ⟨e, he, ?_⟩
    cases hc : e.call <;> simp_all
  · rintro ⟨e, he, h⟩
    exact ⟨e, he, by simp [h]⟩

/-- Every delay the recovery procedure issues, whether or not it completes,
has the duration of the complete sequence. -/
theorem unstick_delays (hal : Hal) (s : State) :
    (∀ d ∈ delays (newEvents s (i2c_unstick_bus hal s)),
      d = DIV_ROUND_UP 1000000 s.bus.speed_hz) ∧
    ((i2c_unstick_bus hal s).returned = true →
      delays (newEvents s (i2c_unstick_bus hal s)) =
        List.replicate 64 (DIV_ROUND_UP 1000000 s.bus.speed_hz)) := by
  have hall : ∀ d ∈ delays (recoverySequence s.bus), d = DIV_ROUND_UP 1000000 s.bus.speed_hz := by
    intro d hd
    rw [delays_recoverySequence] at hd
    exact List.eq_of_mem_replicate hd
  rcases Checked.unstick hal s.bus s rfl with h | ⟨pre, c, rest, hc, _, h⟩
  · rw [h, newEvents_ret]
    exact ⟨hall, fun _ => delays_recoverySequence s.bus⟩
  · rw [h, newEvents_abort]
    refine ⟨?_, fun hr => by simp [Outcome.returned] at hr⟩
    intro d hd
    apply hall
    rw [mem_delays] at hd ⊢
    rcases hd with ⟨e, he, hed⟩
    rw [hc]
    rcases List.mem_append.1 he with he | he
    · exact ⟨e, by simp [he], hed⟩
    · refine ⟨⟨c, 0⟩, by simp, ?_⟩
      rw [List.mem_singleton] at he
      rw [he] at hed
      exact hed

theorem DIV_ROUND_UP_eq (n d : Nat) (h : n + d ≤ 2 ^ 32) :
    DIV_ROUND_UP n d = (n + d - 1) / d := by
  unfold DIV_ROUND_UP
  rw [Nat.mod_eq_of_lt]
  omega

/-- C10 (as the code has it): for every bus with `0 < speed_hz` (and
`speed_hz` at most `2^32 - 1000000`, so that the 32-bit sum does not wrap),
every delay of the recovery procedure lasts `(1000000 + speed_hz - 1) / speed_hz`
microseconds, the quotient rounded up, and a recovery that returns has issued
exactly 64 of them. -/
theorem unstick_delay_rounds_up (hal : Hal) (s : State) (h0 : 0 < s.bus.speed_hz)
    (hmax : s.bus.speed_hz ≤ 4293967296) :
    (∀ d ∈ delays (newEvents s (i2c_unstick_bus hal s)),
      d = (1000000 + s.bus.speed_hz - 1) / s.bus.speed_hz) ∧
    ((i2c_unstick_bus hal s).returned = true →
      delays (newEvents s (i2c_unstick_bus hal s)) =
        List.replicate 64 ((1000000 + s.bus.speed_hz - 1) / s.bus.speed_hz)) := by
  have e : DIV_ROUND_UP 1000000 s.bus.speed_hz =
      (1000000 + s.bus.speed_hz - 1) / s.bus.speed_hz :=
    DIV_ROUND_UP_eq _ _ (by norm_num; omega)
  rw [← e]
  exact unstick_delays hal s

/-- Witness of C10: at 100000 Hz every delay lasts 10 microseconds. -/
theorem unstick_delay_rounds_up_witness :
    0 < (stateAt 100000).bus.speed_hz ∧
    ∀ d ∈ delays (newEvents (stateAt 100000) (i2c_unstick_bus okHal (stateAt 100000))),
      d = 10 :=
  ⟨by decide, (unstick_delay_rounds_up okHal (stateAt 100000) (by decide) (by decide)).1⟩

theorem okHal_recoveryOk : okHal.RecoveryOk := fun _ _ _ => rfl

/-- C10 (counterexample): at 400000 Hz the recovery procedure returns after 64
delays of 3 microseconds each, while `1000000 / speed_hz` is 2. -/
theorem unstick_delay_400kHz_not_quotient :
    0 < (stateAt 400000).bus.speed_hz ∧
    (i2c_unstick_bus okHal (stateAt 400000)).returned = true ∧
    delays (newEvents (stateAt 400000) (i2c_unstick_bus okHal (stateAt 400000))) =
      List.replicate 64 3 ∧
    ¬ ∀ d ∈ delays (newEvents (stateAt 400000) (i2c_unstick_bus okHal (stateAt 400000))),
      d = 1000000 / (stateAt 400000).bus.speed_hz := by
  have hr : (i2c_unstick_bus okHal (stateAt 400000)).returned = true := by
    rw [unstick_of_ok okHal okHal_recoveryOk]
    rfl
  have hd := (unstick_delays okHal (stateAt 400000)).2 hr
  have h3 : DIV_ROUND_UP 1000000 (stateAt 400000).bus.speed_hz = 3 := by decide
  rw [h3] at hd
  refine ⟨by decide, hr, hd, ?_⟩
  rw [hd]
  intro h
  have := h 3 (by simp)
  revert this
  decide

/-! ## Chains of link-building steps -/

@[simp] theorem State.setLock_cmd_buf (s : State) (b : Bool) :
    (s.setLock b).bus.cmd_buf = s.bus.cmd_buf := rfl

@[simp] theorem State.setLock_cmd_buf_size (s : State) (b : Bool) :
    (s.setLock b).bus.cmd_buf_size = s.bus.cmd_buf_size := rfl

@[simp] theorem State.setLock_gpio_sda (s : State) (b : Bool) :
    (s.setLock b).bus.gpio_sda = s.bus.gpio_sda := rfl

@[simp] theorem State.setLock_gpio_scl (s : State) (b : Bool) :
    (s.setLock b).bus.gpio_scl = s.bus.gpio_scl := rfl

@[simp] theorem State.setLock_speed_hz (s : State) (b : Bool) :
    (s.setLock b).bus.speed_hz = s.bus.speed_hz := rfl

@[simp] theorem recoverySequence_setLock (s : State) (b : Bool) :
    recoverySequence (s.setLock b).bus = recoverySequence s.bus := rfl

theorem runSteps_cases {β : Type} (hal : Hal) (fail : esp_err_t → HW β)
    (steps : List (Call × Op)) (cmd : i2c_cmd_handle_t) (k : i2c_cmd_handle_t → HW β)
    (s : State) :
    (∃ pre c op rest, steps = pre ++ (c, op) :: rest ∧
      hal.answer (s.trace ++ okEvents (pre.map Prod.fst)) c ≠ 0 ∧
      runSteps hal fail steps cmd k s =
        fail (hal.answer (s.trace ++ okEvents (pre.map Prod.fst)) c)
          (s.ext (okEvents (pre.map Prod.fst) ++
            [⟨c, hal.answer (s.trace ++ okEvents (pre.map Prod.fst)) c⟩]))) ∨
    runSteps hal fail steps cmd k s =
      k (cmd ++ steps.map Prod.snd) (s.ext (okEvents (steps.map Prod.fst))) := by
  induction steps generalizing cmd s with
  | nil =>
    right
    simp [runSteps, okEvents]
  | cons st rest ih =>
    obtain ⟨c, op⟩ := st
    by_cases h : hal.answer s.trace c = 0
    · have e : runSteps hal fail ((c, op) :: rest) cmd k s =
          runSteps hal fail rest (cmd ++ [op]) k (s.ext [⟨c, 0⟩]) := by
        simp [runSteps, h, ESP_OK]
      rw [e]
      rcases ih (cmd ++ [op]) (s.ext [⟨c, 0⟩]) with ⟨pre, c1, op1, rest1, hs, hne, hr⟩ | hr
      · left
        refine ⟨(c, op) :: pre, c1, op1, rest1, by simp [hs], ?_, ?_⟩
        · simpa [okEvents] using hne
        · rw [hr]
          simp [okEvents]
      · right
        rw [hr]
        simp [okEvents]
    · left
      refine ⟨[], c, op, rest, rfl, by simpa [okEvents] using h, ?_⟩
      simp [runSteps, h, okEvents]

theorem write_then_read_apply (hal : Hal) (address : Nat) (data_write : List Nat)
    (read_len : Nat) (s : State) :
    i2c_bus_write_then_read hal address data_write read_len s =
      if hal.answer (s.trace ++ [⟨.xSemaphoreTake, 0⟩])
          (.i2c_cmd_link_create_static s.bus.cmd_buf s.bus.cmd_buf_size) = 0 then
        .ret ESP_ERR_NO_MEM ((s.setLock false).ext
          [⟨.xSemaphoreTake, 0⟩,
           ⟨.i2c_cmd_link_create_static s.bus.cmd_buf s.bus.cmd_buf_size, 0⟩,
           ⟨.xSemaphoreGive, 0⟩])
      else
        runSteps hal write_then_read_fail_link
          (write_then_read_steps address data_write read_len) []
          (fun cmd => i2c_bus_cmd_begin_unlocked hal cmd (.pdMS_TO_TICKS 100) >>=
            write_then_read_fail_link)
          ((s.setLock true).ext
            [⟨.xSemaphoreTake, 0⟩,
             ⟨.i2c_cmd_link_create_static s.bus.cmd_buf s.bus.cmd_buf_size,
               hal.answer (s.trace ++ [⟨.xSemaphoreTake, 0⟩])
                 (.i2c_cmd_link_create_static s.bus.cmd_buf s.bus.cmd_buf_size)⟩]) := by
  by_cases h : hal.answer (s.trace ++ [⟨.xSemaphoreTake, 0⟩])
      (.i2c_cmd_link_create_static s.bus.cmd_buf s.bus.cmd_buf_size) = 0
  · rw [if_pos h]
    simp [i2c_bus_write_then_read, h]
  · rw [if_neg h]
    by_cases hn : read_len = 0
    · simp [i2c_bus_write_then_read, h, hn, write_then_read_steps, runSteps,
        i2c_master_start, i2c_master_write_byte, i2c_master_write, i2c_master_stop,
        write_then_read_stop]
    · simp [i2c_bus_write_then_read, h, hn, write_then_read_steps, runSteps,
        i2c_master_start, i2c_master_write_byte, i2c_master_write, i2c_master_stop,
        i2c_master_read, write_then_read_stop]

theorem write_then_read_fail_link_apply (err : esp_err_t) (s : State) :
    write_then_read_fail_link err s = .ret err ((s.setLock false).ext linkClosed) := by
  simp [write_then_read_fail_link, linkClosed]

/-- The ways a call of `i2c_bus_write_then_read` ends: (1) no link, (2) a
building step fails, (3) the link is submitted; the submission either does not
time out, or times out and recovery completes, or recovery aborts. -/
theorem write_then_read_cases (hal : Hal) (address : Nat) (data_write : List Nat)
    (read_len : Nat) (s : State) :
    (createdHandle hal s = 0 ∧
      i2c_bus_write_then_read hal address data_write read_len s =
        .ret ESP_ERR_NO_MEM ((s.setLock false).ext (linkOpened s 0 ++ [⟨.xSemaphoreGive, 0⟩]))) ∨
    (createdHandle hal s ≠ 0 ∧
      ∃ pre c op rest err,
        write_then_read_steps address data_write read_len = pre ++ (c, op) :: rest ∧
        err ≠ 0 ∧
        err = hal.answer (s.trace ++ (linkOpened s (createdHandle hal s) ++
          okEvents (pre.map Prod.fst))) c ∧
        i2c_bus_write_then_read hal address data_write read_len s =
          .ret err ((s.setLock false).ext (linkOpened s (createdHandle hal s) ++
            (okEvents (pre.map Prod.fst) ++ (⟨c, err⟩ :: linkClosed))))) ∨
    (createdHandle hal s ≠ 0 ∧
      i2c_bus_write_then_read hal address data_write read_len s =
        match i2c_bus_cmd_begin_unlocked hal (builtLink address data_write read_len)
            (.pdMS_TO_TICKS 100) (builtState hal address data_write read_len s) with
        | .ret err s1 => .ret err ((s1.setLock false).ext linkClosed)
        | .abort s1 => .abort s1) := by
  rw [write_then_read_apply]
  by_cases h : createdHandle hal s = 0
  · left
    refine ⟨h, ?_⟩
    unfold createdHandle at h
    rw [if_pos h]
    rfl
  · right
    have h' := h
    unfold createdHandle at h'
    rw [if_neg h']
    rcases runSteps_cases hal write_then_read_fail_link
        (write_then_read_steps address data_write read_len) []
        (fun cmd => i2c_bus_cmd_begin_unlocked hal cmd (.pdMS_TO_TICKS 100) >>=
          write_then_read_fail_link)
        ((s.setLock true).ext (linkOpened s (createdHandle hal s))) with
      ⟨pre, c, op, rest, hs, hne, hr⟩ | hr
    · left
      refine ⟨h, pre, c, op, rest, _, hs, ?_, rfl, ?_⟩
      · simpa using hne
      · have hr' := hr
        simp only [linkOpened, createdHandle] at hr'
        rw [hr']
        simp [write_then_read_fail_link, linkOpened, linkClosed, createdHandle]
    · right
      refine ⟨h, ?_⟩
      have hr' := hr
      simp only [linkOpened, createdHandle] at hr'
      rw [hr', bind_apply]
      simp only [List.nil_append, State.ext_ext]
      have e : (s.setLock true).ext
          ([⟨.xSemaphoreTake, 0⟩,
            ⟨.i2c_cmd_link_create_static s.bus.cmd_buf s.bus.cmd_buf_size,
              hal.answer (s.trace ++ [⟨.xSemaphoreTake, 0⟩])
                (.i2c_cmd_link_create_static s.bus.cmd_buf s.bus.cmd_buf_size)⟩] ++
            okEvents ((write_then_read_steps address data_write read_len).map Prod.fst)) =
          builtState hal address data_write read_len s := rfl
      rw [e]
      have e2 : List.map Prod.snd (write_then_read_steps address data_write read_len) =
          builtLink address data_write read_len := rfl
      rw [e2]
      cases i2c_bus_cmd_begin_unlocked hal (builtLink address data_write read_len)
          (.pdMS_TO_TICKS 100) (builtState hal address data_write read_len s) with
      | ret a s1 => simp [write_then_read_fail_link_apply]
      | abort s1 => rfl

@[simp] theorem afterSubmit_setLock (hal : Hal) (handle : i2c_cmd_handle_t)
    (timeout : TickType_t) (s : State) (b : Bool) :
    (afterSubmit hal handle timeout s).setLock b = afterSubmit hal handle timeout (s.setLock b) :=
  rfl

@[simp] theorem builtState_trace (hal : Hal) (address : Nat) (data_write : List Nat)
    (read_len : Nat) (s : State) :
    (builtState hal address data_write read_len s).trace =
      s.trace ++ (linkOpened s (createdHandle hal s) ++
        okEvents ((write_then_read_steps address data_write read_len).map Prod.fst)) := rfl

@[simp] theorem builtState_bus_port (hal : Hal) (address : Nat) (data_write : List Nat)
    (read_len : Nat) (s : State) :
    (builtState hal address data_write read_len s).bus.i2c_port = s.bus.i2c_port := rfl

theorem recoverySequence_builtState (hal : Hal) (address : Nat) (data_write : List Nat)
    (read_len : Nat) (s : State) :
    recoverySequence (builtState hal address data_write read_len s).bus =
      recoverySequence s.bus := rfl

/-- What a call of `i2c_bus_write_then_read` adds to the trace, what it
returns and how it leaves the lock, in each of the five ways it can end. -/
theorem write_then_read_summary (hal : Hal) (address : Nat) (data_write : List Nat)
    (read_len : Nat) (s : State) :
    (createdHandle hal s = 0 ∧
      (i2c_bus_write_then_read hal address data_write read_len s).value = some ESP_ERR_NO_MEM ∧
      (i2c_bus_write_then_read hal address data_write read_len s).state.bus.lock = false ∧
      newEvents s (i2c_bus_write_then_read hal address data_write read_len s) =
        linkOpened s 0 ++ [⟨.xSemaphoreGive, 0⟩]) ∨
    (createdHandle hal s ≠ 0 ∧
      ∃ pre c op rest err,
        write_then_read_steps address data_write read_len = pre ++ (c, op) :: rest ∧
        err ≠ 0 ∧
        err = hal.answer (s.trace ++ (linkOpened s (createdHandle hal s) ++
          okEvents (pre.map Prod.fst))) c ∧
        (i2c_bus_write_then_read hal address data_write read_len s).value = some err ∧
        (i2c_bus_write_then_read hal address data_write read_len s).state.bus.lock = false ∧
        newEvents s (i2c_bus_write_then_read hal address data_write read_len s) =
          linkOpened s (createdHandle hal s) ++
            (okEvents (pre.map Prod.fst) ++ (⟨c, err⟩ :: linkClosed))) ∨
    (createdHandle hal s ≠ 0 ∧
      submitStatus hal address data_write read_len s ≠ ESP_ERR_TIMEOUT ∧
      (i2c_bus_write_then_read hal address data_write read_len s).value =
        some (submitStatus hal address data_write read_len s) ∧
      (i2c_bus_write_then_read hal address data_write read_len s).state.bus.lock = false ∧
      newEvents s (i2c_bus_write_then_read hal address data_write read_len s) =
        submitted hal address data_write read_len s ++ linkClosed) ∨
    (createdHandle hal s ≠ 0 ∧
      submitStatus hal address data_write read_len s = ESP_ERR_TIMEOUT ∧
      (i2c_bus_write_then_read hal address data_write read_len s).value =
        some ESP_ERR_TIMEOUT ∧
      (i2c_bus_write_then_read hal address data_write read_len s).state.bus.lock = false ∧
      newEvents s (i2c_bus_write_then_read hal address data_write read_len s) =
        submitted hal address data_write read_len s ++
          (recoverySequence s.bus ++ linkClosed)) ∨
    (createdHandle hal s ≠ 0 ∧
      submitStatus hal address data_write read_len s = ESP_ERR_TIMEOUT ∧
      (i2c_bus_write_then_read hal address data_write read_len s).value = none ∧
      ∃ pre c rest err, recoverySequence s.bus = pre ++ ⟨c, 0⟩ :: rest ∧ err ≠ 0 ∧
        err = hal.answer (s.trace ++ (submitted hal address data_write read_len s ++ pre)) c ∧
        newEvents s (i2c_bus_write_then_read hal address data_write read_len s) =
          submitted hal address data_write read_len s ++ (pre ++ [⟨c, err⟩])) := by
  rcases write_then_read_cases hal address data_write read_len s with
    ⟨h0, h⟩ | ⟨h0, pre, c, op, rest, err, hs, hne, he, h⟩ | ⟨h0, h⟩
  · left
    rw [h]
    exact ⟨h0, rfl, rfl, by simp [newEvents, Outcome.state]⟩
  · right; left
    rw [h]
    exact ⟨h0, pre, c, op, rest, err, hs, hne, he, rfl, rfl,
      by simp [newEvents, Outcome.state]⟩
  · right; right
    rw [h]
    rcases cmd_begin_unlocked_cases hal (builtLink address data_write read_len)
        (.pdMS_TO_TICKS 100) (builtState hal address data_write read_len s) with
      ⟨hr, h1⟩ | ⟨hr, h1⟩ | ⟨hr, pre, c, rest, hc, hne, h1⟩
    · left
      rw [h1]
      refine ⟨h0, hr, rfl, rfl, ?_⟩
      simp [newEvents, Outcome.state, submitted, submitCall, submitStatus]
    · right; left
      rw [h1]
      refine ⟨h0, hr, rfl, rfl, ?_⟩
      simp [newEvents, Outcome.state, submitted, submitCall, submitStatus,
        recoverySequence_builtState]
    · right; right
      rw [h1]
      refine ⟨h0, hr, rfl, pre, c, rest, _, hc, hne, ?_, ?_⟩
      · simp [submitted, submitCall, submitStatus]
      · simp [newEvents, Outcome.state, submitted, submitCall, submitStatus]

/-! ## The link of `i2c_bus_write_then_read` -/

theorem address_write_byte (a : Nat) (ha : a < 128) : (a <<< 1) % 256 = 2 * a := by
  rw [Nat.shiftLeft_eq]
  omega

theorem address_read_byte : ∀ a < 128, ((a <<< 1) ||| 1) % 256 = 2 * a + 1 := by
  decide

theorem builtLink_eq_specLink (a : Nat) (w : List Nat) (n : Nat) (ha : a < 128) :
    builtLink a w n = specLink a w n := by
  by_cases hn : n = 0
  · simp [builtLink, specLink, write_then_read_steps, hn, address_write_byte a ha]
  · simp [builtLink, specLink, write_then_read_steps, hn, address_write_byte a ha,
      address_read_byte a ha]

theorem write_then_read_steps_build (a : Nat) (w : List Nat) (n : Nat) :
    ∀ x ∈ write_then_read_steps a w n, x.1.isBuildStep = true := by
  intro x hx
  by_cases hn : n = 0
  · simp [write_then_read_steps, hn] at hx
    rcases hx with rfl | rfl | rfl | rfl <;> rfl
  · simp [write_then_read_steps, hn] at hx
    rcases hx with rfl | rfl | rfl | rfl | rfl | rfl | rfl <;> rfl

theorem isSubmit_of_isBuildStep (c : Call) (h : c.isBuildStep = true) : c.isSubmit = false := by
  cases c <;> simp_all [Call.isBuildStep, Call.isSubmit]

theorem isSubmit_of_isRecovery (c : Call) (h : c.isRecovery = true) : c.isSubmit = false := by
  cases c <;> simp_all [Call.isRecovery, Call.isSubmit]

theorem submissions_append (l1 l2 : List Event) :
    submissions (l1 ++ l2) = submissions l1 ++ submissions l2 := by
  simp [submissions]

theorem submissions_eq_nil (l : List Event) (h : ∀ e ∈ l, e.call.isSubmit = false) :
    submissions l = [] := by
  simp only [submissions, List.filter_eq_nil_iff, List.mem_map]
  rintro c ⟨e, he, rfl⟩
  simp [h e he]

theorem submissions_okEvents_steps (a : Nat) (w : List Nat) (n : Nat) :
    submissions (okEvents ((write_then_read_steps a w n).map Prod.fst)) = [] := by
  apply submissions_eq_nil
  intro e he
  simp only [okEvents, List.map_map, List.mem_map] at he
  rcases he with ⟨x, hx, rfl⟩
  exact isSubmit_of_isBuildStep _ (write_then_read_steps_build a w n x hx)

theorem submissions_recoverySequence (bus : i2c_bus_t) : submissions (recoverySequence bus) = [] :=
  submissions_eq_nil _ fun e he =>
    isSubmit_of_isRecovery _ (recoverySequence_recovery bus e he).1

/-- The events of a recovery pass that stopped at a failing call are recovery
calls. -/
theorem recovery_prefix_calls (bus : i2c_bus_t) (pre rest : List Event) (c : Call) (err : Int)
    (h : recoverySequence bus = pre ++ ⟨c, 0⟩ :: rest) :
    ∀ e ∈ pre ++ [⟨c, err⟩], e.call.isRecovery = true := by
  intro e he
  rcases List.mem_append.1 he with he | he
  · exact (recoverySequence_recovery bus e (by rw [h]; simp [he])).1
  · rw [List.mem_singleton] at he
    rw [he]
    exact (recoverySequence_recovery bus ⟨c, 0⟩ (by rw [h]; simp)).1

theorem submissions_submitted (hal : Hal) (a : Nat) (w : List Nat) (n : Nat) (s : State) :
    submissions (submitted hal a w n s) = [submitCall s a w n] := by
  unfold submitted
  rw [submissions_append, submissions_append, submissions_okEvents_steps]
  simp [submissions, linkOpened, submitCall, Call.isSubmit]

/-- C1: for every 7-bit address `a`, payload `w` and read length `n`, in every
environment and state, when no link-construction step of the call fails,
`i2c_bus_write_then_read` submits exactly one command link, with a timeout of
100 ms, and the link is START, WRITE-BYTE(2a, ack), WRITE(w, ack), then iff
`n ≠ 0` START, WRITE-BYTE(2a+1, ack), READ(n, NACK after the last byte), and
STOP. -/
theorem write_then_read_submits_spec_link (hal : Hal) (a : Nat) (w : List Nat) (n : Nat)
    (s : State) (ha : a < 128)
    (hok : ∀ e ∈ newEvents s (i2c_bus_write_then_read hal a w n s), e.buildFailed = false) :
    submissions (newEvents s (i2c_bus_write_then_read hal a w n s)) =
      [.i2c_master_cmd_begin s.bus.i2c_port (specLink a w n) (.pdMS_TO_TICKS 100)] := by
  have hsub : submissions (submitted hal a w n s) =
      [.i2c_master_cmd_begin s.bus.i2c_port (specLink a w n) (.pdMS_TO_TICKS 100)] := by
    rw [submissions_submitted, submitCall, builtLink_eq_specLink a w n ha]
  rcases write_then_read_summary hal a w n s with
    ⟨_, _, _, h⟩ | ⟨_, pre, c, op, rest, err, hs, hne, _, _, _, h⟩ | ⟨_, _, _, _, h⟩ |
    ⟨_, _, _, _, h⟩ | ⟨_, _, _, pre, c, rest, err, hc, _, _, h⟩
  · exfalso
    rw [h] at hok
    have := hok ⟨.i2c_cmd_link_create_static s.bus.cmd_buf s.bus.cmd_buf_size, 0⟩
      (by simp [linkOpened])
    simp [Event.buildFailed] at this
  · exfalso
    rw [h] at hok
    have hb : c.isBuildStep = true :=
      write_then_read_steps_build a w n (c, op) (by rw [hs]; simp)
    have := hok ⟨c, err⟩ (by simp)
    cases c <;> simp_all [Event.buildFailed, Call.isBuildStep]
  · rw [h, submissions_append, hsub]
    simp [submissions, linkClosed, Call.isSubmit]
  · rw [h, submissions_append, submissions_append, hsub, submissions_recoverySequence]
    simp [submissions, linkClosed, Call.isSubmit]
  · rw [h, submissions_append, hsub,
      submissions_eq_nil _ fun e he =>
        isSubmit_of_isRecovery _ (recovery_prefix_calls s.bus pre rest c err hc e he)]
    simp

/-! ## Environments without construction or recovery failures -/

theorem simBus_buildOk (status : Nat → Int) : (simBus status).BuildOk := by
  constructor
  · intro h buffer size
    simp [simBus]
  · intro h c hc
    cases c <;> simp_all [simBus, Call.isBuildStep]

theorem simBus_recoveryOk (status : Nat → Int) : (simBus status).RecoveryOk := by
  intro h c hc
  cases c <;> simp_all [simBus, Call.isRecovery]

/-- In an environment without construction or recovery failures a call of
`i2c_bus_write_then_read` submits its link, runs one recovery pass if the
submission timed out, and returns the status of the submission. -/
theorem write_then_read_of_ok (hal : Hal) (hb : hal.BuildOk) (hr : hal.RecoveryOk)
    (a : Nat) (w : List Nat) (n : Nat) (s : State) :
    (i2c_bus_write_then_read hal a w n s).value = some (submitStatus hal a w n s) ∧
    (i2c_bus_write_then_read hal a w n s).state.bus.lock = false ∧
    newEvents s (i2c_bus_write_then_read hal a w n s) =
      submitted hal a w n s ++
        ((if submitStatus hal a w n s = ESP_ERR_TIMEOUT then recoverySequence s.bus else []) ++
          linkClosed) := by
  rcases write_then_read_summary hal a w n s with
    ⟨h0, _⟩ | ⟨_, pre, c, op, rest, err, hs, hne, he, _⟩ | ⟨_, hst, hv, hl, h⟩ |
    ⟨_, hst, hv, hl, h⟩ | ⟨_, _, _, pre, c, rest, err, hc, hne, he, _⟩
  · exact absurd h0 (hb.1 _ _ _)
  · exfalso
    apply hne
    rw [he]
    exact hb.2 _ c (write_then_read_steps_build a w n (c, op) (by rw [hs]; simp))
  · exact ⟨hv, hl, by rw [h, if_neg hst]; rfl⟩
  · exact ⟨by rw [hv, hst], hl, by rw [h, if_pos hst]⟩
  · exfalso
    apply hne
    rw [he]
    exact hr _ c (recoverySequence_recovery s.bus ⟨c, 0⟩ (by rw [hc]; simp)).1

theorem buildFailed_okEvents_steps (a : Nat) (w : List Nat) (n : Nat) :
    ∀ e ∈ okEvents ((write_then_read_steps a w n).map Prod.fst), e.buildFailed = false := by
  intro e he
  simp only [okEvents, List.map_map, List.mem_map] at he
  rcases he with ⟨x, hx, rfl⟩
  have hb := write_then_read_steps_build a w n x hx
  simp only [Function.comp]
  cases hc : x.1 <;> simp_all [Event.buildFailed, Call.isBuildStep]

theorem buildFailed_of_isRecovery (e : Event) (h : e.call.isRecovery = true) :
    e.buildFailed = false := by
  obtain ⟨c, r⟩ := e
  cases c <;> simp_all [Event.buildFailed, Call.isRecovery, Call.isBuildStep]

/-- In an environment whose link construction never fails no construction
event of a call of `i2c_bus_write_then_read` failed. -/
theorem write_then_read_built (hal : Hal) (hb : hal.BuildOk) (hr : hal.RecoveryOk)
    (a : Nat) (w : List Nat) (n : Nat) (s : State) :
    ∀ e ∈ newEvents s (i2c_bus_write_then_read hal a w n s), e.buildFailed = false := by
  intro e he
  rw [(write_then_read_of_ok hal hb hr a w n s).2.2] at he
  simp only [submitted, List.mem_append, List.mem_singleton] at he
  rcases he with (he | he | he) | he | he
  · simp only [linkOpened, List.mem_cons, List.mem_singleton, List.not_mem_nil, or_false] at he
    rcases he with rfl | rfl
    · rfl
    · simpa [Event.buildFailed, createdHandle] using hb.1 _ _ _
  · exact buildFailed_okEvents_steps a w n e he
  · rw [he]
    rfl
  · split at he
    · exact buildFailed_of_isRecovery e (recoverySequence_recovery s.bus e he).1
    · simp at he
  · simp only [linkClosed, List.mem_cons, List.mem_singleton, List.not_mem_nil, or_false] at he
    rcases he with rfl | rfl <;> rfl

/-- Witness of C1: a read of one byte from register 3 of the device at 0x18 on
a simulated bus. -/
theorem write_then_read_submits_spec_link_witness :
    0x18 < 128 ∧
    submissions (newEvents (stateAt 100000)
        (i2c_bus_write_then_read (simBus fun _ => 0) 0x18 [3] 1 (stateAt 100000))) =
      [.i2c_master_cmd_begin 0
        [.START, .WRITE_BYTE 0x30 true, .WRITE [3] true, .START, .WRITE_BYTE 0x31 true,
          .READ 1 .I2C_MASTER_LAST_NACK, .STOP]
        (.pdMS_TO_TICKS 100)] :=
  ⟨by decide,
    write_then_read_submits_spec_link (simBus fun _ => 0) 0x18 [3] 1 (stateAt 100000)
      (by decide)
      (write_then_read_built _ (simBus_buildOk _) (simBus_recoveryOk _) 0x18 [3] 1 _)⟩

/-! ## The executor on a timeout -/

/-- In an environment whose recovery calls succeed the executor returns the
status of the submission, after one recovery pass if that status is a
timeout. -/
theorem cmd_begin_unlocked_of_ok (hal : Hal) (hr : hal.RecoveryOk) (handle : i2c_cmd_handle_t)
    (timeout : TickType_t) (s : State) :
    i2c_bus_cmd_begin_unlocked hal handle timeout s =
      .ret (hal.answer s.trace (.i2c_master_cmd_begin s.bus.i2c_port handle timeout))
        ((afterSubmit hal handle timeout s).ext
          (if hal.answer s.trace (.i2c_master_cmd_begin s.bus.i2c_port handle timeout) =
              ESP_ERR_TIMEOUT then recoverySequence s.bus else [])) := by
  rw [cmd_begin_unlocked_apply]
  split
  · next h =>
    rw [unstick_of_ok hal hr, h]
    rfl
  · simp

/-- The same for the locked executor: the lock is taken before and given after. -/
theorem cmd_begin_of_ok (hal : Hal) (hr : hal.RecoveryOk) (handle : i2c_cmd_handle_t)
    (timeout : TickType_t) (s : State) :
    i2c_bus_cmd_begin hal handle timeout s =
      .ret (hal.answer (s.trace ++ [⟨.xSemaphoreTake, 0⟩])
          (.i2c_master_cmd_begin s.bus.i2c_port handle timeout))
        ((afterSubmit hal handle timeout ((s.setLock false).ext [⟨.xSemaphoreTake, 0⟩])).ext
          ((if hal.answer (s.trace ++ [⟨.xSemaphoreTake, 0⟩])
              (.i2c_master_cmd_begin s.bus.i2c_port handle timeout) = ESP_ERR_TIMEOUT then
            recoverySequence s.bus else []) ++ [⟨.xSemaphoreGive, 0⟩])) := by
  rw [cmd_begin_apply, cmd_begin_unlocked_of_ok hal hr]
  simp

theorem isRecovery_of_isBuildStep (c : Call) (h : c.isBuildStep = true) :
    c.isRecovery = false := by
  cases c <;> simp_all [Call.isBuildStep, Call.isRecovery]

theorem okEvents_steps_calls (a : Nat) (w : List Nat) (n : Nat) :
    ∀ e ∈ okEvents ((write_then_read_steps a w n).map Prod.fst),
      e.call.isSubmit = false ∧ e.call.isRecovery = false := by
  intro e he
  simp only [okEvents, List.map_map, List.mem_map] at he
  rcases he with ⟨x, hx, rfl⟩
  have hb := write_then_read_steps_build a w n x hx
  exact ⟨isSubmit_of_isBuildStep _ hb, isRecovery_of_isBuildStep _ hb⟩

theorem last_mem_newEvents_abort {α : Type} (s x : State) (l : List Event) (e : Event)
    (hx : ∃ m, x.trace = s.trace ++ m) :
    e ∈ newEvents s (.abort (x.ext (l ++ [e])) : Outcome α) := by
  obtain ⟨m, hm⟩ := hx
  simp [newEvents, Outcome.state, hm]

/-- C2: on a bus with a clock speed other than 0, when the submission reports
a timeout and no recovery call of the run fails, the executor
`i2c_bus_cmd_begin_unlocked` returns `ESP_ERR_TIMEOUT`
after exactly the submission followed by one recovery pass
(`recoverySequence`: driver teardown; data line reset and input; clock line
reset and output; 32 times clock low, delay, clock high, delay; driver
configuration and installation with the port, pins and speed of the bus); the
link is submitted once.  The same holds for `i2c_bus_cmd_begin`, between taking
and giving the lock, and for `i2c_bus_write_then_read`, between link
construction and link deletion. -/
theorem timeout_runs_one_recovery_pass (hal : Hal) (handle : i2c_cmd_handle_t)
    (timeout : TickType_t) (a : Nat) (w : List Nat) (n : Nat) (s : State)
    (_hspeed : 0 < s.bus.speed_hz) :
    (hal.answer s.trace (.i2c_master_cmd_begin s.bus.i2c_port handle timeout) =
        ESP_ERR_TIMEOUT →
      (∀ e ∈ newEvents s (i2c_bus_cmd_begin_unlocked hal handle timeout s),
        e.call.isRecovery = true → e.ret = 0) →
      (i2c_bus_cmd_begin_unlocked hal handle timeout s).value = some ESP_ERR_TIMEOUT ∧
      newEvents s (i2c_bus_cmd_begin_unlocked hal handle timeout s) =
        ⟨.i2c_master_cmd_begin s.bus.i2c_port handle timeout, ESP_ERR_TIMEOUT⟩ ::
          recoverySequence s.bus ∧
      submissions (newEvents s (i2c_bus_cmd_begin_unlocked hal handle timeout s)) =
        [.i2c_master_cmd_begin s.bus.i2c_port handle timeout]) ∧
    (hal.answer (s.trace ++ [⟨.xSemaphoreTake, 0⟩])
        (.i2c_master_cmd_begin s.bus.i2c_port handle timeout) = ESP_ERR_TIMEOUT →
      (∀ e ∈ newEvents s (i2c_bus_cmd_begin hal handle timeout s),
        e.call.isRecovery = true → e.ret = 0) →
      (i2c_bus_cmd_begin hal handle timeout s).value = some ESP_ERR_TIMEOUT ∧
      newEvents s (i2c_bus_cmd_begin hal handle timeout s) =
        ⟨.xSemaphoreTake, 0⟩ ::
          ⟨.i2c_master_cmd_begin s.bus.i2c_port handle timeout, ESP_ERR_TIMEOUT⟩ ::
            (recoverySequence s.bus ++ [⟨.xSemaphoreGive, 0⟩])) ∧
    ((∀ e ∈ newEvents s (i2c_bus_write_then_read hal a w n s), e.buildFailed = false) →
      (∀ e ∈ newEvents s (i2c_bus_write_then_read hal a w n s),
        e.call.isSubmit = true → e.ret = ESP_ERR_TIMEOUT) →
      (∀ e ∈ newEvents s (i2c_bus_write_then_read hal a w n s),
        e.call.isRecovery = true → e.ret = 0) →
      (i2c_bus_write_then_read hal a w n s).value = some ESP_ERR_TIMEOUT ∧
      submissions (newEvents s (i2c_bus_write_then_read hal a w n s)) =
        [submitCall s a w n] ∧
      ∃ built, (∀ e ∈ built, e.call.isSubmit = false ∧ e.call.isRecovery = false) ∧
        newEvents s (i2c_bus_write_then_read hal a w n s) =
          built ++ ⟨submitCall s a w n, ESP_ERR_TIMEOUT⟩ ::
            (recoverySequence s.bus ++ linkClosed)) := by
  refine ⟨?_, ?_, ?_⟩
  · intro hto hrec
    rcases cmd_begin_unlocked_cases hal handle timeout s with
      ⟨hr, _⟩ | ⟨_, h⟩ | ⟨_, pre, c, rest, hc, hne, h⟩
    · exact absurd hto hr
    · have hn : newEvents s (i2c_bus_cmd_begin_unlocked hal handle timeout s) =
          ⟨.i2c_master_cmd_begin s.bus.i2c_port handle timeout, ESP_ERR_TIMEOUT⟩ ::
            recoverySequence s.bus := by
        rw [h]
        simp [newEvents, Outcome.state, hto]
      refine ⟨by rw [h]; rfl, hn, ?_⟩
      rw [hn]
      have := submissions_recoverySequence s.bus
      simp only [submissions] at this ⊢
      simp [this, Call.isSubmit]
    · exfalso
      rw [h] at hrec
      exact hne (hrec ⟨c, hal.answer ((afterSubmit hal handle timeout s).trace ++ pre) c⟩
        (last_mem_newEvents_abort s _ pre _ ⟨[_], rfl⟩)
        (recovery_prefix_calls s.bus pre rest c _ hc _
          (List.mem_append_right _ (List.mem_singleton_self _))))
  · intro hto hrec
    rw [cmd_begin_apply] at hrec ⊢
    rcases cmd_begin_unlocked_cases hal handle timeout
        ((s.setLock true).ext [⟨.xSemaphoreTake, 0⟩]) with
      ⟨hr, _⟩ | ⟨_, h⟩ | ⟨_, pre, c, rest, hc, hne, h⟩
    · exact absurd hto hr
    · rw [h]
      refine ⟨rfl, ?_⟩
      simp [newEvents, Outcome.state, hto]
    · exfalso
      rw [h] at hrec
      exact hne (hrec ⟨c, hal.answer ((afterSubmit hal handle timeout
            ((s.setLock true).ext [⟨.xSemaphoreTake, 0⟩])).trace ++ pre) c⟩
        (last_mem_newEvents_abort s _ pre _ ⟨_, List.append_assoc _ _ _⟩)
        (recovery_prefix_calls s.bus pre rest c _ hc _
          (List.mem_append_right _ (List.mem_singleton_self _))))
  · intro hok hto hrec
    rcases write_then_read_summary hal a w n s with
      ⟨_, _, _, h⟩ | ⟨_, pre, c, op, rest, err, hs, hne, _, _, _, h⟩ | ⟨_, hst, _, _, h⟩ |
      ⟨_, hst, hv, _, h⟩ | ⟨_, _, _, pre, c, rest, err, hc, hne, _, h⟩
    · exfalso
      rw [h] at hok
      have := hok ⟨.i2c_cmd_link_create_static s.bus.cmd_buf s.bus.cmd_buf_size, 0⟩
        (by simp [linkOpened])
      simp [Event.buildFailed] at this
    · exfalso
      rw [h] at hok
      have hb : c.isBuildStep = true :=
        write_then_read_steps_build a w n (c, op) (by rw [hs]; simp)
      have := hok ⟨c, err⟩ (by simp)
      cases c <;> simp_all [Event.buildFailed, Call.isBuildStep]
    · exfalso
      rw [h] at hto
      exact hst (hto ⟨submitCall s a w n, submitStatus hal a w n s⟩
        (by simp [submitted]) rfl)
    · refine ⟨hv, ?_, linkOpened s (createdHandle hal s) ++
          okEvents ((write_then_read_steps a w n).map Prod.fst), ?_, ?_⟩
      · rw [h, submissions_append, submissions_append, submissions_submitted,
          submissions_recoverySequence]
        simp [submissions, linkClosed, Call.isSubmit]
      · intro e he
        rcases List.mem_append.1 he with he | he
        · simp only [linkOpened, List.mem_cons, List.mem_singleton, List.not_mem_nil,
            or_false] at he
          rcases he with rfl | rfl <;> exact ⟨rfl, rfl⟩
        · exact okEvents_steps_calls a w n e he
      · rw [h, submitted, hst]
        simp
    · exfalso
      rw [h] at hrec
      refine hne (hrec ⟨c, err⟩ ?_ ?_)
      · simp
      · exact recovery_prefix_calls s.bus pre rest c err hc _ (by simp)

theorem unlocked_recovery_events_ok (hal : Hal) (hr : hal.RecoveryOk)
    (handle : i2c_cmd_handle_t) (timeout : TickType_t) (s : State) :
    ∀ e ∈ newEvents s (i2c_bus_cmd_begin_unlocked hal handle timeout s),
      e.call.isRecovery = true → e.ret = 0 := by
  intro e he hrec
  rw [cmd_begin_unlocked_of_ok hal hr] at he
  simp only [newEvents, Outcome.state, State.ext_trace, afterSubmit_trace,
    List.append_assoc, List.drop_left, List.mem_append, List.mem_singleton] at he
  rcases he with rfl | he
  · simp [Call.isRecovery] at hrec
  · split at he
    · exact (recoverySequence_recovery s.bus e he).2
    · simp at he

theorem cmd_begin_recovery_events_ok (hal : Hal) (hr : hal.RecoveryOk)
    (handle : i2c_cmd_handle_t) (timeout : TickType_t) (s : State) :
    ∀ e ∈ newEvents s (i2c_bus_cmd_begin hal handle timeout s),
      e.call.isRecovery = true → e.ret = 0 := by
  intro e he hrec
  rw [cmd_begin_of_ok hal hr] at he
  simp only [newEvents, Outcome.state, State.ext_trace, afterSubmit_trace, State.setLock_trace,
    List.append_assoc, List.drop_left, List.mem_append, List.mem_singleton] at he
  rcases he with rfl | rfl | he | rfl
  · simp [Call.isRecovery] at hrec
  · simp [Call.isRecovery] at hrec
  · split at he
    · exact (recoverySequence_recovery s.bus e he).2
    · simp at he
  · rfl

theorem write_then_read_events_ok (hal : Hal) (hb : hal.BuildOk) (hr : hal.RecoveryOk)
    (a : Nat) (w : List Nat) (n : Nat) (s : State) :
    ∀ e ∈ newEvents s (i2c_bus_write_then_read hal a w n s),
      (e.call.isRecovery = true → e.ret = 0) ∧
      (e.call.isSubmit = true → e.ret = submitStatus hal a w n s) := by
  intro e he
  rw [(write_then_read_of_ok hal hb hr a w n s).2.2] at he
  simp only [submitted, List.mem_append, List.mem_singleton] at he
  rcases he with (he | he | he) | he | he
  · simp only [linkOpened, List.mem_cons, List.mem_singleton, List.not_mem_nil, or_false] at he
    rcases he with rfl | rfl <;> simp [Call.isRecovery, Call.isSubmit]
  · have := okEvents_steps_calls a w n e he
    simp [this.1, this.2]
  · rw [he]
    simp [Call.isRecovery, submitCall]
  · split at he
    · have := recoverySequence_recovery s.bus e he
      simp [this.2, isSubmit_of_isRecovery _ this.1]
    · simp at he
  · simp only [linkClosed, List.mem_cons, List.mem_singleton, List.not_mem_nil, or_false] at he
    rcases he with rfl | rfl <;> simp [Call.isRecovery, Call.isSubmit]

/-- Witness of C2: on a simulated bus whose submissions all time out, the
executor, the locked executor and a one-byte register read return
`ESP_ERR_TIMEOUT`. -/
theorem timeout_runs_one_recovery_pass_witness :
    0 < (stateAt 100000).bus.speed_hz ∧
    (i2c_bus_cmd_begin_unlocked (simBus fun _ => ESP_ERR_TIMEOUT)
        [.START, .WRITE_BYTE 0x30 true, .STOP] (.pdMS_TO_TICKS 100) (stateAt 100000)).value =
      some ESP_ERR_TIMEOUT ∧
    (i2c_bus_cmd_begin (simBus fun _ => ESP_ERR_TIMEOUT)
        [.START, .WRITE_BYTE 0x30 true, .STOP] (.pdMS_TO_TICKS 100) (stateAt 100000)).value =
      some ESP_ERR_TIMEOUT ∧
    (i2c_bus_write_then_read (simBus fun _ => ESP_ERR_TIMEOUT) 0x18 [3] 1
        (stateAt 100000)).value = some ESP_ERR_TIMEOUT :=
  ⟨by decide,
   ((timeout_runs_one_recovery_pass (simBus fun _ => ESP_ERR_TIMEOUT)
        [.START, .WRITE_BYTE 0x30 true, .STOP] (.pdMS_TO_TICKS 100) 0x18 [3] 1
        (stateAt 100000) (by decide)).1 rfl
      (unlocked_recovery_events_ok _ (simBus_recoveryOk _) _ _ _)).1,
   ((timeout_runs_one_recovery_pass (simBus fun _ => ESP_ERR_TIMEOUT)
        [.START, .WRITE_BYTE 0x30 true, .STOP] (.pdMS_TO_TICKS 100) 0x18 [3] 1
        (stateAt 100000) (by decide)).2.1 rfl
      (cmd_begin_recovery_events_ok _ (simBus_recoveryOk _) _ _ _)).1,
   ((timeout_runs_one_recovery_pass (simBus fun _ => ESP_ERR_TIMEOUT)
        [.START, .WRITE_BYTE 0x30 true, .STOP] (.pdMS_TO_TICKS 100) 0x18 [3] 1
        (stateAt 100000) (by decide)).2.2
      (write_then_read_built _ (simBus_buildOk _) (simBus_recoveryOk _) _ _ _ _)
      (fun e he hs =>
        (write_then_read_events_ok _ (simBus_buildOk _) (simBus_recoveryOk _) _ _ _ _ e he).2 hs)
      (fun e he hs =>
        (write_then_read_events_ok _ (simBus_buildOk _) (simBus_recoveryOk _) _ _ _ _ e
          he).1 hs)).1⟩

/-! ## Construction failures -/

theorem okEvents_build_calls (cs : List Call) (hcs : ∀ c ∈ cs, c.isBuildStep = true) :
    ∀ e ∈ okEvents cs, e.buildFailed = false ∧ e.call.isSubmit = false ∧
      e.call.isRecovery = false ∧ e.call.isDelete = false ∧ e.call.isLock = false := by
  intro e he
  simp only [okEvents, List.mem_map] at he
  rcases he with ⟨c, hc, rfl⟩
  have hb := hcs c hc
  cases c <;>
    simp_all [Event.buildFailed, Call.isBuildStep, Call.isSubmit, Call.isRecovery,
      Call.isDelete, Call.isLock]

theorem steps_prefix_build (a : Nat) (w : List Nat) (n : Nat) (pre rest : List (Call × Op))
    (x : Call × Op) (hs : write_then_read_steps a w n = pre ++ x :: rest) :
    (∀ c ∈ pre.map Prod.fst, c.isBuildStep = true) ∧ x.1.isBuildStep = true := by
  constructor
  · intro c hc
    rcases List.mem_map.1 hc with ⟨y, hy, rfl⟩
    exact write_then_read_steps_build a w n y (by rw [hs]; simp [hy])
  · exact write_then_read_steps_build a w n x (by rw [hs]; simp)

theorem eventsOf_append (p : Call → Bool) (l1 l2 : List Event) :
    eventsOf p (l1 ++ l2) = eventsOf p l1 ++ eventsOf p l2 := by
  simp [eventsOf]

theorem eventsOf_eq_nil (p : Call → Bool) (l : List Event) (h : ∀ e ∈ l, p e.call = false) :
    eventsOf p l = [] := by
  simp only [eventsOf, List.filter_eq_nil_iff]
  intro e he
  simp [h e he]

theorem buildFailed_step (c : Call) (err : Int) (hc : c.isBuildStep = true) (he : err ≠ 0) :
    (⟨c, err⟩ : Event).buildFailed = true ∧ c.isCreate = false ∧ c.isSubmit = false ∧
      c.isRecovery = false ∧ c.isDelete = false := by
  cases c <;>
    simp_all [Event.buildFailed, Call.isBuildStep, Call.isCreate, Call.isSubmit,
      Call.isRecovery, Call.isDelete]

/-- No construction event failed in a call that submitted its link. -/
theorem submitted_built (hal : Hal) (a : Nat) (w : List Nat) (n : Nat) (s : State)
    (h0 : createdHandle hal s ≠ 0) :
    ∀ e ∈ submitted hal a w n s, e.buildFailed = false := by
  intro e he
  simp only [submitted, List.mem_append, List.mem_singleton] at he
  rcases he with he | he | he
  · simp only [linkOpened, List.mem_cons, List.mem_singleton, List.not_mem_nil, or_false] at he
    rcases he with rfl | rfl
    · rfl
    · simpa [Event.buildFailed] using h0
  · exact buildFailed_okEvents_steps a w n e he
  · rw [he]
    rfl

theorem linkClosed_calls :
    ∀ e ∈ linkClosed, e.buildFailed = false ∧ e.call.isSubmit = false ∧
      e.call.isRecovery = false := by
  intro e he
  simp only [linkClosed, List.mem_cons, List.mem_singleton, List.not_mem_nil, or_false] at he
  rcases he with rfl | rfl <;> exact ⟨rfl, rfl, rfl⟩

/-- The general part of C3: a call of `i2c_bus_write_then_read` in which a
construction event failed consists of events without failure, submission,
recovery call or link deletion, then the failing event, then only the
teardown. -/
theorem write_then_read_failure_shape (hal : Hal) (a : Nat) (w : List Nat) (n : Nat) (s : State)
    (hfail : ∃ e ∈ newEvents s (i2c_bus_write_then_read hal a w n s), e.buildFailed = true) :
    ∃ pre e,
      e.buildFailed = true ∧
      (∀ x ∈ pre, x.buildFailed = false ∧ x.call.isSubmit = false ∧
        x.call.isRecovery = false ∧ x.call.isDelete = false) ∧
      newEvents s (i2c_bus_write_then_read hal a w n s) =
        pre ++ e :: (if e.call.isCreate then [⟨.xSemaphoreGive, 0⟩] else linkClosed) ∧
      (i2c_bus_write_then_read hal a w n s).value =
        some (if e.call.isCreate then ESP_ERR_NO_MEM else e.ret) := by
  obtain ⟨f, hf, hfb⟩ := hfail
  rcases write_then_read_summary hal a w n s with
    ⟨_, hv, _, h⟩ | ⟨h0, pre, c, op, rest, err, hs, hne, _, hv, _, h⟩ | ⟨h0, _, _, _, h⟩ |
    ⟨h0, _, _, _, h⟩ | ⟨h0, _, _, pre, c, rest, err, hc, _, _, h⟩
  · refine ⟨[⟨.xSemaphoreTake, 0⟩],
      ⟨.i2c_cmd_link_create_static s.bus.cmd_buf s.bus.cmd_buf_size, 0⟩, rfl, ?_, ?_, ?_⟩
    · intro x hx
      rw [List.mem_singleton] at hx
      rw [hx]
      exact ⟨rfl, rfl, rfl, rfl⟩
    · rw [h]
      rfl
    · rw [hv]
      rfl
  · have hp := steps_prefix_build a w n pre rest (c, op) hs
    have hc := buildFailed_step c err hp.2 hne
    refine ⟨linkOpened s (createdHandle hal s) ++ okEvents (pre.map Prod.fst), ⟨c, err⟩,
      hc.1, ?_, ?_, ?_⟩
    · intro x hx
      rcases List.mem_append.1 hx with hx | hx
      · simp only [linkOpened, List.mem_cons, List.mem_singleton, List.not_mem_nil,
          or_false] at hx
        rcases hx with rfl | rfl
        · exact ⟨rfl, rfl, rfl, rfl⟩
        · exact ⟨by simpa [Event.buildFailed] using h0, rfl, rfl, rfl⟩
      · have := okEvents_build_calls _ hp.1 x hx
        exact ⟨this.1, this.2.1, this.2.2.1, this.2.2.2.1⟩
    · rw [h]
      simp [hc.2.1]
    · rw [hv]
      simp [hc.2.1]
  · exfalso
    rw [h] at hf
    rcases List.mem_append.1 hf with hf | hf
    · rw [submitted_built hal a w n s h0 f hf] at hfb
      exact Bool.noConfusion hfb
    · rw [(linkClosed_calls f hf).1] at hfb
      exact Bool.noConfusion hfb
  · exfalso
    rw [h] at hf
    rcases List.mem_append.1 hf with hf | hf
    · rw [submitted_built hal a w n s h0 f hf] at hfb
      exact Bool.noConfusion hfb
    · rcases List.mem_append.1 hf with hf | hf
      · rw [buildFailed_of_isRecovery f (recoverySequence_recovery s.bus f hf).1] at hfb
        exact Bool.noConfusion hfb
      · rw [(linkClosed_calls f hf).1] at hfb
        exact Bool.noConfusion hfb
  · exfalso
    rw [h] at hf
    rcases List.mem_append.1 hf with hf | hf
    · rw [submitted_built hal a w n s h0 f hf] at hfb
      exact Bool.noConfusion hfb
    · rw [buildFailed_of_isRecovery f (recovery_prefix_calls s.bus pre rest c err hc f hf)]
        at hfb
      exact Bool.noConfusion hfb

/-- On the simulated bus whose write step fails, the call ends at the write
step. -/
theorem writeFailBus_run (a : Nat) (w : List Nat) (n : Nat) (s : State) :
    i2c_bus_write_then_read writeFailBus a w n s =
      .ret ESP_ERR_NO_MEM ((s.setLock false).ext
        [⟨.xSemaphoreTake, 0⟩,
         ⟨.i2c_cmd_link_create_static s.bus.cmd_buf s.bus.cmd_buf_size, 1⟩,
         ⟨.i2c_master_start, 0⟩,
         ⟨.i2c_master_write_byte ((a <<< 1) % 256) true, 0⟩,
         ⟨.i2c_master_write w true, ESP_ERR_NO_MEM⟩,
         ⟨.i2c_cmd_link_delete_static, 0⟩,
         ⟨.xSemaphoreGive, 0⟩]) := by
  rw [write_then_read_apply]
  simp [writeFailBus, runSteps, write_then_read_steps, ESP_OK, ESP_ERR_NO_MEM,
    write_then_read_fail_link_apply, linkClosed]

/-- C3 (as the code has it): in every environment, a call of
`i2c_bus_write_then_read` in which a link-construction event failed (link
creation returned no handle, or a building step returned a status other than
`ESP_OK`, such as `ESP_ERR_NO_MEM`) stops construction there: the events before
the failing one contain no failure, then comes the failing event, then only the
teardown (link deletion and giving the lock; giving the lock alone when link
creation itself failed).  The call returns the status of the failing step
(`ESP_ERR_NO_MEM` when link creation returned no handle), nothing is submitted,
no GPIO or driver call is made, and a created link is deleted exactly once.
The function itself compares no payload length with a buffer size: whether a
step fails is the answer of the vendor layer. -/
theorem write_then_read_stops_at_first_failure (hal : Hal) (a : Nat) (w : List Nat) (n : Nat)
    (s : State)
    (hfail : ∃ e ∈ newEvents s (i2c_bus_write_then_read hal a w n s), e.buildFailed = true) :
    ∃ pre e,
      e.buildFailed = true ∧
      (∀ x ∈ pre, x.buildFailed = false) ∧
      newEvents s (i2c_bus_write_then_read hal a w n s) =
        pre ++ e :: (if e.call.isCreate then [⟨.xSemaphoreGive, 0⟩] else linkClosed) ∧
      (i2c_bus_write_then_read hal a w n s).value =
        some (if e.call.isCreate then ESP_ERR_NO_MEM else e.ret) ∧
      submissions (newEvents s (i2c_bus_write_then_read hal a w n s)) = [] ∧
      eventsOf Call.isRecovery (newEvents s (i2c_bus_write_then_read hal a w n s)) = [] ∧
      (eventsOf Call.isDelete (newEvents s (i2c_bus_write_then_read hal a w n s))).length =
        if e.call.isCreate then 0 else 1 := by
  obtain ⟨pre, e, heb, hpre, hnew, hval⟩ := write_then_read_failure_shape hal a w n s hfail
  have hes : e.call.isSubmit = false ∧ e.call.isRecovery = false ∧
      e.call.isDelete = false := by
    obtain ⟨c, r⟩ := e
    cases c <;> simp_all [Event.buildFailed, Call.isBuildStep, Call.isSubmit,
      Call.isRecovery, Call.isDelete]
  refine ⟨pre, e, heb, fun x hx => (hpre x hx).1, hnew, hval, ?_, ?_, ?_⟩
  · rw [hnew]
    apply submissions_eq_nil
    intro x hx
    rcases List.mem_append.1 hx with hx | hx
    · exact (hpre x hx).2.1
    · rcases List.mem_cons.1 hx with rfl | hx
      · exact hes.1
      · split at hx
        · rw [List.mem_singleton] at hx
          rw [hx]
          rfl
        · exact (linkClosed_calls x hx).2.1
  · rw [hnew]
    apply eventsOf_eq_nil
    intro x hx
    rcases List.mem_append.1 hx with hx | hx
    · exact (hpre x hx).2.2.1
    · rcases List.mem_cons.1 hx with rfl | hx
      · exact hes.2.1
      · split at hx
        · rw [List.mem_singleton] at hx
          rw [hx]
          rfl
        · exact (linkClosed_calls x hx).2.2
  · rw [hnew, eventsOf_append, eventsOf_eq_nil Call.isDelete pre fun x hx => (hpre x hx).2.2.2]
    have h1 : Call.isDelete .xSemaphoreGive = false := rfl
    have h2 : Call.isDelete .i2c_cmd_link_delete_static = true := rfl
    by_cases hc : e.call.isCreate = true
    · simp [hc, eventsOf, List.filter_cons, hes.2.2, h1]
    · simp [hc, eventsOf, List.filter_cons, hes.2.2, h1, h2, linkClosed]

/-- Witness of C3: a register write on the simulated bus whose write step
fails with `ESP_ERR_NO_MEM`: the call returns `ESP_ERR_NO_MEM` and submits
nothing. -/
theorem write_then_read_stops_at_first_failure_witness :
    (∃ e ∈ newEvents (stateAt 100000)
        (i2c_bus_write_then_read writeFailBus 0x18 [3, 7] 0 (stateAt 100000)),
      e.buildFailed = true) ∧
    ∃ pre e, e.buildFailed = true ∧
      (∀ x ∈ pre, x.buildFailed = false) ∧
      newEvents (stateAt 100000)
        (i2c_bus_write_then_read writeFailBus 0x18 [3, 7] 0 (stateAt 100000)) =
        pre ++ e :: (if e.call.isCreate then [⟨.xSemaphoreGive, 0⟩] else linkClosed) ∧
      (i2c_bus_write_then_read writeFailBus 0x18 [3, 7] 0 (stateAt 100000)).value =
        some (if e.call.isCreate then ESP_ERR_NO_MEM else e.ret) ∧
      submissions (newEvents (stateAt 100000)
        (i2c_bus_write_then_read writeFailBus 0x18 [3, 7] 0 (stateAt 100000))) = [] :=
  have hfail : ∃ e ∈ newEvents (stateAt 100000)
      (i2c_bus_write_then_read writeFailBus 0x18 [3, 7] 0 (stateAt 100000)),
      e.buildFailed = true :=
    ⟨⟨.i2c_master_write [3, 7] true, ESP_ERR_NO_MEM⟩,
      by rw [writeFailBus_run]; simp [newEvents, Outcome.state],
      rfl⟩
  ⟨hfail,
    (write_then_read_stops_at_first_failure writeFailBus 0x18 [3, 7] 0 (stateAt 100000)
      hfail).elim fun pre hp => hp.elim fun e he =>
        ⟨pre, e, he.1, he.2.1, he.2.2.1, he.2.2.2.1, he.2.2.2.2.1⟩⟩

/-- C3 (counterexample): on a simulated bus whose link-building steps succeed,
a call with a write payload of 65 bytes on a bus whose static command buffer
has 64 bytes does not return `ESP_ERR_NO_MEM`: the link with the 65-byte write
is submitted to the hardware and the call returns `ESP_OK`. -/
theorem oversized_payload_is_submitted :
    (stateAt 100000).bus.cmd_buf_size < (List.replicate 65 0).length ∧
    (i2c_bus_write_then_read (simBus fun _ => 0) 0x18 (List.replicate 65 0) 0
      (stateAt 100000)).value = some ESP_OK ∧
    ESP_OK ≠ ESP_ERR_NO_MEM ∧
    submissions (newEvents (stateAt 100000)
      (i2c_bus_write_then_read (simBus fun _ => 0) 0x18 (List.replicate 65 0) 0
        (stateAt 100000))) =
      [.i2c_master_cmd_begin 0
        [.START, .WRITE_BYTE 0x30 true, .WRITE (List.replicate 65 0) true, .STOP]
        (.pdMS_TO_TICKS 100)] := by
  obtain ⟨hv, _, hn⟩ := write_then_read_of_ok (simBus fun _ => 0) (simBus_buildOk _)
    (simBus_recoveryOk _) 0x18 (List.replicate 65 0) 0 (stateAt 100000)
  refine ⟨by decide, ?_, by decide, ?_⟩
  · rw [hv]
    rfl
  · have hst : submitStatus (simBus fun _ => 0) 0x18 (List.replicate 65 0) 0 (stateAt 100000) ≠
        ESP_ERR_TIMEOUT := by
      have h0 : submitStatus (simBus fun _ => 0) 0x18 (List.replicate 65 0) 0
          (stateAt 100000) = 0 := rfl
      rw [h0]
      decide
    rw [hn, if_neg hst, submissions_append, submissions_submitted, submitCall,
      builtLink_eq_specLink _ _ _ (by decide)]
    simp [submissions, linkClosed, Call.isSubmit, specLink, stateAt, busAt]

/-! ## The lock -/

theorem returned_of_value {α : Type} (out : Outcome α) (a : α) (h : out.value = some a) :
    out.returned = true := by
  cases out <;> simp_all [Outcome.value, Outcome.returned]

theorem not_returned_of_value {α : Type} (out : Outcome α) (h : out.value = none) :
    out.returned = false := by
  cases out <;> simp_all [Outcome.value, Outcome.returned]

theorem isLock_of_isRecovery (c : Call) (h : c.isRecovery = true) : c.isLock = false := by
  cases c <;> simp_all [Call.isRecovery, Call.isLock]

theorem linkOpened_eq (s : State) (p : Int) :
    linkOpened s p = ⟨.xSemaphoreTake, 0⟩ ::
      [⟨.i2c_cmd_link_create_static s.bus.cmd_buf s.bus.cmd_buf_size, p⟩] := rfl

theorem write_then_read_locked (hal : Hal) (a : Nat) (w : List Nat) (n : Nat) (s : State)
    (hret : (i2c_bus_write_then_read hal a w n s).returned = true) :
    LockedOnce s (i2c_bus_write_then_read hal a w n s) := by
  have hsteps : ∀ e ∈ okEvents ((write_then_read_steps a w n).map Prod.fst),
      e.call.isLock = false := fun e he =>
    (okEvents_build_calls _ (fun c hc => by
      rcases List.mem_map.1 hc with ⟨x, hx, rfl⟩
      exact write_then_read_steps_build a w n x hx) e he).2.2.2.2
  rcases write_then_read_summary hal a w n s with
    ⟨_, _, hl, h⟩ | ⟨_, pre, c, op, rest, err, hs, hne, _, _, hl, h⟩ | ⟨_, _, _, hl, h⟩ |
    ⟨_, _, _, hl, h⟩ | ⟨_, _, hv, _⟩
  · refine ⟨[⟨.i2c_cmd_link_create_static s.bus.cmd_buf s.bus.cmd_buf_size, 0⟩], ?_, ?_, hl⟩
    · rw [h]
      rfl
    · intro e he
      rw [List.mem_singleton] at he
      rw [he]
      rfl
  · have hp := steps_prefix_build a w n pre rest (c, op) hs
    refine ⟨⟨.i2c_cmd_link_create_static s.bus.cmd_buf s.bus.cmd_buf_size,
        createdHandle hal s⟩ :: (okEvents (pre.map Prod.fst) ++
          [⟨c, err⟩, ⟨.i2c_cmd_link_delete_static, 0⟩]), ?_, ?_, hl⟩
    · rw [h]
      simp [linkOpened, linkClosed]
    · intro e he
      rcases List.mem_cons.1 he with rfl | he
      · rfl
      · rcases List.mem_append.1 he with he | he
        · exact (okEvents_build_calls _ hp.1 e he).2.2.2.2
        · simp only [List.mem_cons, List.mem_singleton, List.not_mem_nil, or_false] at he
          rcases he with rfl | rfl
          · have := hp.2
            cases c <;> simp_all [Call.isBuildStep, Call.isLock]
          · rfl
  · refine ⟨⟨.i2c_cmd_link_create_static s.bus.cmd_buf s.bus.cmd_buf_size,
        createdHandle hal s⟩ :: (okEvents ((write_then_read_steps a w n).map Prod.fst) ++
          [⟨submitCall s a w n, submitStatus hal a w n s⟩,
            ⟨.i2c_cmd_link_delete_static, 0⟩]), ?_, ?_, hl⟩
    · rw [h]
      simp [submitted, linkOpened, linkClosed]
    · intro e he
      rcases List.mem_cons.1 he with rfl | he
      · rfl
      · rcases List.mem_append.1 he with he | he
        · exact hsteps e he
        · simp only [List.mem_cons, List.mem_singleton, List.not_mem_nil, or_false] at he
          rcases he with rfl | rfl <;> rfl
  · refine ⟨⟨.i2c_cmd_link_create_static s.bus.cmd_buf s.bus.cmd_buf_size,
        createdHandle hal s⟩ :: (okEvents ((write_then_read_steps a w n).map Prod.fst) ++
          (⟨submitCall s a w n, submitStatus hal a w n s⟩ ::
            (recoverySequence s.bus ++ [⟨.i2c_cmd_link_delete_static, 0⟩]))), ?_, ?_, hl⟩
    · rw [h]
      simp [submitted, linkOpened, linkClosed]
    · intro e he
      rcases List.mem_cons.1 he with rfl | he
      · rfl
      · rcases List.mem_append.1 he with he | he
        · exact hsteps e he
        · rcases List.mem_cons.1 he with rfl | he
          · rfl
          · rcases List.mem_append.1 he with he | he
            · exact isLock_of_isRecovery _ (recoverySequence_recovery s.bus e he).1
            · rw [List.mem_singleton] at he
              rw [he]
              rfl
  · rw [not_returned_of_value _ hv] at hret
    exact Bool.noConfusion hret

theorem cmd_begin_locked (hal : Hal) (handle : i2c_cmd_handle_t) (timeout : TickType_t)
    (s : State) (hret : (i2c_bus_cmd_begin hal handle timeout s).returned = true) :
    LockedOnce s (i2c_bus_cmd_begin hal handle timeout s) := by
  rw [cmd_begin_apply] at hret ⊢
  rcases cmd_begin_unlocked_cases hal handle timeout
      ((s.setLock true).ext [⟨.xSemaphoreTake, 0⟩]) with
    ⟨_, h⟩ | ⟨_, h⟩ | ⟨_, pre, c, rest, _, _, h⟩
  · rw [h]
    refine ⟨[⟨.i2c_master_cmd_begin s.bus.i2c_port handle timeout,
      hal.answer (s.trace ++ [⟨.xSemaphoreTake, 0⟩])
        (.i2c_master_cmd_begin s.bus.i2c_port handle timeout)⟩], ?_, ?_, rfl⟩
    · simp [newEvents, Outcome.state]
    · intro e he
      rw [List.mem_singleton] at he
      rw [he]
      rfl
  · rw [h]
    refine ⟨⟨.i2c_master_cmd_begin s.bus.i2c_port handle timeout,
      hal.answer (s.trace ++ [⟨.xSemaphoreTake, 0⟩])
        (.i2c_master_cmd_begin s.bus.i2c_port handle timeout)⟩ :: recoverySequence s.bus,
      ?_, ?_, rfl⟩
    · simp [newEvents, Outcome.state]
    · intro e he
      rcases List.mem_cons.1 he with rfl | he
      · rfl
      · exact isLock_of_isRecovery _ (recoverySequence_recovery s.bus e he).1
  · rw [h] at hret
    exact Bool.noConfusion hret

/-- C6: every call of `i2c_bus_write_then_read`, `i2c_bus_read_byte`,
`i2c_bus_write_byte` or `i2c_bus_cmd_begin` that returns, whatever its status,
took the lock as its first action (before link construction and submission),
gave it as its last action (after the teardown), did neither in between, and
leaves the lock free. -/
theorem returning_calls_lock_once (hal : Hal) (a : Nat) (w : List Nat) (n reg val : Nat)
    (handle : i2c_cmd_handle_t) (timeout : TickType_t) (s : State) :
    ((i2c_bus_write_then_read hal a w n s).returned = true →
      LockedOnce s (i2c_bus_write_then_read hal a w n s)) ∧
    ((i2c_bus_read_byte hal a reg s).returned = true →
      LockedOnce s (i2c_bus_read_byte hal a reg s)) ∧
    ((i2c_bus_write_byte hal a reg val s).returned = true →
      LockedOnce s (i2c_bus_write_byte hal a reg val s)) ∧
    ((i2c_bus_cmd_begin hal handle timeout s).returned = true →
      LockedOnce s (i2c_bus_cmd_begin hal handle timeout s)) :=
  ⟨write_then_read_locked hal a w n s,
    write_then_read_locked hal a [reg] 1 s,
    write_then_read_locked hal a [reg, val] 0 s,
    cmd_begin_locked hal handle timeout s⟩

theorem write_then_read_returns_of_ok (hal : Hal) (hb : hal.BuildOk) (hr : hal.RecoveryOk)
    (a : Nat) (w : List Nat) (n : Nat) (s : State) :
    (i2c_bus_write_then_read hal a w n s).returned = true :=
  returned_of_value _ _ (write_then_read_of_ok hal hb hr a w n s).1

theorem cmd_begin_returns_of_ok (hal : Hal) (hr : hal.RecoveryOk) (handle : i2c_cmd_handle_t)
    (timeout : TickType_t) (s : State) :
    (i2c_bus_cmd_begin hal handle timeout s).returned = true := by
  rw [cmd_begin_of_ok hal hr]
  rfl

/-- Witness of C6: the four calls on a simulated bus that acknowledges. -/
theorem returning_calls_lock_once_witness :
    (i2c_bus_write_then_read (simBus fun _ => 0) 0x18 [3, 4] 2 (stateAt 100000)).returned =
      true ∧
    LockedOnce (stateAt 100000)
      (i2c_bus_write_then_read (simBus fun _ => 0) 0x18 [3, 4] 2 (stateAt 100000)) ∧
    LockedOnce (stateAt 100000) (i2c_bus_read_byte (simBus fun _ => 0) 0x18 3 (stateAt 100000)) ∧
    LockedOnce (stateAt 100000)
      (i2c_bus_write_byte (simBus fun _ => 0) 0x18 3 7 (stateAt 100000)) ∧
    LockedOnce (stateAt 100000)
      (i2c_bus_cmd_begin (simBus fun _ => 0) [.START, .WRITE_BYTE 0x30 true, .STOP]
        (.pdMS_TO_TICKS 100) (stateAt 100000)) :=
  have h := returning_calls_lock_once (simBus fun _ => 0) 0x18 [3, 4] 2 3 7
    [.START, .WRITE_BYTE 0x30 true, .STOP] (.pdMS_TO_TICKS 100) (stateAt 100000)
  ⟨write_then_read_returns_of_ok _ (simBus_buildOk _) (simBus_recoveryOk _) _ _ _ _,
    h.1 (write_then_read_returns_of_ok _ (simBus_buildOk _) (simBus_recoveryOk _) _ _ _ _),
    h.2.1 (write_then_read_returns_of_ok _ (simBus_buildOk _) (simBus_recoveryOk _) _ _ _ _),
    h.2.2.1 (write_then_read_returns_of_ok _ (simBus_buildOk _) (simBus_recoveryOk _) _ _ _ _),
    h.2.2.2 (cmd_begin_returns_of_ok _ (simBus_recoveryOk _) _ _ _)⟩

/-! ## Writing a register and reading it back -/

/-- The state a call of `i2c_bus_write_then_read` ends in, in an environment
without construction or recovery failures. -/
theorem write_then_read_outcome_of_ok (hal : Hal) (hb : hal.BuildOk) (hr : hal.RecoveryOk)
    (a : Nat) (w : List Nat) (n : Nat) (s : State) :
    i2c_bus_write_then_read hal a w n s =
      .ret (submitStatus hal a w n s)
        ((afterSubmit hal (builtLink a w n) (.pdMS_TO_TICKS 100)
            ((builtState hal a w n s).setLock false)).ext
          ((if submitStatus hal a w n s = ESP_ERR_TIMEOUT then recoverySequence s.bus else []) ++
            linkClosed)) := by
  rcases write_then_read_cases hal a w n s with
    ⟨h0, _⟩ | ⟨_, pre, c, op, rest, err, hs, hne, he, _⟩ | ⟨_, h⟩
  · exact absurd h0 (hb.1 _ _ _)
  · exfalso
    apply hne
    rw [he]
    exact hb.2 _ c (write_then_read_steps_build a w n (c, op) (by rw [hs]; simp))
  · rw [h, cmd_begin_unlocked_of_ok hal hr]
    simp [submitStatus, submitCall, recoverySequence_builtState]

theorem regSlave_buildOk (a : Nat) : (regSlave a).BuildOk := by
  constructor
  · intro h buffer size
    simp [regSlave]
  · intro h c hc
    cases c <;> simp_all [regSlave, Call.isBuildStep]

theorem regSlave_recoveryOk (a : Nat) : (regSlave a).RecoveryOk := by
  intro h c hc
  cases c <;> simp_all [regSlave, Call.isRecovery]

theorem linkAddress_builtLink (a : Nat) (w : List Nat) (n : Nat) (ha : a < 128) :
    linkAddress (builtLink a w n) = a := by
  simp [builtLink, write_then_read_steps, linkAddress, address_write_byte a ha]

theorem regSlave_submitStatus (a : Nat) (w : List Nat) (n : Nat) (s : State) (ha : a < 128) :
    submitStatus (regSlave a) a w n s = 0 := by
  simp [submitStatus, submitCall, regSlave, linkAddress_builtLink a w n ha]

theorem regFile_append (a : Nat) (h1 h2 : List Event) :
    regFile a (h1 ++ h2) =
      h2.foldl (fun regs e =>
        match regWrite a e with
        | some (r, v) => Function.update regs r v
        | none => regs) (regFile a h1) := by
  simp [regFile, List.foldl_append]

/-- The register file seen by the read that follows a write of `v` to `r`. -/
theorem regFile_after_write (a r v : Nat) (s : State) (ha : a < 128) :
    regFile a (builtState (regSlave a) a [r] 1
      (i2c_bus_write_byte (regSlave a) a r v s).state).trace r = v := by
  unfold i2c_bus_write_byte
  rw [write_then_read_outcome_of_ok _ (regSlave_buildOk a) (regSlave_recoveryOk a)]
  simp only [Outcome.state, builtState_trace, State.ext_trace, afterSubmit_trace,
    State.setLock_trace, regSlave_submitStatus a _ _ _ ha]
  rw [regFile_append, regFile_append, regFile_append]
  simp [builtLink, write_then_read_steps, okEvents, linkOpened, linkClosed, regWrite,
    address_write_byte a ha, ESP_ERR_TIMEOUT]

/-- C8: for every 7-bit address `a`, register `r` and value `v`, against the
simulated register-file slave at `a` and from any state with a one-byte result
buffer, `i2c_bus_write_byte(a, r, v)` returns `ESP_OK`, and a following
`i2c_bus_read_byte(a, r)` returns `ESP_OK` and leaves `v` in the result. -/
theorem write_byte_then_read_byte (a r v : Nat) (s : State) (ha : a < 128)
    (hres : s.data_read.length = 1) :
    (i2c_bus_write_byte (regSlave a) a r v s).value = some ESP_OK ∧
    (i2c_bus_read_byte (regSlave a) a r
      (i2c_bus_write_byte (regSlave a) a r v s).state).value = some ESP_OK ∧
    (i2c_bus_read_byte (regSlave a) a r
      (i2c_bus_write_byte (regSlave a) a r v s).state).state.data_read = [v] := by
  have hreg := regFile_after_write a r v s ha
  have hw : (i2c_bus_write_byte (regSlave a) a r v s).state.data_read = s.data_read := by
    unfold i2c_bus_write_byte
    rw [write_then_read_outcome_of_ok _ (regSlave_buildOk a) (regSlave_recoveryOk a)]
    simp [Outcome.state, afterSubmit, builtLink, write_then_read_steps, readLen, storeBytes,
      builtState]
  refine ⟨?_, ?_, ?_⟩
  · unfold i2c_bus_write_byte
    rw [(write_then_read_of_ok _ (regSlave_buildOk a) (regSlave_recoveryOk a) _ _ _ _).1,
      regSlave_submitStatus a _ _ _ ha]
    rfl
  · unfold i2c_bus_read_byte
    rw [(write_then_read_of_ok _ (regSlave_buildOk a) (regSlave_recoveryOk a) _ _ _ _).1,
      regSlave_submitStatus a _ _ _ ha]
    rfl
  · generalize hs1 : (i2c_bus_write_byte (regSlave a) a r v s).state = s1 at hreg hw
    unfold i2c_bus_read_byte
    rw [write_then_read_outcome_of_ok _ (regSlave_buildOk a) (regSlave_recoveryOk a)]
    obtain ⟨x, hx⟩ : ∃ x, s1.data_read = [x] := by
      rw [hw]
      exact List.length_eq_one.1 hres
    have hrx : (regSlave a).rx (builtState (regSlave a) a [r] 1 s1).trace
        (.i2c_master_cmd_begin s1.bus.i2c_port (builtLink a [r] 1) (.pdMS_TO_TICKS 100)) =
        [v] := by
      rw [← hreg]
      simp [regSlave, builtLink, write_then_read_steps, address_write_byte a ha,
        address_read_byte a ha]
    simp only [Outcome.state, State.ext_data_read, afterSubmit, State.setData_data_read,
      State.setLock_trace, State.setLock_data_read, State.ext_bus, State.setLock_bus_port,
      builtState_bus_port]
    rw [hrx]
    simp [builtLink, write_then_read_steps, readLen, storeBytes, builtState, hx]

/-- Witness of C8: value 0x5A written to register 3 of the slave at 0x18. -/
theorem write_byte_then_read_byte_witness :
    0x18 < 128 ∧ (stateAt 100000).data_read.length = 1 ∧
    (i2c_bus_read_byte (regSlave 0x18) 0x18 3
      (i2c_bus_write_byte (regSlave 0x18) 0x18 3 0x5A (stateAt 100000)).state).state.data_read =
      [0x5A] :=
  ⟨by decide, rfl,
    (write_byte_then_read_byte 0x18 3 0x5A (stateAt 100000) (by decide) rfl).2.2⟩

/-! ## The address scan in an environment without failures -/

theorem cmd_begin_of_recovers (hal : Hal) (hr : hal.Recovers) (handle : i2c_cmd_handle_t)
    (timeout : TickType_t) (s : State) :
    i2c_bus_cmd_begin hal handle timeout s =
      .ret (hal.answer (s.trace ++ [⟨.xSemaphoreTake, 0⟩])
          (.i2c_master_cmd_begin s.bus.i2c_port handle timeout))
        ((afterSubmit hal handle timeout ((s.setLock false).ext [⟨.xSemaphoreTake, 0⟩])).ext
          ((if hal.answer (s.trace ++ [⟨.xSemaphoreTake, 0⟩])
              (.i2c_master_cmd_begin s.bus.i2c_port handle timeout) = ESP_ERR_TIMEOUT then
            recoverySequence s.bus else []) ++ [⟨.xSemaphoreGive, 0⟩])) := by
  rcases hr with hr | hr
  · exact cmd_begin_of_ok hal hr handle timeout s
  · have hne := hr (s.trace ++ [⟨.xSemaphoreTake, 0⟩])
      (.i2c_master_cmd_begin s.bus.i2c_port handle timeout) rfl
    rw [cmd_begin_apply, cmd_begin_unlocked_apply]
    simp [hne]

theorem afterSubmit_probe (hal : Hal) (i : Nat) (timeout : TickType_t) (s : State) :
    afterSubmit hal (probeLink i) timeout s =
      s.ext [⟨.i2c_master_cmd_begin s.bus.i2c_port (probeLink i) timeout,
        hal.answer s.trace (.i2c_master_cmd_begin s.bus.i2c_port (probeLink i) timeout)⟩] := by
  obtain ⟨b, d, t⟩ := s
  simp [afterSubmit, probeLink, readLen, storeBytes, State.setData, State.ext]

/-- One iteration of the scan loop. -/
theorem scan_loop_succ_of_ok (hal : Hal) (hb : hal.BuildOk) (hr : hal.Recovers)
    (link_buf : Int) (link_buf_size n i : Nat) (err : esp_err_t) (addr : i2c_address_set_t)
    (s : State) :
    scan_loop hal link_buf link_buf_size (n + 1) i err addr s =
      scan_loop hal link_buf link_buf_size n (i + 1) 0
        (if hal.answer (s.trace ++ (probeBuilt link_buf link_buf_size i
              (hal.answer s.trace (.i2c_cmd_link_create_static link_buf link_buf_size)) ++
              [⟨.xSemaphoreTake, 0⟩])) (probeCall s.bus i) = 0 then
          I2C_ADDRESS_SET_SET (I2C_ADDRESS_SET_CLEAR addr i) i
        else I2C_ADDRESS_SET_CLEAR addr i)
        ((s.setLock false).ext (probeEvents s.bus link_buf link_buf_size i
          (hal.answer s.trace (.i2c_cmd_link_create_static link_buf link_buf_size))
          (hal.answer (s.trace ++ (probeBuilt link_buf link_buf_size i
              (hal.answer s.trace (.i2c_cmd_link_create_static link_buf link_buf_size)) ++
              [⟨.xSemaphoreTake, 0⟩])) (probeCall s.bus i)))) := by
  have h1 := hb.1 s.trace link_buf link_buf_size
  have h2 : ∀ h, hal.answer h .i2c_master_start = 0 := fun h => hb.2 h _ rfl
  have h3 : ∀ h d, hal.answer h (.i2c_master_write_byte d true) = 0 := fun h d => hb.2 h _ rfl
  have h4 : ∀ h, hal.answer h .i2c_master_stop = 0 := fun h => hb.2 h _ rfl
  rw [scan_loop]
  simp only [hal_call_bind, h1, if_false, i2c_master_start, i2c_master_write_byte,
    i2c_master_stop, link_step_bind, h2, h3, h4, ne_eq, not_true_eq_false, ESP_OK, if_true,
    State.ext_ext, State.ext_trace, List.nil_append, List.append_assoc, List.cons_append,
    List.singleton_append]
  rw [bind_apply, cmd_begin_of_recovers hal hr]
  simp only [hal_void_bind, State.ext_ext, State.ext_setLock]
  have e : afterSubmit hal [Op.START, Op.WRITE_BYTE ((i <<< 1) % 256) true, Op.STOP]
      (.pdMS_TO_TICKS 100) = afterSubmit hal (probeLink i) (.pdMS_TO_TICKS 100) := rfl
  rw [e, afterSubmit_probe]
  simp only [State.ext_ext, State.ext_trace, State.ext_bus, State.setLock_trace,
    State.setLock_bus_port, probeEvents, probeBuilt, probeCall, probeLink, List.append_assoc,
    List.cons_append, List.nil_append, List.singleton_append]

theorem scanEvents_congr (bus : i2c_bus_t) (link_buf : Int) (link_buf_size : Nat)
    (p r p1 r1 : Nat → Int) (n i : Nat)
    (h : ∀ j, i ≤ j → j < i + n → p j = p1 j ∧ r j = r1 j) :
    scanEvents bus link_buf link_buf_size p r n i =
      scanEvents bus link_buf link_buf_size p1 r1 n i := by
  induction n generalizing i with
  | zero => rfl
  | succ n ih =>
    simp only [scanEvents]
    rw [(h i (le_refl i) (by omega)).1, (h i (le_refl i) (by omega)).2,
      ih (i + 1) fun j hj hj2 => h j (by omega) (by omega)]

theorem scanEvents_setLock (s : State) (b : Bool) (link_buf : Int) (link_buf_size : Nat)
    (p r : Nat → Int) (n i : Nat) :
    scanEvents (s.setLock b).bus link_buf link_buf_size p r n i =
      scanEvents s.bus link_buf link_buf_size p r n i := by
  induction n generalizing i with
  | zero => rfl
  | succ n ih =>
    simp only [scanEvents, ih]
    rfl

/-- The scan loop in an environment without construction failures in which
timeouts are recovered: all `n` addresses from `i` on are probed, each probe
`j` gets some status `r j` from the environment, the loop returns `ESP_OK`
(its initial status when `n = 0`), and address `j` is recorded present exactly
when `r j = 0`. -/
theorem scan_loop_of_ok (hal : Hal) (hb : hal.BuildOk) (hr : hal.Recovers)
    (link_buf : Int) (link_buf_size n : Nat) :
    ∀ (i : Nat) (err : esp_err_t) (addr : i2c_address_set_t) (s : State),
      ∃ p r : Nat → Int,
        (∀ j, i ≤ j → j < i + n →
          ∃ h, p j = hal.answer h (.i2c_cmd_link_create_static link_buf link_buf_size)) ∧
        (∀ j, i ≤ j → j < i + n → ∃ h, r j = hal.answer h (probeCall s.bus j)) ∧
        scan_loop hal link_buf link_buf_size n i err addr s =
          .ret (if n = 0 then err else 0,
              fun j => if i ≤ j ∧ j < i + n then decide (r j = 0) else addr j)
            ((if n = 0 then s else s.setLock false).ext
              (scanEvents s.bus link_buf link_buf_size p r n i)) := by
  induction n with
  | zero =>
    intro i err addr s
    refine ⟨fun _ => 1, fun _ => 0, fun j h1 h2 => by omega, fun j h1 h2 => by omega, ?_⟩
    simp only [scan_loop, pure_apply, scanEvents, State.ext_nil, if_true]
    congr 2
    funext j
    have hA : ¬ (i ≤ j ∧ j < i + 0) := by omega
    rw [if_neg hA]
  | succ n ih =>
    intro i err addr s
    rw [scan_loop_succ_of_ok hal hb hr link_buf link_buf_size n i err addr s]
    obtain ⟨p, r, hp, hrj, hrun⟩ := ih (i + 1) 0
      (if hal.answer (s.trace ++ (probeBuilt link_buf link_buf_size i
              (hal.answer s.trace (.i2c_cmd_link_create_static link_buf link_buf_size)) ++
              [⟨.xSemaphoreTake, 0⟩])) (probeCall s.bus i) = 0 then
          I2C_ADDRESS_SET_SET (I2C_ADDRESS_SET_CLEAR addr i) i
        else I2C_ADDRESS_SET_CLEAR addr i)
      ((s.setLock false).ext (probeEvents s.bus link_buf link_buf_size i
          (hal.answer s.trace (.i2c_cmd_link_create_static link_buf link_buf_size))
          (hal.answer (s.trace ++ (probeBuilt link_buf link_buf_size i
              (hal.answer s.trace (.i2c_cmd_link_create_static link_buf link_buf_size)) ++
              [⟨.xSemaphoreTake, 0⟩])) (probeCall s.bus i))))
    rw [hrun]
    refine ⟨fun j => if j = i then
          hal.answer s.trace (.i2c_cmd_link_create_static link_buf link_buf_size) else p j,
      fun j => if j = i then
          hal.answer (s.trace ++ (probeBuilt link_buf link_buf_size i
              (hal.answer s.trace (.i2c_cmd_link_create_static link_buf link_buf_size)) ++
              [⟨.xSemaphoreTake, 0⟩])) (probeCall s.bus i) else r j,
      ?_, ?_, ?_⟩
    · intro j h1 h2
      by_cases hj : j = i
      · simp only [hj, if_true]
        exact ⟨_, rfl⟩
      · simp only [hj, if_false]
        exact hp j (by omega) (by omega)
    · intro j h1 h2
      by_cases hj : j = i
      · simp only [hj, if_true]
        exact ⟨_, rfl⟩
      · simp only [hj, if_false]
        exact hrj j (by omega) (by omega)
    · congr 1
      · congr 1
        · by_cases hn : n = 0 <;> simp [hn]
        · funext j
          generalize hal.answer (s.trace ++ (probeBuilt link_buf link_buf_size i
              (hal.answer s.trace (.i2c_cmd_link_create_static link_buf link_buf_size)) ++
              [⟨.xSemaphoreTake, 0⟩])) (probeCall s.bus i) = R
          by_cases hj : j = i
          · subst hj
            have hA : ¬ (j + 1 ≤ j ∧ j < j + 1 + n) := by omega
            have hB : j ≤ j ∧ j < j + (n + 1) := by omega
            by_cases h0 : R = 0
            · simp only [hA, hB, and_self, if_true, if_false, h0, I2C_ADDRESS_SET_SET, decide_True]
            · simp only [hA, hB, and_self, if_true, if_false, h0, I2C_ADDRESS_SET_CLEAR,
                decide_False]
          · by_cases hin : i + 1 ≤ j ∧ j < i + 1 + n
            · have hB : i ≤ j ∧ j < i + (n + 1) := by omega
              simp only [hin, hB, hj, and_self, if_true, if_false]
            · have hB : ¬ (i ≤ j ∧ j < i + (n + 1)) := by omega
              by_cases h0 : R = 0
              · simp only [hin, hB, hj, h0, if_true, if_false, I2C_ADDRESS_SET_SET,
                  I2C_ADDRESS_SET_CLEAR]
              · simp only [hin, hB, hj, h0, if_true, if_false, I2C_ADDRESS_SET_CLEAR]
      · have hX := scanEvents_congr s.bus link_buf link_buf_size
          (fun j => if j = i then
            hal.answer s.trace (.i2c_cmd_link_create_static link_buf link_buf_size) else p j)
          (fun j => if j = i then
            hal.answer (s.trace ++ (probeBuilt link_buf link_buf_size i
              (hal.answer s.trace (.i2c_cmd_link_create_static link_buf link_buf_size)) ++
              [⟨.xSemaphoreTake, 0⟩])) (probeCall s.bus i) else r j)
          p r n (i + 1) (fun j hj _ => by
            have : j ≠ i := by omega
            simp [this])
        simp only [State.ext_bus, scanEvents_setLock, scanEvents, ↓reduceIte, hX,
          Nat.succ_ne_zero, Nat.add_one_ne_zero]
        by_cases hn : n = 0
        · subst hn
          simp only [scanEvents, ↓reduceIte, State.ext_ext]
        · simp only [hn, ↓reduceIte, State.ext_ext, State.ext_setLock, State.setLock_setLock]

/-- The whole scan in such an environment: the buffer is allocated, all 128
addresses are probed in ascending order, the buffer is freed, and the scan
returns `ESP_OK` with address `j` recorded present exactly when its probe got
status 0. -/
theorem scan_of_ok (hal : Hal) (hb : hal.BuildOk) (hr : hal.Recovers)
    (addr : i2c_address_set_t) (s : State) :
    ∃ p r : Nat → Int,
      (∀ j, j < 128 → ∃ h, p j = hal.answer h
        (.i2c_cmd_link_create_static (hal.answer s.trace (.malloc (hal.I2C_LINK_RECOMMENDED_SIZE 1)))
          (hal.I2C_LINK_RECOMMENDED_SIZE 1))) ∧
      (∀ j, j < 128 → ∃ h, r j = hal.answer h (probeCall s.bus j)) ∧
      i2c_bus_scan hal addr s =
        .ret (0, fun j => if j < 128 then decide (r j = 0) else addr j)
          ((s.setLock false).ext (⟨.malloc (hal.I2C_LINK_RECOMMENDED_SIZE 1),
              hal.answer s.trace (.malloc (hal.I2C_LINK_RECOMMENDED_SIZE 1))⟩ ::
            (scanEvents s.bus (hal.answer s.trace (.malloc (hal.I2C_LINK_RECOMMENDED_SIZE 1)))
                (hal.I2C_LINK_RECOMMENDED_SIZE 1) p r 128 0 ++
              [⟨.free (hal.answer s.trace (.malloc (hal.I2C_LINK_RECOMMENDED_SIZE 1))), 0⟩]))) := by
  obtain ⟨p, r, hp, hrj, hrun⟩ := scan_loop_of_ok hal hb hr
    (hal.answer s.trace (.malloc (hal.I2C_LINK_RECOMMENDED_SIZE 1)))
    (hal.I2C_LINK_RECOMMENDED_SIZE 1) 128 0 ESP_OK addr
    (s.ext [⟨.malloc (hal.I2C_LINK_RECOMMENDED_SIZE 1),
      hal.answer s.trace (.malloc (hal.I2C_LINK_RECOMMENDED_SIZE 1))⟩])
  refine ⟨p, r, fun j hj => hp j (by omega) (by omega), fun j hj => hrj j (by omega) (by omega),
    ?_⟩
  simp only [i2c_bus_scan, hal_call_bind]
  rw [bind_apply, hrun]
  simp only [hal_void_bind, pure_apply, State.ext_ext, State.ext_bus, State.ext_setLock,
    ↓reduceIte, OfNat.ofNat_ne_zero]
  congr 2
  funext j
  simp

/-! ## Counting in the trace of a scan -/

theorem eventsOf_cons (p : Call → Bool) (e : Event) (l : List Event) :
    eventsOf p (e :: l) = if p e.call then e :: eventsOf p l else eventsOf p l := by
  simp only [eventsOf, List.filter_cons]

theorem eventsOf_nil (p : Call → Bool) : eventsOf p [] = [] := rfl

theorem eventsOf_recoverySequence (p : Call → Bool) (bus : i2c_bus_t)
    (hp : ∀ c, c.isRecovery = true → p c = false) : eventsOf p (recoverySequence bus) = [] :=
  eventsOf_eq_nil p _ fun e he => hp _ (recoverySequence_recovery bus e he).1

theorem eventsOf_probeEvents_submit (bus : i2c_bus_t) (link_buf : Int) (link_buf_size i : Nat)
    (p r : Int) :
    eventsOf Call.isSubmit (probeEvents bus link_buf link_buf_size i p r) =
      [⟨probeCall bus i, r⟩] := by
  have h := eventsOf_recoverySequence Call.isSubmit bus isSubmit_of_isRecovery
  by_cases hr : r = ESP_ERR_TIMEOUT
  · simp [probeEvents, probeBuilt, eventsOf_append, eventsOf_cons, h, hr, Call.isSubmit,
      probeCall, eventsOf_nil]
  · simp [probeEvents, probeBuilt, eventsOf_append, eventsOf_cons, hr, Call.isSubmit,
      probeCall, eventsOf_nil]

theorem isTake_of_isRecovery (c : Call) (h : c.isRecovery = true) : c.isTake = false := by
  cases c <;> simp_all [Call.isRecovery, Call.isTake]

theorem isGive_of_isRecovery (c : Call) (h : c.isRecovery = true) : c.isGive = false := by
  cases c <;> simp_all [Call.isRecovery, Call.isGive]

theorem eventsOf_probeEvents_take (bus : i2c_bus_t) (link_buf : Int) (link_buf_size i : Nat)
    (p r : Int) :
    eventsOf Call.isTake (probeEvents bus link_buf link_buf_size i p r) =
      [⟨.xSemaphoreTake, 0⟩] := by
  have h := eventsOf_recoverySequence Call.isTake bus isTake_of_isRecovery
  by_cases hr : r = ESP_ERR_TIMEOUT
  · simp [probeEvents, probeBuilt, eventsOf_append, eventsOf_cons, h, hr, Call.isTake,
      probeCall, eventsOf_nil]
  · simp [probeEvents, probeBuilt, eventsOf_append, eventsOf_cons, hr, Call.isTake,
      probeCall, eventsOf_nil]

theorem eventsOf_probeEvents_give (bus : i2c_bus_t) (link_buf : Int) (link_buf_size i : Nat)
    (p r : Int) :
    eventsOf Call.isGive (probeEvents bus link_buf link_buf_size i p r) =
      [⟨.xSemaphoreGive, 0⟩] := by
  have h := eventsOf_recoverySequence Call.isGive bus isGive_of_isRecovery
  by_cases hr : r = ESP_ERR_TIMEOUT
  · simp [probeEvents, probeBuilt, eventsOf_append, eventsOf_cons, h, hr, Call.isGive,
      probeCall, eventsOf_nil]
  · simp [probeEvents, probeBuilt, eventsOf_append, eventsOf_cons, hr, Call.isGive,
      probeCall, eventsOf_nil]

theorem eventsOf_scanEvents_submit (bus : i2c_bus_t) (link_buf : Int) (link_buf_size : Nat)
    (p r : Nat → Int) (n i : Nat) :
    eventsOf Call.isSubmit (scanEvents bus link_buf link_buf_size p r n i) =
      (List.range n).map fun k => ⟨probeCall bus (i + k), r (i + k)⟩ := by
  induction n generalizing i with
  | zero => rfl
  | succ n ih =>
    rw [scanEvents, eventsOf_append, eventsOf_probeEvents_submit, ih (i + 1), List.range_succ_eq_map]
    simp only [List.map_cons, List.map_map, Nat.add_zero, List.singleton_append]
    congr 1
    apply List.map_congr_left
    intro k _
    simp only [Function.comp, Nat.succ_eq_add_one]
    rw [show i + 1 + k = i + (k + 1) by omega]

theorem eventsOf_scanEvents_take (bus : i2c_bus_t) (link_buf : Int) (link_buf_size : Nat)
    (p r : Nat → Int) (n i : Nat) :
    eventsOf Call.isTake (scanEvents bus link_buf link_buf_size p r n i) =
      List.replicate n ⟨.xSemaphoreTake, 0⟩ := by
  induction n generalizing i with
  | zero => rfl
  | succ n ih =>
    rw [scanEvents, eventsOf_append, eventsOf_probeEvents_take, ih (i + 1)]
    rfl

theorem eventsOf_scanEvents_give (bus : i2c_bus_t) (link_buf : Int) (link_buf_size : Nat)
    (p r : Nat → Int) (n i : Nat) :
    eventsOf Call.isGive (scanEvents bus link_buf link_buf_size p r n i) =
      List.replicate n ⟨.xSemaphoreGive, 0⟩ := by
  induction n generalizing i with
  | zero => rfl
  | succ n ih =>
    rw [scanEvents, eventsOf_append, eventsOf_probeEvents_give, ih (i + 1)]
    rfl

theorem probeCall_eq_specProbe (bus : i2c_bus_t) (i : Nat) (hi : i < 128) :
    probeCall bus i = specProbe bus i := by
  simp [probeCall, specProbe, probeLink, address_write_byte i hi]

/-! ## The scan of a bus without timeouts -/

theorem eventsOf_probeEvents_recovery (bus : i2c_bus_t) (link_buf : Int) (link_buf_size i : Nat)
    (p r : Int) (hr : r ≠ ESP_ERR_TIMEOUT) :
    eventsOf Call.isRecovery (probeEvents bus link_buf link_buf_size i p r) = [] := by
  simp [probeEvents, probeBuilt, eventsOf_append, eventsOf_cons, hr, Call.isRecovery,
    probeCall, eventsOf_nil]

theorem eventsOf_scanEvents_recovery (bus : i2c_bus_t) (link_buf : Int) (link_buf_size : Nat)
    (p r : Nat → Int) (n i : Nat) (hr : ∀ j, i ≤ j → j < i + n → r j ≠ ESP_ERR_TIMEOUT) :
    eventsOf Call.isRecovery (scanEvents bus link_buf link_buf_size p r n i) = [] := by
  induction n generalizing i with
  | zero => rfl
  | succ n ih =>
    rw [scanEvents, eventsOf_append,
      eventsOf_probeEvents_recovery _ _ _ _ _ _ (hr i (le_refl i) (by omega)),
      ih (i + 1) fun j h1 h2 => hr j (by omega) (by omega)]
    rfl

theorem range_map_probe (bus : i2c_bus_t) (r : Nat → Int) :
    ((List.range 128).map fun k => (⟨probeCall bus (0 + k), r (0 + k)⟩ : Event)) =
      (List.range 128).map fun i => ⟨specProbe bus i, r i⟩ := by
  apply List.map_congr_left
  intro k hk
  rw [Nat.zero_add, probeCall_eq_specProbe bus k (List.mem_range.1 hk)]

/-- C4: on every simulated bus without construction failures and without
timeouts, whatever the caller's address set held, `i2c_bus_scan` returns `ESP_OK`; its submissions are exactly the probes of the
addresses 0, 1, ..., 127 in this order, each the link START, WRITE-BYTE(2i,
ack required), STOP with a timeout of 100 ms; each probe has a status `r i`
given by the environment; the resulting set contains an address `i < 128`
exactly when `r i` is `ESP_OK`; entries from 128 on are untouched; and no GPIO
or driver call is made. -/
theorem scan_records_acknowledged (hal : Hal) (hb : hal.BuildOk) (hnt : hal.NoTimeout)
    (addr : i2c_address_set_t) (s : State) :
    ∃ (r : Nat → Int) (found : i2c_address_set_t),
      (i2c_bus_scan hal addr s).value = some (ESP_OK, found) ∧
      eventsOf Call.isSubmit (newEvents s (i2c_bus_scan hal addr s)) =
        (List.range 128).map (fun i => ⟨specProbe s.bus i, r i⟩) ∧
      (∀ i, i < 128 → ∃ h, r i = hal.answer h (specProbe s.bus i)) ∧
      (∀ i, i < 128 → (found i = true ↔ r i = ESP_OK)) ∧
      (∀ i, 128 ≤ i → found i = addr i) ∧
      eventsOf Call.isRecovery (newEvents s (i2c_bus_scan hal addr s)) = [] := by
  obtain ⟨p, r, _, hr, hrun⟩ := scan_of_ok hal hb (Or.inr hnt) addr s
  refine ⟨r, fun j => if j < 128 then decide (r j = 0) else addr j, ?_, ?_, ?_, ?_, ?_, ?_⟩
  · rw [hrun]
    rfl
  · rw [hrun, newEvents_ret_setLock, eventsOf_cons, eventsOf_append, eventsOf_scanEvents_submit,
      range_map_probe]
    simp [eventsOf_cons, eventsOf_nil, Call.isSubmit]
  · intro i hi
    obtain ⟨h, hh⟩ := hr i hi
    exact ⟨h, by rw [hh, probeCall_eq_specProbe s.bus i hi]⟩
  · intro i hi
    simp [hi, ESP_OK]
  · intro i hi
    have : ¬ i < 128 := by omega
    simp [this]
  · rw [hrun, newEvents_ret_setLock, eventsOf_cons, eventsOf_append,
      eventsOf_scanEvents_recovery _ _ _ _ _ _ _ fun j _ hj => by
        obtain ⟨h, hh⟩ := hr j (by omega)
        rw [hh]
        exact hnt h _ rfl]
    simp [eventsOf_cons, eventsOf_nil, Call.isRecovery]

theorem twoDeviceBus_buildOk : twoDeviceBus.BuildOk := simBus_buildOk _

theorem twoDeviceBus_noTimeout : twoDeviceBus.NoTimeout := by
  intro h c hc
  cases c <;> simp_all [Call.isSubmit]
  simp only [twoDeviceBus, simBus]
  split <;> decide

/-- Witness of C4: on the bus that acknowledges only 0x18 and 0x6B, a scan
that starts with every address marked present yields exactly 0x18 and 0x6B. -/
theorem scan_records_acknowledged_witness :
    ∃ found, (i2c_bus_scan twoDeviceBus (fun _ => true) (stateAt 100000)).value =
        some (ESP_OK, found) ∧
      ∀ i, i < 128 → (found i = true ↔ i = 0x18 ∨ i = 0x6B) := by
  obtain ⟨r, found, hv, _, hr, hf, _⟩ :=
    scan_records_acknowledged twoDeviceBus twoDeviceBus_buildOk twoDeviceBus_noTimeout
      (fun _ => true) (stateAt 100000)
  refine ⟨found, hv, fun i hi => ?_⟩
  obtain ⟨h, hh⟩ := hr i hi
  rw [hf i hi, hh]
  have e : twoDeviceBus.answer h (specProbe (stateAt 100000).bus i) =
      if i = 0x18 ∨ i = 0x6B then 0 else ESP_FAIL := by
    simp [twoDeviceBus, simBus, specProbe, linkAddress]
  rw [e]
  by_cases hi2 : i = 0x18 ∨ i = 0x6B
  · simp [hi2, ESP_OK]
  · simp [hi2, ESP_OK, ESP_FAIL]

/-! ## The scan of a bus with timeouts -/

/-- What a scan does in an environment without construction failures in which
timeouts are recovered. -/
theorem scan_summary_of_ok (hal : Hal) (hb : hal.BuildOk) (hr : hal.Recovers)
    (addr : i2c_address_set_t) (s : State) :
    ∃ (m : Int) (p r : Nat → Int),
      (∀ i, i < 128 → ∃ h, r i = hal.answer h (specProbe s.bus i)) ∧
      i2c_bus_scan hal addr s =
        .ret (ESP_OK, fun j => if j < 128 then decide (r j = 0) else addr j)
          ((s.setLock false).ext (scanTrace hal s.bus m p r)) ∧
      eventsOf Call.isSubmit (scanTrace hal s.bus m p r) =
        (List.range 128).map (fun i => ⟨specProbe s.bus i, r i⟩) ∧
      eventsOf Call.isTake (scanTrace hal s.bus m p r) =
        List.replicate 128 ⟨.xSemaphoreTake, 0⟩ ∧
      eventsOf Call.isGive (scanTrace hal s.bus m p r) =
        List.replicate 128 ⟨.xSemaphoreGive, 0⟩ := by
  obtain ⟨p, r, _, hr, hrun⟩ := scan_of_ok hal hb hr addr s
  refine ⟨_, p, r, ?_, hrun, ?_, ?_, ?_⟩
  · intro i hi
    obtain ⟨h, hh⟩ := hr i hi
    exact ⟨h, by rw [hh, probeCall_eq_specProbe s.bus i hi]⟩
  · rw [scanTrace, eventsOf_cons, eventsOf_append, eventsOf_scanEvents_submit, range_map_probe]
    simp [eventsOf_cons, eventsOf_nil, Call.isSubmit]
  · rw [scanTrace, eventsOf_cons, eventsOf_append, eventsOf_scanEvents_take]
    simp [eventsOf_cons, eventsOf_nil, Call.isTake]
  · rw [scanTrace, eventsOf_cons, eventsOf_append, eventsOf_scanEvents_give]
    simp [eventsOf_cons, eventsOf_nil, Call.isGive]

theorem simBus_answer_probe (status : Nat → Int) (h : List Event) (bus : i2c_bus_t) (i : Nat) :
    (simBus status).answer h (specProbe bus i) = status i := by
  simp [simBus, specProbe, linkAddress]

theorem probe_infix_scanEvents (bus : i2c_bus_t) (link_buf : Int) (link_buf_size : Nat)
    (p r : Nat → Int) (n i j : Nat) (h1 : i ≤ j) (h2 : j < i + n) :
    probeEvents bus link_buf link_buf_size j (p j) (r j) <:+:
      scanEvents bus link_buf link_buf_size p r n i := by
  induction n generalizing i with
  | zero => omega
  | succ n ih =>
    rw [scanEvents]
    by_cases hj : j = i
    · subst hj
      exact (List.prefix_append _ _).isInfix
    · exact (ih (i + 1) (by omega) (by omega)).trans (List.suffix_append _ _).isInfix

theorem recovery_infix_probeEvents (bus : i2c_bus_t) (link_buf : Int) (link_buf_size i : Nat)
    (p : Int) :
    (⟨probeCall bus i, ESP_ERR_TIMEOUT⟩ :: recoverySequence bus) <:+:
      probeEvents bus link_buf link_buf_size i p ESP_ERR_TIMEOUT :=
  ⟨probeBuilt link_buf link_buf_size i p ++ [⟨.xSemaphoreTake, 0⟩],
    [⟨.xSemaphoreGive, 0⟩, ⟨.i2c_cmd_link_delete_static, 0⟩], by simp [probeEvents]⟩

theorem recovery_infix_scanTrace (hal : Hal) (bus : i2c_bus_t) (m : Int) (p r : Nat → Int)
    (i : Nat) (hi : i < 128) (hr : r i = ESP_ERR_TIMEOUT) :
    (⟨specProbe bus i, ESP_ERR_TIMEOUT⟩ :: recoverySequence bus) <:+: scanTrace hal bus m p r := by
  have h1 := recovery_infix_probeEvents bus m (hal.I2C_LINK_RECOMMENDED_SIZE 1) i (p i)
  have h2 := probe_infix_scanEvents bus m (hal.I2C_LINK_RECOMMENDED_SIZE 1) p r 128 0 i
    (Nat.zero_le i) (by omega)
  rw [hr] at h2
  rw [probeCall_eq_specProbe bus i hi] at h1
  have h3 : scanEvents bus m (hal.I2C_LINK_RECOMMENDED_SIZE 1) p r 128 0 <:+:
      scanTrace hal bus m p r :=
    ⟨[⟨.malloc (hal.I2C_LINK_RECOMMENDED_SIZE 1), m⟩], [⟨.free m, 0⟩], by simp [scanTrace]⟩
  exact (h1.trans h2).trans h3

/-- C5 (as the code has it): on every simulated bus with a clock speed other
than 0, without construction failures and whose recovery calls succeed, a probe
that returns a timeout does not end the scan: all 128 addresses are probed in
ascending order, the submission that timed out is followed by one recovery
pass, its address is recorded absent, and the scan returns `ESP_OK`. -/
theorem scan_goes_on_after_timeout (hal : Hal) (hb : hal.BuildOk) (hr : hal.RecoveryOk)
    (addr : i2c_address_set_t) (s : State) (_hspeed : 0 < s.bus.speed_hz) :
    ∃ (r : Nat → Int) (found : i2c_address_set_t),
      (i2c_bus_scan hal addr s).value = some (ESP_OK, found) ∧
      eventsOf Call.isSubmit (newEvents s (i2c_bus_scan hal addr s)) =
        (List.range 128).map (fun i => ⟨specProbe s.bus i, r i⟩) ∧
      (∀ i, i < 128 → ∃ h, r i = hal.answer h (specProbe s.bus i)) ∧
      (∀ i, i < 128 → r i = ESP_ERR_TIMEOUT →
        found i = false ∧
        (⟨specProbe s.bus i, ESP_ERR_TIMEOUT⟩ :: recoverySequence s.bus) <:+:
          newEvents s (i2c_bus_scan hal addr s)) := by
  obtain ⟨m, p, r, hr, hrun, hsub, _, _⟩ := scan_summary_of_ok hal hb (Or.inl hr) addr s
  refine ⟨r, _, by rw [hrun]; rfl, by rw [hrun, newEvents_ret_setLock, hsub], hr, ?_⟩
  intro i hi hto
  constructor
  · simp [hi, hto, ESP_ERR_TIMEOUT]
  · rw [hrun, newEvents_ret_setLock]
    exact recovery_infix_scanTrace hal s.bus m p r i hi hto

/-- Witness of C5: on the bus whose address 0x18 times out the scan returns
`ESP_OK`. -/
theorem scan_goes_on_after_timeout_witness :
    0 < (stateAt 100000).bus.speed_hz ∧
    ∃ found, (i2c_bus_scan wedgedBus (fun _ => false) (stateAt 100000)).value =
      some (ESP_OK, found) := by
  obtain ⟨_, found, hv, _⟩ :=
    scan_goes_on_after_timeout wedgedBus (simBus_buildOk _) (simBus_recoveryOk _)
      (fun _ => false) (stateAt 100000) (by decide)
  exact ⟨by decide, found, hv⟩

/-- C5 (counterexample): on the bus whose address 0x18 times out, the probe of
0x18 returns `ESP_ERR_TIMEOUT`, and yet the scan goes on to probe the
addresses 0x19 to 0x7F (all 128 addresses are probed) and returns `ESP_OK`,
not `ESP_ERR_TIMEOUT`. -/
theorem scan_after_timeout_at_0x18 :
    ∃ found, (i2c_bus_scan wedgedBus (fun _ => false) (stateAt 100000)).value =
        some (ESP_OK, found) ∧
      ESP_OK ≠ ESP_ERR_TIMEOUT ∧
      eventsOf Call.isSubmit
          (newEvents (stateAt 100000)
            (i2c_bus_scan wedgedBus (fun _ => false) (stateAt 100000))) =
        (List.range 128).map (fun i =>
          ⟨specProbe (stateAt 100000).bus i,
            if i = 0x18 then ESP_ERR_TIMEOUT else ESP_FAIL⟩) := by
  obtain ⟨m, p, r, hr, hrun, hsub, _, _⟩ :=
    scan_summary_of_ok wedgedBus (simBus_buildOk _) (Or.inl (simBus_recoveryOk _))
      (fun _ => false) (stateAt 100000)
  refine ⟨_, by rw [hrun]; rfl, by decide, ?_⟩
  rw [hrun, newEvents_ret_setLock, hsub]
  apply List.map_congr_left
  intro i hi
  obtain ⟨h, hh⟩ := hr i (List.mem_range.1 hi)
  rw [hh, wedgedBus, simBus_answer_probe]

/-! ## The lock during a scan -/

/-- C7 (as the code has it): on every simulated bus with a clock speed other
than 0, without construction failures and in which timeouts are recovered,
`i2c_bus_scan` itself never takes
the lock; each of the 128 probes builds its link without
the lock, takes the lock, submits (and recovers after a timeout), gives the
lock and then deletes its link (`scanTrace`, `probeEvents`), so the lock is
taken 128 times and given 128 times, is free between two probes, and is free
after the scan. -/
theorem scan_locks_each_probe (hal : Hal) (hb : hal.BuildOk) (hr : hal.Recovers)
    (addr : i2c_address_set_t) (s : State) (_hspeed : 0 < s.bus.speed_hz) :
    ∃ (m : Int) (p r : Nat → Int),
      newEvents s (i2c_bus_scan hal addr s) = scanTrace hal s.bus m p r ∧
      eventsOf Call.isTake (newEvents s (i2c_bus_scan hal addr s)) =
        List.replicate 128 ⟨.xSemaphoreTake, 0⟩ ∧
      eventsOf Call.isGive (newEvents s (i2c_bus_scan hal addr s)) =
        List.replicate 128 ⟨.xSemaphoreGive, 0⟩ ∧
      (i2c_bus_scan hal addr s).returned = true ∧
      (i2c_bus_scan hal addr s).state.bus.lock = false := by
  obtain ⟨m, p, r, _, hrun, _, htake, hgive⟩ := scan_summary_of_ok hal hb hr addr s
  refine ⟨m, p, r, ?_, ?_, ?_, ?_, ?_⟩
  · rw [hrun, newEvents_ret_setLock]
  · rw [hrun, newEvents_ret_setLock, htake]
  · rw [hrun, newEvents_ret_setLock, hgive]
  · rw [hrun]
    rfl
  · rw [hrun]
    rfl

/-- Witness of C7: the scan of the bus with two devices. -/
theorem scan_locks_each_probe_witness :
    0 < (stateAt 100000).bus.speed_hz ∧
    (i2c_bus_scan twoDeviceBus (fun _ => false) (stateAt 100000)).returned = true ∧
    (i2c_bus_scan twoDeviceBus (fun _ => false) (stateAt 100000)).state.bus.lock = false := by
  obtain ⟨_, _, _, _, _, _, hret, hl⟩ :=
    scan_locks_each_probe twoDeviceBus twoDeviceBus_buildOk (Or.inr twoDeviceBus_noTimeout)
      (fun _ => false) (stateAt 100000) (by decide)
  exact ⟨by decide, hret, hl⟩

/-- C7 (counterexample): in the scan of the bus with two devices the first
events are the allocation and the construction of the first link, before any
lock operation; the lock is then taken 128 times and given 128 times, not
once. -/
theorem scan_takes_lock_128_times :
    (newEvents (stateAt 100000)
        (i2c_bus_scan twoDeviceBus (fun _ => false) (stateAt 100000))).take 6 =
      [⟨.malloc 168, 4096⟩, ⟨.i2c_cmd_link_create_static 4096 168, 1⟩, ⟨.i2c_master_start, 0⟩,
        ⟨.i2c_master_write_byte 0 true, 0⟩, ⟨.i2c_master_stop, 0⟩, ⟨.xSemaphoreTake, 0⟩] ∧
    (eventsOf Call.isTake
      (newEvents (stateAt 100000)
        (i2c_bus_scan twoDeviceBus (fun _ => false) (stateAt 100000)))).length = 128 ∧
    (eventsOf Call.isGive
      (newEvents (stateAt 100000)
        (i2c_bus_scan twoDeviceBus (fun _ => false) (stateAt 100000)))).length = 128 := by
  obtain ⟨p, r, hp, _, hrun⟩ := scan_of_ok twoDeviceBus twoDeviceBus_buildOk
    (Or.inr twoDeviceBus_noTimeout) (fun _ => false) (stateAt 100000)
  obtain ⟨m, p1, r1, _, hrun1, _, htake, hgive⟩ :=
    scan_summary_of_ok twoDeviceBus twoDeviceBus_buildOk (Or.inr twoDeviceBus_noTimeout)
      (fun _ => false) (stateAt 100000)
  refine ⟨?_, ?_, ?_⟩
  · rw [hrun, newEvents_ret_setLock]
    obtain ⟨h, hh⟩ := hp 0 (by decide)
    have hp0 : p 0 = 1 := by
      rw [hh]
      rfl
    simp only [scanEvents, probeEvents, probeBuilt, hp0, List.cons_append, List.nil_append,
      List.take_succ_cons, List.take_zero]
    rfl
  · rw [hrun1, newEvents_ret_setLock, htake, List.length_replicate]
  · rw [hrun1, newEvents_ret_setLock, hgive, List.length_replicate]

/-! ## Construction failures during a scan -/

/-- A call of `i2c_bus_write_then_read` submits its link at most once, and
exactly once when no construction event failed. -/
theorem submissions_write_then_read (hal : Hal) (a : Nat) (w : List Nat) (n : Nat) (s : State) :
    (submissions (newEvents s (i2c_bus_write_then_read hal a w n s)) = [] ∨
      submissions (newEvents s (i2c_bus_write_then_read hal a w n s)) = [submitCall s a w n]) ∧
    ((∀ e ∈ newEvents s (i2c_bus_write_then_read hal a w n s), e.buildFailed = false) →
      submissions (newEvents s (i2c_bus_write_then_read hal a w n s)) =
        [submitCall s a w n]) := by
  rcases write_then_read_summary hal a w n s with
    ⟨_, _, _, h⟩ | ⟨_, pre, c, op, rest, err, hs, hne, _, _, _, h⟩ | ⟨_, _, _, _, h⟩ |
    ⟨_, _, _, _, h⟩ | ⟨_, _, _, pre, c, rest, err, hc, _, _, h⟩
  · have h0 : submissions (newEvents s (i2c_bus_write_then_read hal a w n s)) = [] := by
      rw [h]
      simp [submissions, linkOpened, Call.isSubmit]
    refine ⟨Or.inl h0, fun hok => ?_⟩
    exfalso
    rw [h] at hok
    have := hok ⟨.i2c_cmd_link_create_static s.bus.cmd_buf s.bus.cmd_buf_size, 0⟩
      (by simp [linkOpened])
    simp [Event.buildFailed] at this
  · have hb : c.isBuildStep = true :=
      write_then_read_steps_build a w n (c, op) (by rw [hs]; simp)
    have hpre : submissions (okEvents (pre.map Prod.fst)) = [] := by
      apply submissions_eq_nil
      intro e he
      simp only [okEvents, List.map_map, List.mem_map] at he
      rcases he with ⟨x, hx, rfl⟩
      exact isSubmit_of_isBuildStep _
        (write_then_read_steps_build a w n x (by rw [hs]; simp [hx]))
    have h0 : submissions (newEvents s (i2c_bus_write_then_read hal a w n s)) = [] := by
      have hcs : submissions (⟨c, err⟩ :: linkClosed) = [] := by
        apply submissions_eq_nil
        intro e he
        simp only [linkClosed, List.mem_cons, List.mem_singleton, List.not_mem_nil,
          or_false] at he
        rcases he with rfl | rfl | rfl
        · exact isSubmit_of_isBuildStep c hb
        · rfl
        · rfl
      rw [h, submissions_append, submissions_append, hpre, hcs]
      simp [submissions, linkOpened, Call.isSubmit]
    refine ⟨Or.inl h0, fun hok => ?_⟩
    exfalso
    rw [h] at hok
    have := hok ⟨c, err⟩ (by simp)
    cases c <;> simp_all [Event.buildFailed, Call.isBuildStep]
  · have h1 : submissions (newEvents s (i2c_bus_write_then_read hal a w n s)) =
        [submitCall s a w n] := by
      rw [h, submissions_append, submissions_submitted]
      simp [submissions, linkClosed, Call.isSubmit]
    exact ⟨Or.inr h1, fun _ => h1⟩
  · have h1 : submissions (newEvents s (i2c_bus_write_then_read hal a w n s)) =
        [submitCall s a w n] := by
      rw [h, submissions_append, submissions_append, submissions_submitted,
        submissions_recoverySequence]
      simp [submissions, linkClosed, Call.isSubmit]
    exact ⟨Or.inr h1, fun _ => h1⟩
  · have h1 : submissions (newEvents s (i2c_bus_write_then_read hal a w n s)) =
        [submitCall s a w n] := by
      rw [h, submissions_append, submissions_submitted,
        submissions_eq_nil _ fun e he =>
          isSubmit_of_isRecovery _ (recovery_prefix_calls s.bus pre rest c err hc e he)]
      simp
    exact ⟨Or.inr h1, fun _ => h1⟩

/-- The links a call of `i2c_bus_write_then_read` submits: none or the link
it has built, and that link when no construction event failed. -/
theorem linksSubmitted_write_then_read (hal : Hal) (a : Nat) (w : List Nat) (n : Nat)
    (s : State) :
    (∀ link ∈ linksSubmitted (newEvents s (i2c_bus_write_then_read hal a w n s)),
      link = builtLink a w n) ∧
    ((∀ e ∈ newEvents s (i2c_bus_write_then_read hal a w n s), e.buildFailed = false) →
      linksSubmitted (newEvents s (i2c_bus_write_then_read hal a w n s)) = [builtLink a w n]) := by
  have hl : List.filterMap Call.link [submitCall s a w n] = [builtLink a w n] := by
    simp [submitCall, Call.link]
  obtain ⟨h1, h2⟩ := submissions_write_then_read hal a w n s
  constructor
  · intro link hlink
    unfold linksSubmitted at hlink
    rcases h1 with h | h
    · rw [h] at hlink
      simp at hlink
    · rw [h, hl] at hlink
      simpa using hlink
  · intro hok
    unfold linksSubmitted
    rw [h2 hok, hl]

/-- C11: for every address `a`, register `r` and value `v`, in every
environment and state, `i2c_bus_write_byte` is `i2c_bus_write_then_read` with
the write payload `[r, v]` and an empty read, and `i2c_bus_read_byte` is
`i2c_bus_write_then_read` with the write payload `[r]` and a read of length 1.
Every link `i2c_bus_write_byte` submits is START, WRITE-BYTE(address byte with
write intent), WRITE([r, v]), STOP: exactly one START and no READ.  Every link
`i2c_bus_read_byte` submits is START, WRITE-BYTE(address byte with write
intent), WRITE([r]), START, WRITE-BYTE(address byte with read intent), READ(1,
NACK after the last byte), STOP: exactly two STARTs, the second right before
the read-intent address byte, and one READ, of one byte.  When no construction
event of the call failed, that link is submitted, once.  The address bytes are
`address << 1` and `(address << 1) | 1` in 8 bits, which for a 7-bit address
are `2a` and `2a + 1`. -/
theorem byte_helpers_links (hal : Hal) (a r v : Nat) (s : State) :
    i2c_bus_write_byte hal a r v s = i2c_bus_write_then_read hal a [r, v] 0 s ∧
    i2c_bus_read_byte hal a r s = i2c_bus_write_then_read hal a [r] 1 s ∧
    (∀ link ∈ linksSubmitted (newEvents s (i2c_bus_write_byte hal a r v s)),
      link = [.START, .WRITE_BYTE ((a <<< 1) % 256) true, .WRITE [r, v] true, .STOP] ∧
      startCount link = 1 ∧ readOps link = []) ∧
    (∀ link ∈ linksSubmitted (newEvents s (i2c_bus_read_byte hal a r s)),
      link = [.START, .WRITE_BYTE ((a <<< 1) % 256) true, .WRITE [r] true,
        .START, .WRITE_BYTE (((a <<< 1) ||| 1) % 256) true,
        .READ 1 .I2C_MASTER_LAST_NACK, .STOP] ∧
      startCount link = 2 ∧ readOps link = [.READ 1 .I2C_MASTER_LAST_NACK]) ∧
    ((∀ e ∈ newEvents s (i2c_bus_write_byte hal a r v s), e.buildFailed = false) →
      linksSubmitted (newEvents s (i2c_bus_write_byte hal a r v s)) =
        [[.START, .WRITE_BYTE ((a <<< 1) % 256) true, .WRITE [r, v] true, .STOP]]) ∧
    ((∀ e ∈ newEvents s (i2c_bus_read_byte hal a r s), e.buildFailed = false) →
      linksSubmitted (newEvents s (i2c_bus_read_byte hal a r s)) =
        [[.START, .WRITE_BYTE ((a <<< 1) % 256) true, .WRITE [r] true,
          .START, .WRITE_BYTE (((a <<< 1) ||| 1) % 256) true,
          .READ 1 .I2C_MASTER_LAST_NACK, .STOP]]) ∧
    (a < 128 → (a <<< 1) % 256 = 2 * a ∧ ((a <<< 1) ||| 1) % 256 = 2 * a + 1) := by
  have hw : builtLink a [r, v] 0 =
      [.START, .WRITE_BYTE ((a <<< 1) % 256) true, .WRITE [r, v] true, .STOP] := by
    simp [builtLink, write_then_read_steps]
  have hr : builtLink a [r] 1 =
      [.START, .WRITE_BYTE ((a <<< 1) % 256) true, .WRITE [r] true,
        .START, .WRITE_BYTE (((a <<< 1) ||| 1) % 256) true,
        .READ 1 .I2C_MASTER_LAST_NACK, .STOP] := by
    simp [builtLink, write_then_read_steps]
  obtain ⟨hw1, hw2⟩ := linksSubmitted_write_then_read hal a [r, v] 0 s
  obtain ⟨hr1, hr2⟩ := linksSubmitted_write_then_read hal a [r] 1 s
  rw [hw] at hw1 hw2
  rw [hr] at hr1 hr2
  refine ⟨rfl, rfl, ?_, ?_, hw2, hr2,
    fun ha => ⟨address_write_byte a ha, address_read_byte a ha⟩⟩
  · intro link hlink
    have h := hw1 link hlink
    subst h
    exact ⟨rfl, by simp [startCount], by simp [readOps, Op.isRead]⟩
  · intro link hlink
    have h := hr1 link hlink
    subst h
    exact ⟨rfl, by simp [startCount], by simp [readOps, Op.isRead]⟩

/-- Witness of C11: writing 7 to register 3 of the device at 0x18, and reading
register 3 of that device, on a simulated bus. -/
theorem byte_helpers_links_witness :
    linksSubmitted (newEvents (stateAt 100000)
        (i2c_bus_write_byte (simBus fun _ => 0) 0x18 3 7 (stateAt 100000))) =
      [[.START, .WRITE_BYTE 0x30 true, .WRITE [3, 7] true, .STOP]] ∧
    linksSubmitted (newEvents (stateAt 100000)
        (i2c_bus_read_byte (simBus fun _ => 0) 0x18 3 (stateAt 100000))) =
      [[.START, .WRITE_BYTE 0x30 true, .WRITE [3] true,
        .START, .WRITE_BYTE 0x31 true, .READ 1 .I2C_MASTER_LAST_NACK, .STOP]] ∧
    (0x18 < 128 ∧ (0x18 <<< 1) % 256 = 2 * 0x18 ∧ ((0x18 <<< 1) ||| 1) % 256 = 2 * 0x18 + 1) :=
  ⟨(byte_helpers_links (simBus fun _ => 0) 0x18 3 7 (stateAt 100000)).2.2.2.2.1
      (write_then_read_built _ (simBus_buildOk _) (simBus_recoveryOk _) 0x18 [3, 7] 0 _),
    (byte_helpers_links (simBus fun _ => 0) 0x18 3 7 (stateAt 100000)).2.2.2.2.2.1
      (write_then_read_built _ (simBus_buildOk _) (simBus_recoveryOk _) 0x18 [3] 1 _),
    by decide,
    (byte_helpers_links (simBus fun _ => 0) 0x18 3 7 (stateAt 100000)).2.2.2.2.2.2 (by decide)⟩

/-! ## Failures during recovery -/

theorem check_call_bind {β : Type} (hal : Hal) (c : Call) (f : Unit → HW β) (s : State) :
    (ESP_ERROR_CHECK (hal_call hal c) >>= f) s =
      if hal.answer s.trace c ≠ ESP_OK then .abort (s.ext [⟨c, hal.answer s.trace c⟩])
      else f () (s.ext [⟨c, hal.answer s.trace c⟩]) := by
  rw [bind_apply, check_call_apply]
  by_cases h : hal.answer s.trace c = ESP_OK
  · simp [h]
  · simp [h]

theorem unstick_loop_levelFailBus (n : Nat) (s : State) :
    unstick_loop levelFailBus (n + 1) s =
      .abort (s.ext [⟨.gpio_set_level s.bus.gpio_scl 0, 0⟩,
        ⟨.ets_delay_us (DIV_ROUND_UP 1000000 s.bus.speed_hz), 0⟩,
        ⟨.gpio_set_level s.bus.gpio_scl 1, ESP_FAIL⟩]) := by
  have e : unstick_loop levelFailBus (n + 1) s =
      (ESP_ERROR_CHECK (hal_call levelFailBus (.gpio_set_level s.bus.gpio_scl 0)) >>= fun _ =>
        hal_void (.ets_delay_us (DIV_ROUND_UP 1000000 s.bus.speed_hz)) >>= fun _ =>
        ESP_ERROR_CHECK (hal_call levelFailBus (.gpio_set_level s.bus.gpio_scl 1)) >>= fun _ =>
        hal_void (.ets_delay_us (DIV_ROUND_UP 1000000 s.bus.speed_hz)) >>= fun _ =>
        unstick_loop levelFailBus n) s := rfl
  have h0 : ∀ t p, levelFailBus.answer t (.gpio_set_level p 0) = 0 := fun _ _ => rfl
  have h1 : ∀ t p, levelFailBus.answer t (.gpio_set_level p 1) = ESP_FAIL := fun _ _ => rfl
  have hne : ESP_FAIL ≠ ESP_OK := by decide
  rw [e, check_call_bind, h0, if_neg (by simp [ESP_OK]), hal_void_bind, check_call_bind, h1,
    if_pos hne, State.ext_ext, State.ext_ext]
  rfl

/-- On `levelFailBus` a recovery pass aborts at the first attempt to drive the
clock line high. -/
theorem unstick_levelFailBus (s : State) :
    i2c_unstick_bus levelFailBus s = .abort (s.ext (levelFailEvents s.bus)) := by
  have e : i2c_unstick_bus levelFailBus s =
      (ESP_ERROR_CHECK (hal_call levelFailBus (.i2c_driver_delete s.bus.i2c_port)) >>= fun _ =>
        ESP_ERROR_CHECK (hal_call levelFailBus (.gpio_reset_pin s.bus.gpio_sda)) >>= fun _ =>
        ESP_ERROR_CHECK (hal_call levelFailBus
          (.gpio_set_direction s.bus.gpio_sda .GPIO_MODE_INPUT)) >>= fun _ =>
        ESP_ERROR_CHECK (hal_call levelFailBus (.gpio_reset_pin s.bus.gpio_scl)) >>= fun _ =>
        ESP_ERROR_CHECK (hal_call levelFailBus
          (.gpio_set_direction s.bus.gpio_scl .GPIO_MODE_OUTPUT)) >>= fun _ =>
        unstick_loop levelFailBus (31 + 1) >>= fun _ =>
        ESP_ERROR_CHECK (i2c_bus_init_ levelFailBus)) s := rfl
  have h1 : ∀ t p, levelFailBus.answer t (.i2c_driver_delete p) = 0 := fun _ _ => rfl
  have h2 : ∀ t p, levelFailBus.answer t (.gpio_reset_pin p) = 0 := fun _ _ => rfl
  have h3 : ∀ t p m, levelFailBus.answer t (.gpio_set_direction p m) = 0 := fun _ _ _ => rfl
  have hok : ¬ ((0 : Int) ≠ ESP_OK) := by simp [ESP_OK]
  rw [e, check_call_bind, h1, if_neg hok, check_call_bind, h2, if_neg hok, check_call_bind, h3,
    if_neg hok, check_call_bind, h2, if_neg hok, check_call_bind, h3, if_neg hok, bind_apply,
    unstick_loop_levelFailBus]
  simp [levelFailEvents]


theorem isRecovery_okEvents (cs : List Call) (hcs : ∀ c ∈ cs, c.isBuildStep = true) :
    ∀ e ∈ okEvents cs, e.call.isRecovery = false := by
  intro e he
  simp only [okEvents, List.mem_map] at he
  rcases he with ⟨c, hc, rfl⟩
  exact isRecovery_of_isBuildStep c (hcs c hc)

theorem isRecovery_submitted (hal : Hal) (a : Nat) (w : List Nat) (n : Nat) (s : State) :
    ∀ e ∈ submitted hal a w n s, e.call.isRecovery = false := by
  intro e he
  simp only [submitted, List.mem_append, List.mem_singleton] at he
  rcases he with he | he | rfl
  · simp only [linkOpened, List.mem_cons, List.mem_singleton, List.not_mem_nil, or_false] at he
    rcases he with rfl | rfl <;> rfl
  · exact (okEvents_steps_calls a w n e he).2
  · rfl

/-- A failed recovery call among the events of the executor: the events are
the submission, which timed out, then the recovery calls up to the failing one,
and the executor did not return. -/
theorem unlocked_recovery_failure (hal : Hal) (handle : i2c_cmd_handle_t) (timeout : TickType_t)
    (s : State)
    (hfail : ∃ e ∈ newEvents s (i2c_bus_cmd_begin_unlocked hal handle timeout s),
      e.call.isRecovery = true ∧ e.ret ≠ 0) :
    (i2c_bus_cmd_begin_unlocked hal handle timeout s).value = none ∧
    ∃ pre c rest err, recoverySequence s.bus = pre ++ ⟨c, 0⟩ :: rest ∧ err ≠ 0 ∧
      newEvents s (i2c_bus_cmd_begin_unlocked hal handle timeout s) =
        ⟨.i2c_master_cmd_begin s.bus.i2c_port handle timeout, ESP_ERR_TIMEOUT⟩ ::
          (pre ++ [⟨c, err⟩]) := by
  obtain ⟨e, he, hrec, hne⟩ := hfail
  rcases cmd_begin_unlocked_cases hal handle timeout s with
    ⟨_, h⟩ | ⟨_, h⟩ | ⟨hto, pre, c, rest, hc, hans, h⟩
  · exfalso
    rw [h] at he
    simp only [newEvents, Outcome.state, afterSubmit_trace, List.drop_left,
      List.mem_singleton] at he
    subst he
    simp [Call.isRecovery] at hrec
  · exfalso
    rw [h] at he
    simp only [newEvents, Outcome.state, State.ext_trace, afterSubmit_trace, List.append_assoc,
      List.drop_left, List.mem_append, List.mem_singleton] at he
    rcases he with rfl | he
    · simp [Call.isRecovery] at hrec
    · exact hne (recoverySequence_recovery s.bus e he).2
  · refine ⟨by rw [h]; rfl, pre, c, rest, _, hc, hans, ?_⟩
    rw [h]
    simp [newEvents, Outcome.state, hto]

/-- The same for the locked executor: the lock was taken before the
submission and is not given back. -/
theorem cmd_begin_recovery_failure (hal : Hal) (handle : i2c_cmd_handle_t) (timeout : TickType_t)
    (s : State)
    (hfail : ∃ e ∈ newEvents s (i2c_bus_cmd_begin hal handle timeout s),
      e.call.isRecovery = true ∧ e.ret ≠ 0) :
    (i2c_bus_cmd_begin hal handle timeout s).value = none ∧
    ∃ pre c rest err, recoverySequence s.bus = pre ++ ⟨c, 0⟩ :: rest ∧ err ≠ 0 ∧
      newEvents s (i2c_bus_cmd_begin hal handle timeout s) =
        ⟨.xSemaphoreTake, 0⟩ ::
          ⟨.i2c_master_cmd_begin s.bus.i2c_port handle timeout, ESP_ERR_TIMEOUT⟩ ::
            (pre ++ [⟨c, err⟩]) := by
  obtain ⟨e, he, hrec, hne⟩ := hfail
  rw [cmd_begin_apply] at he ⊢
  rcases cmd_begin_unlocked_cases hal handle timeout
      ((s.setLock true).ext [⟨.xSemaphoreTake, 0⟩]) with
    ⟨_, h⟩ | ⟨_, h⟩ | ⟨hto, pre, c, rest, hc, hans, h⟩
  · exfalso
    rw [h] at he
    simp only [newEvents, Outcome.state, State.ext_trace, afterSubmit_trace, State.setLock_trace,
      List.append_assoc, List.drop_left, List.mem_append, List.mem_singleton, List.mem_cons,
      List.not_mem_nil, or_false] at he
    rcases he with rfl | rfl | rfl <;> simp [Call.isRecovery] at hrec
  · exfalso
    rw [h] at he
    simp only [newEvents, Outcome.state, State.ext_trace, afterSubmit_trace, State.setLock_trace,
      List.append_assoc, List.drop_left, List.mem_append, List.mem_singleton, List.mem_cons,
      List.not_mem_nil, or_false] at he
    rcases he with rfl | rfl | he | rfl
    · simp [Call.isRecovery] at hrec
    · simp [Call.isRecovery] at hrec
    · exact hne (recoverySequence_recovery s.bus e he).2
    · simp [Call.isRecovery] at hrec
  · rw [h]
    refine ⟨rfl, pre, c, rest, _, hc, hans, ?_⟩
    simp only [State.ext_trace, State.setLock_trace, State.ext_bus,
      State.setLock_bus_port] at hto
    simp [newEvents, Outcome.state, hto]


/-- The same for `i2c_bus_write_then_read`: the events are those up to the
submission, which timed out, then the recovery calls up to the failing one;
the link is not deleted and the lock is not given back. -/
theorem write_then_read_recovery_failure (hal : Hal) (a : Nat) (w : List Nat) (n : Nat)
    (s : State)
    (hfail : ∃ e ∈ newEvents s (i2c_bus_write_then_read hal a w n s),
      e.call.isRecovery = true ∧ e.ret ≠ 0) :
    (i2c_bus_write_then_read hal a w n s).value = none ∧
    submitStatus hal a w n s = ESP_ERR_TIMEOUT ∧
    ∃ pre c rest err, recoverySequence s.bus = pre ++ ⟨c, 0⟩ :: rest ∧ err ≠ 0 ∧
      newEvents s (i2c_bus_write_then_read hal a w n s) =
        submitted hal a w n s ++ (pre ++ [⟨c, err⟩]) := by
  obtain ⟨e, he, hrec, hne⟩ := hfail
  have hclosed : ∀ x ∈ linkClosed, x.call.isRecovery = false := by
    intro x hx
    simp only [linkClosed, List.mem_cons, List.mem_singleton, List.not_mem_nil, or_false] at hx
    rcases hx with rfl | rfl <;> rfl
  rcases write_then_read_summary hal a w n s with
    ⟨_, _, _, h⟩ | ⟨_, pre, c, op, rest, err, hs, _, _, _, _, h⟩ | ⟨_, _, _, _, h⟩ |
    ⟨_, _, _, _, h⟩ | ⟨_, hst, hv, pre, c, rest, err, hc, herr, _, h⟩
  · exfalso
    rw [h] at he
    simp only [linkOpened, List.cons_append, List.nil_append, List.mem_cons, List.mem_singleton,
      List.not_mem_nil, or_false] at he
    rcases he with rfl | rfl | rfl <;> simp [Call.isRecovery] at hrec
  · exfalso
    rw [h] at he
    simp only [List.mem_append, List.mem_cons] at he
    have hfalse : e.call.isRecovery = false := by
      rcases he with he | he | rfl | he
      · simp only [linkOpened, List.mem_cons, List.mem_singleton, List.not_mem_nil,
          or_false] at he
        rcases he with rfl | rfl <;> rfl
      · refine isRecovery_okEvents _ ?_ e he
        intro c1 hc1
        rcases List.mem_map.1 hc1 with ⟨x, hx, rfl⟩
        exact write_then_read_steps_build a w n x (by rw [hs]; simp [hx])
      · exact isRecovery_of_isBuildStep c
          (write_then_read_steps_build a w n (c, op) (by rw [hs]; simp))
      · exact hclosed e he
    rw [hfalse] at hrec
    exact Bool.noConfusion hrec
  · exfalso
    rw [h] at he
    have hfalse : e.call.isRecovery = false := by
      rcases List.mem_append.1 he with he | he
      · exact isRecovery_submitted hal a w n s e he
      · exact hclosed e he
    rw [hfalse] at hrec
    exact Bool.noConfusion hrec
  · exfalso
    rw [h] at he
    simp only [List.mem_append] at he
    rcases he with he | he | he
    · rw [isRecovery_submitted hal a w n s e he] at hrec
      exact Bool.noConfusion hrec
    · exact hne (recoverySequence_recovery s.bus e he).2
    · rw [hclosed e he] at hrec
      exact Bool.noConfusion hrec
  · exact ⟨hv, hst, pre, c, rest, err, hc, herr, h⟩


theorem levelFailBus_buildOk : levelFailBus.BuildOk := by
  constructor
  · intro h buffer size
    simp [levelFailBus]
  · intro h c hc
    cases c <;> simp_all [levelFailBus, Call.isBuildStep]

/-- A run that aborted with the events of a failed recovery pass on
`levelFailBus` contains a failed recovery call. -/
theorem levelFail_failed_event {α : Type} (s x : State) (bus : i2c_bus_t)
    (hx : ∃ m, x.trace = s.trace ++ m) :
    ∃ e ∈ newEvents s (.abort (x.ext (levelFailEvents bus)) : Outcome α),
      e.call.isRecovery = true ∧ e.ret ≠ 0 := by
  obtain ⟨m, hm⟩ := hx
  have hne : ESP_FAIL ≠ 0 := by decide
  refine ⟨⟨.gpio_set_level bus.gpio_scl 1, ESP_FAIL⟩, ?_, rfl, hne⟩
  simp [newEvents, Outcome.state, hm, levelFailEvents]

theorem unlocked_levelFailBus (handle : i2c_cmd_handle_t) (timeout : TickType_t) (s : State) :
    i2c_bus_cmd_begin_unlocked levelFailBus handle timeout s =
      .abort ((afterSubmit levelFailBus handle timeout s).ext (levelFailEvents s.bus)) := by
  have hto : levelFailBus.answer s.trace (.i2c_master_cmd_begin s.bus.i2c_port handle timeout) =
      ESP_ERR_TIMEOUT := rfl
  rw [cmd_begin_unlocked_apply, if_pos hto, unstick_levelFailBus]
  rfl

theorem cmd_begin_levelFailBus (handle : i2c_cmd_handle_t) (timeout : TickType_t) (s : State) :
    i2c_bus_cmd_begin levelFailBus handle timeout s =
      .abort ((afterSubmit levelFailBus handle timeout
        ((s.setLock true).ext [⟨.xSemaphoreTake, 0⟩])).ext (levelFailEvents s.bus)) := by
  rw [cmd_begin_apply, unlocked_levelFailBus]
  rfl

theorem write_then_read_levelFailBus (a : Nat) (w : List Nat) (n : Nat) (s : State) :
    i2c_bus_write_then_read levelFailBus a w n s =
      .abort ((afterSubmit levelFailBus (builtLink a w n) (.pdMS_TO_TICKS 100)
        (builtState levelFailBus a w n s)).ext (levelFailEvents s.bus)) := by
  rcases write_then_read_cases levelFailBus a w n s with
    ⟨h0, _⟩ | ⟨_, pre, c, op, rest, err, hs, hne, he, _⟩ | ⟨_, h⟩
  · exact absurd h0 (levelFailBus_buildOk.1 _ _ _)
  · exfalso
    apply hne
    rw [he]
    exact levelFailBus_buildOk.2 _ c
      (write_then_read_steps_build a w n (c, op) (by rw [hs]; simp))
  · rw [h, unlocked_levelFailBus]
    rfl


/-- C12: in every environment and state, when a call of the recovery pass
`i2c_unstick_bus` returned a status other than `ESP_OK` (driver teardown, a pin
reset, a direction change, one of the 64 clock level changes, driver
configuration or installation), the pass did not return: its events are the
calls of the recovery sequence before the failing one, all successful, and then
the failing call, after which nothing is issued.  When that happens under the
executor (`i2c_bus_cmd_begin_unlocked`, `i2c_bus_cmd_begin`) or under
`i2c_bus_write_then_read`, that function does not return a status either: its
events end with the failing call. -/
theorem recovery_failure_is_fatal (hal : Hal) (handle : i2c_cmd_handle_t) (timeout : TickType_t)
    (a : Nat) (w : List Nat) (n : Nat) (s : State) :
    ((∃ e ∈ newEvents s (i2c_unstick_bus hal s), e.ret ≠ 0) →
      (i2c_unstick_bus hal s).returned = false ∧
      ∃ pre c rest err, recoverySequence s.bus = pre ++ ⟨c, 0⟩ :: rest ∧ err ≠ 0 ∧
        newEvents s (i2c_unstick_bus hal s) = pre ++ [⟨c, err⟩]) ∧
    ((∃ e ∈ newEvents s (i2c_bus_cmd_begin_unlocked hal handle timeout s),
        e.call.isRecovery = true ∧ e.ret ≠ 0) →
      (i2c_bus_cmd_begin_unlocked hal handle timeout s).value = none ∧
      ∃ pre c rest err, recoverySequence s.bus = pre ++ ⟨c, 0⟩ :: rest ∧ err ≠ 0 ∧
        newEvents s (i2c_bus_cmd_begin_unlocked hal handle timeout s) =
          ⟨.i2c_master_cmd_begin s.bus.i2c_port handle timeout, ESP_ERR_TIMEOUT⟩ ::
            (pre ++ [⟨c, err⟩])) ∧
    ((∃ e ∈ newEvents s (i2c_bus_cmd_begin hal handle timeout s),
        e.call.isRecovery = true ∧ e.ret ≠ 0) →
      (i2c_bus_cmd_begin hal handle timeout s).value = none ∧
      ∃ pre c rest err, recoverySequence s.bus = pre ++ ⟨c, 0⟩ :: rest ∧ err ≠ 0 ∧
        newEvents s (i2c_bus_cmd_begin hal handle timeout s) =
          ⟨.xSemaphoreTake, 0⟩ ::
            ⟨.i2c_master_cmd_begin s.bus.i2c_port handle timeout, ESP_ERR_TIMEOUT⟩ ::
              (pre ++ [⟨c, err⟩])) ∧
    ((∃ e ∈ newEvents s (i2c_bus_write_then_read hal a w n s),
        e.call.isRecovery = true ∧ e.ret ≠ 0) →
      (i2c_bus_write_then_read hal a w n s).value = none ∧
      submitStatus hal a w n s = ESP_ERR_TIMEOUT ∧
      ∃ pre c rest err, recoverySequence s.bus = pre ++ ⟨c, 0⟩ :: rest ∧ err ≠ 0 ∧
        newEvents s (i2c_bus_write_then_read hal a w n s) =
          submitted hal a w n s ++ (pre ++ [⟨c, err⟩])) := by
  refine ⟨?_, unlocked_recovery_failure hal handle timeout s,
    cmd_begin_recovery_failure hal handle timeout s,
    write_then_read_recovery_failure hal a w n s⟩
  rintro ⟨e, he, hne⟩
  rcases Checked.unstick hal s.bus s rfl with h | ⟨pre, c, rest, hc, hans, h⟩
  · exfalso
    rw [h, newEvents_ret] at he
    exact hne (recoverySequence_recovery s.bus e he).2
  · rw [h]
    exact ⟨rfl, pre, c, rest, _, hc, hans, newEvents_abort s _⟩

/-- Witness of C12: on a bus whose clock line cannot be driven high, a recovery
pass, the executor with and without the lock, and a register read all end
without returning. -/
theorem recovery_failure_is_fatal_witness :
    ((∃ e ∈ newEvents (stateAt 100000) (i2c_unstick_bus levelFailBus (stateAt 100000)),
        e.ret ≠ 0) ∧
      (i2c_unstick_bus levelFailBus (stateAt 100000)).returned = false) ∧
    ((∃ e ∈ newEvents (stateAt 100000)
          (i2c_bus_cmd_begin_unlocked levelFailBus (probeLink 0x18) (.pdMS_TO_TICKS 100)
            (stateAt 100000)),
        e.call.isRecovery = true ∧ e.ret ≠ 0) ∧
      (i2c_bus_cmd_begin_unlocked levelFailBus (probeLink 0x18) (.pdMS_TO_TICKS 100)
        (stateAt 100000)).value = none) ∧
    ((∃ e ∈ newEvents (stateAt 100000)
          (i2c_bus_cmd_begin levelFailBus (probeLink 0x18) (.pdMS_TO_TICKS 100)
            (stateAt 100000)),
        e.call.isRecovery = true ∧ e.ret ≠ 0) ∧
      (i2c_bus_cmd_begin levelFailBus (probeLink 0x18) (.pdMS_TO_TICKS 100)
        (stateAt 100000)).value = none) ∧
    ((∃ e ∈ newEvents (stateAt 100000)
          (i2c_bus_write_then_read levelFailBus 0x18 [3] 1 (stateAt 100000)),
        e.call.isRecovery = true ∧ e.ret ≠ 0) ∧
      (i2c_bus_write_then_read levelFailBus 0x18 [3] 1 (stateAt 100000)).value = none) :=
  have h1 : ∃ e ∈ newEvents (stateAt 100000) (i2c_unstick_bus levelFailBus (stateAt 100000)),
      e.ret ≠ 0 := by
    rw [unstick_levelFailBus]
    obtain ⟨e, he, _, hne⟩ := @levelFail_failed_event Unit (stateAt 100000)
      (stateAt 100000) (stateAt 100000).bus ⟨[], by simp⟩
    exact ⟨e, he, hne⟩
  have h2 : ∃ e ∈ newEvents (stateAt 100000)
      (i2c_bus_cmd_begin_unlocked levelFailBus (probeLink 0x18) (.pdMS_TO_TICKS 100)
        (stateAt 100000)), e.call.isRecovery = true ∧ e.ret ≠ 0 := by
    rw [unlocked_levelFailBus]
    exact levelFail_failed_event _ _ _ ⟨_, afterSubmit_trace _ _ _ _⟩
  have h3 : ∃ e ∈ newEvents (stateAt 100000)
      (i2c_bus_cmd_begin levelFailBus (probeLink 0x18) (.pdMS_TO_TICKS 100)
        (stateAt 100000)), e.call.isRecovery = true ∧ e.ret ≠ 0 := by
    rw [cmd_begin_levelFailBus]
    exact levelFail_failed_event _ _ _ ⟨_, by
      rw [afterSubmit_trace, State.ext_trace, State.setLock_trace, List.append_assoc]⟩
  have h4 : ∃ e ∈ newEvents (stateAt 100000)
      (i2c_bus_write_then_read levelFailBus 0x18 [3] 1 (stateAt 100000)),
      e.call.isRecovery = true ∧ e.ret ≠ 0 := by
    rw [write_then_read_levelFailBus]
    exact levelFail_failed_event _ _ _ ⟨_, by
      rw [afterSubmit_trace, builtState_trace, List.append_assoc]⟩
  ⟨⟨h1, ((recovery_failure_is_fatal levelFailBus (probeLink 0x18) (.pdMS_TO_TICKS 100)
      0x18 [3] 1 (stateAt 100000)).1 h1).1⟩,
    ⟨h2, ((recovery_failure_is_fatal levelFailBus (probeLink 0x18) (.pdMS_TO_TICKS 100)
      0x18 [3] 1 (stateAt 100000)).2.1 h2).1⟩,
    ⟨h3, ((recovery_failure_is_fatal levelFailBus (probeLink 0x18) (.pdMS_TO_TICKS 100)
      0x18 [3] 1 (stateAt 100000)).2.2.1 h3).1⟩,
    ⟨h4, ((recovery_failure_is_fatal levelFailBus (probeLink 0x18) (.pdMS_TO_TICKS 100)
      0x18 [3] 1 (stateAt 100000)).2.2.2 h4).1⟩⟩


/-! ## Statuses other than a timeout -/

/-- C13: for every environment, state, command link and timeout, when the
hardware submission reports a status other than `ESP_ERR_TIMEOUT`, the executor
returns that status unchanged and runs no recovery.  For
`i2c_bus_cmd_begin_unlocked` the submission is the only call made and the
fields of the bus are unchanged; for `i2c_bus_cmd_begin` the calls are taking
the lock, the submission and giving the lock, and the fields of the bus are
unchanged but for the lock, which is free.  No driver teardown, GPIO operation, delay or driver
set-up is among the calls. -/
theorem no_recovery_without_timeout (hal : Hal) (handle : i2c_cmd_handle_t)
    (timeout : TickType_t) (s : State) :
    (hal.answer s.trace (.i2c_master_cmd_begin s.bus.i2c_port handle timeout) ≠
        ESP_ERR_TIMEOUT →
      (i2c_bus_cmd_begin_unlocked hal handle timeout s).value =
        some (hal.answer s.trace (.i2c_master_cmd_begin s.bus.i2c_port handle timeout)) ∧
      newEvents s (i2c_bus_cmd_begin_unlocked hal handle timeout s) =
        [⟨.i2c_master_cmd_begin s.bus.i2c_port handle timeout,
          hal.answer s.trace (.i2c_master_cmd_begin s.bus.i2c_port handle timeout)⟩] ∧
      eventsOf Call.isRecovery
        (newEvents s (i2c_bus_cmd_begin_unlocked hal handle timeout s)) = [] ∧
      (i2c_bus_cmd_begin_unlocked hal handle timeout s).state.bus = s.bus) ∧
    (hal.answer (s.trace ++ [⟨.xSemaphoreTake, 0⟩])
        (.i2c_master_cmd_begin s.bus.i2c_port handle timeout) ≠ ESP_ERR_TIMEOUT →
      (i2c_bus_cmd_begin hal handle timeout s).value =
        some (hal.answer (s.trace ++ [⟨.xSemaphoreTake, 0⟩])
          (.i2c_master_cmd_begin s.bus.i2c_port handle timeout)) ∧
      newEvents s (i2c_bus_cmd_begin hal handle timeout s) =
        [⟨.xSemaphoreTake, 0⟩,
          ⟨.i2c_master_cmd_begin s.bus.i2c_port handle timeout,
            hal.answer (s.trace ++ [⟨.xSemaphoreTake, 0⟩])
              (.i2c_master_cmd_begin s.bus.i2c_port handle timeout)⟩,
          ⟨.xSemaphoreGive, 0⟩] ∧
      eventsOf Call.isRecovery (newEvents s (i2c_bus_cmd_begin hal handle timeout s)) = [] ∧
      (i2c_bus_cmd_begin hal handle timeout s).state.bus = { s.bus with lock := false }) := by
  constructor
  · intro hne
    have h : i2c_bus_cmd_begin_unlocked hal handle timeout s =
        .ret (hal.answer s.trace (.i2c_master_cmd_begin s.bus.i2c_port handle timeout))
          (afterSubmit hal handle timeout s) := by
      rw [cmd_begin_unlocked_apply, if_neg hne]
    have hn : newEvents s (i2c_bus_cmd_begin_unlocked hal handle timeout s) =
        [⟨.i2c_master_cmd_begin s.bus.i2c_port handle timeout,
          hal.answer s.trace (.i2c_master_cmd_begin s.bus.i2c_port handle timeout)⟩] := by
      rw [h]
      exact newEvents_of_trace _ _ _ (afterSubmit_trace hal handle timeout s)
    refine ⟨by rw [h]; rfl, hn, ?_, by rw [h]; rfl⟩
    rw [hn]
    rfl
  · intro hne
    have h : i2c_bus_cmd_begin_unlocked hal handle timeout
        ((s.setLock true).ext [⟨.xSemaphoreTake, 0⟩]) =
        .ret (hal.answer (s.trace ++ [⟨.xSemaphoreTake, 0⟩])
            (.i2c_master_cmd_begin s.bus.i2c_port handle timeout))
          (afterSubmit hal handle timeout ((s.setLock true).ext [⟨.xSemaphoreTake, 0⟩])) := by
      rw [cmd_begin_unlocked_apply]
      exact if_neg hne
    have hn : newEvents s (i2c_bus_cmd_begin hal handle timeout s) =
        [⟨.xSemaphoreTake, 0⟩,
          ⟨.i2c_master_cmd_begin s.bus.i2c_port handle timeout,
            hal.answer (s.trace ++ [⟨.xSemaphoreTake, 0⟩])
              (.i2c_master_cmd_begin s.bus.i2c_port handle timeout)⟩,
          ⟨.xSemaphoreGive, 0⟩] := by
      rw [cmd_begin_apply, h]
      apply newEvents_of_trace
      simp [Outcome.state]
    refine ⟨by rw [cmd_begin_apply, h]; rfl, hn, ?_, by rw [cmd_begin_apply, h]; rfl⟩
    rw [hn]
    rfl

/-- Witness of C13: a probe that is not acknowledged (`ESP_FAIL`) on a
simulated bus. -/
theorem no_recovery_without_timeout_witness :
    ((i2c_bus_cmd_begin_unlocked (simBus fun _ => ESP_FAIL) (probeLink 0x18)
        (.pdMS_TO_TICKS 100) (stateAt 100000)).value = some ESP_FAIL ∧
      newEvents (stateAt 100000)
        (i2c_bus_cmd_begin_unlocked (simBus fun _ => ESP_FAIL) (probeLink 0x18)
          (.pdMS_TO_TICKS 100) (stateAt 100000)) =
        [⟨.i2c_master_cmd_begin 0 (probeLink 0x18) (.pdMS_TO_TICKS 100), ESP_FAIL⟩]) ∧
    ((i2c_bus_cmd_begin (simBus fun _ => ESP_FAIL) (probeLink 0x18)
        (.pdMS_TO_TICKS 100) (stateAt 100000)).value = some ESP_FAIL ∧
      newEvents (stateAt 100000)
        (i2c_bus_cmd_begin (simBus fun _ => ESP_FAIL) (probeLink 0x18)
          (.pdMS_TO_TICKS 100) (stateAt 100000)) =
        [⟨.xSemaphoreTake, 0⟩,
          ⟨.i2c_master_cmd_begin 0 (probeLink 0x18) (.pdMS_TO_TICKS 100), ESP_FAIL⟩,
          ⟨.xSemaphoreGive, 0⟩]) :=
  have hne : ESP_FAIL ≠ ESP_ERR_TIMEOUT := by decide
  ⟨⟨((no_recovery_without_timeout (simBus fun _ => ESP_FAIL) (probeLink 0x18)
        (.pdMS_TO_TICKS 100) (stateAt 100000)).1 hne).1,
      ((no_recovery_without_timeout (simBus fun _ => ESP_FAIL) (probeLink 0x18)
        (.pdMS_TO_TICKS 100) (stateAt 100000)).1 hne).2.1⟩,
    ⟨((no_recovery_without_timeout (simBus fun _ => ESP_FAIL) (probeLink 0x18)
        (.pdMS_TO_TICKS 100) (stateAt 100000)).2 hne).1,
      ((no_recovery_without_timeout (simBus fun _ => ESP_FAIL) (probeLink 0x18)
        (.pdMS_TO_TICKS 100) (stateAt 100000)).2 hne).2.1⟩⟩


/-! ## The probes of a scan in any environment -/

theorem ScanRun.zero (i : Nat) (addr : i2c_address_set_t) (s : State) (err : esp_err_t) :
    ScanRun 0 i addr s (.ret (err, addr) s) := by
  refine ⟨[], by simp [Outcome.state], by simp [eventsOf_nil], rfl, ?_, ?_, ?_, ?_, ?_⟩
  · intro k x hk
    simp [probeSubmits] at hk
  · intro k c hk
    simp [eventsOf_nil] at hk
  · intro e found hv
    simp only [Outcome.value, Option.some.injEq, Prod.mk.injEq] at hv
    obtain ⟨_, rfl⟩ := hv
    refine ⟨fun _ _ => rfl, fun _ _ => rfl, by simp [eventsOf_nil], ?_⟩
    intro k hk
    simp [eventsOf_nil] at hk
  · rintro ⟨f, hf, _⟩
    simp at hf
  · intro _ _
    simp [eventsOf_nil]

end I2CBus
